import Mathlib

/-!
# azmq: socket operations and the message value type

A shallow embedding of `azmq/detail/socket_ops.hpp`, `azmq/message.hpp` and
`azmq/error.hpp`.  The calls into libzmq (`zmq_bind`, `zmq_msg_send`,
`zmq_msg_recv`, `zmq_getsockopt`) are the environment of the code: they are
taken as a deterministic state machine `Transport σ` over an arbitrary socket
state `σ`, and `sim` is one concrete instance (an in-process FIFO pipe with a
table of occupied endpoints) on which the code can be run.  `Api σ` adds the
calls of the remaining operations (`zmq_unbind`, `zmq_connect`,
`zmq_disconnect`, `zmq_setsockopt`, `zmq_socket_monitor`).

Conventions
* `uint16_t` values are `Nat` reduced `% 65536`; the `unsigned` loop index of
  the multipart send is a `Nat` reduced `% 4294967296`.
* `size_t` byte counts are `Nat`; a sum of frame sizes is bounded by the bytes
  actually transferred and is not reduced.
* `flags_type` (`int`) holds a set of flag bits and is a `Nat`.
* `asio::error_code` is the pair of its value and its category; it tests true
  exactly when the value is non-zero.
-/

namespace azmq

/-! ## error.hpp -/

/-- The error categories that occur: the default one of `asio::error_code()`,
the generic one of `std::make_error_code(std::errc)`, and `azmq::error_category`. -/
inductive error_category where
  | system
  | generic
  | zeromq
  deriving DecidableEq, Repr

/-- Member `name()` of the categories; `azmq::error_category::name` returns "ZeroMQ". -/
def error_category.name : error_category → String
  | .system => "system"
  | .generic => "generic"
  | .zeromq => "ZeroMQ"

/-- An `asio::error_code`: value and category. -/
structure error_code where
  value : Int
  category : error_category
  deriving DecidableEq, Repr

/-- The default constructed `asio::error_code()`. -/
def error_code.clear : error_code := ⟨0, .system⟩

/-- Conversion `if (ec)` of an error code: true when the value is non-zero. -/
def error_code.is_set (ec : error_code) : Bool := ec.value != 0

/-- Function `azmq::make_error_code(int ev = errno)`: the value in the ZeroMQ category. -/
def make_error_code (ev : Int) : error_code := ⟨ev, .zeromq⟩

/-- Value of `ENOBUFS` (Linux). -/
def ENOBUFS : Int := 105

/-- Value of `EAGAIN` (Linux). -/
def EAGAIN : Int := 11

/-- Value of `EADDRINUSE` (Linux). -/
def EADDRINUSE : Int := 98

/-- The call `make_error_code(std::errc::no_buffer_space)` in socket_ops: the
argument is a scoped enum, which does not convert to `int`, so overload
resolution takes `std::make_error_code(std::errc)` and the code is in the
generic category. -/
def no_buffer_space : error_code := ⟨ENOBUFS, .generic⟩

/-- Exceptions thrown by the embedded code.  The last one is no exception: it
stands for a step whose behaviour the language leaves undefined, after which
nothing is known. -/
inductive exception where
  | bad_cast
  | out_of_range
  | invalid_argument
  | system_error (ec : error_code)
  | assertion_failed
  | undefined_behaviour
  deriving DecidableEq, Repr

/-! ## The transport (libzmq) as seen by socket_ops -/

/-- A byte. -/
abbrev Byte := Fin 256

/-- What the transport carries for one message: the bytes (`zmq_msg_data`,
`zmq_msg_size`) and the more flag (`zmq_msg_more`). -/
structure frame where
  data : List Byte
  more : Bool
  deriving DecidableEq, Repr

/-- Flag `ZMQ_DONTWAIT`. -/
def ZMQ_DONTWAIT : Nat := 1

/-- Flag `ZMQ_SNDMORE`. -/
def ZMQ_SNDMORE : Nat := 2

/-- Constant `ZMQ_RCVMORE` (an option name, which the code also ors into receive flags). -/
def ZMQ_RCVMORE : Nat := 13

/-- The libzmq calls made by socket_ops, as a deterministic state machine on a
socket state `σ`.  Each call returns its `rc` and the next state; `zmq_errno`
reads the `errno` left by the last call. -/
structure Transport (σ : Type) where
  /-- Call `zmq_bind(socket, ep)`: rc. -/
  zmq_bind : σ → String → Int × σ
  /-- Call `zmq_msg_send(&msg, socket, flags)`: rc (bytes sent, or negative). -/
  zmq_msg_send : σ → frame → Nat → Int × σ
  /-- Call `zmq_msg_recv(&msg, socket, flags)`: rc (bytes received, or negative) and the message afterwards. -/
  zmq_msg_recv : σ → frame → Nat → Int × frame × σ
  /-- Call `zmq_getsockopt(socket, ZMQ_RCVMORE, &more, &size)`: rc and the value stored in `more`. -/
  zmq_getsockopt_rcvmore : σ → Int × Int × σ
  /-- Variable `errno`. -/
  zmq_errno : σ → Int

/-! ## socket_ops::bind -/

deriving instance DecidableEq for Except

namespace socket_ops

/-- Class `\d` of the regular expressions. -/
def is_digit (c : Char) : Bool := decide ('0' ≤ c) && decide (c ≤ '9')

/-- Class `.` of the regular expressions: any character but a line terminator. -/
def is_dot (c : Char) : Bool := c != Char.ofNat 10 && c != Char.ofNat 13

/-- Split at the last colon: the characters before it and after it. -/
def split_last_colon (s : List Char) : Option (List Char × List Char) :=
  match s.reverse.dropWhile (fun c => c != ':') with
  | [] => none
  | _ :: pre => some (pre.reverse, (s.reverse.takeWhile (fun c => c != ':')).reverse)

/-- A match of `simple_tcp`, the expression `^tcp://.*:(\d+)$`: group 1.  The digits hold
no colon, so the colon of the expression is the last colon of the string. -/
def simple_tcp (ep : String) : Option (List Char) :=
  match split_last_colon ep.toList with
  | none => none
  | some (pre, d) =>
    if "tcp://".toList.isPrefixOf pre && (pre.drop 6).all is_dot && !d.isEmpty && d.all is_digit
    then some d else none

/-- The groups 1, 2, 4 and 5 of a match of `dynamic_tcp`. -/
structure dynamic_match where
  hostname : String
  opcode : Char
  first_str : List Char
  last_str : List Char
  deriving DecidableEq, Repr

/-- The optional range `(\[(\d+)?-(\d+)?\])?`: groups 4 and 5, empty when absent. -/
def match_range (r : List Char) : Option (List Char × List Char) :=
  match r with
  | [] => some ([], [])
  | c :: body =>
    if c == '[' && body.getLast? == some ']' then
      let inner := body.dropLast
      let d1 := inner.takeWhile (fun x => x != '-')
      match inner.dropWhile (fun x => x != '-') with
      | [] => none
      | _ :: d2 => if d1.all is_digit && d2.all is_digit then some (d1, d2) else none
    else none

/-- A match of `dynamic_tcp`, the expression `^(tcp://.*):([*!])(\[(\d+)?-(\d+)?\])?$`.
Nothing after the colon of the expression is a colon, so it is the last colon
of the string. -/
def dynamic_tcp (ep : String) : Option dynamic_match :=
  match split_last_colon ep.toList with
  | none => none
  | some (pre, suf) =>
    match suf with
    | [] => none
    | op :: r =>
      if "tcp://".toList.isPrefixOf pre && (pre.drop 6).all is_dot && (op == '*' || op == '!') then
        match match_range r with
        | some (d1, d2) => some ⟨String.mk pre, op, d1, d2⟩
        | none => none
      else none

/-- Value of a string of decimal digits. -/
def digits_value (s : List Char) : Nat :=
  s.foldl (fun acc c => 10 * acc + (c.toNat - '0'.toNat)) 0

/-- Constant `INT_MAX`. -/
def INT_MAX : Nat := 2147483647

/-- Constant `UINT16_MAX`. -/
def UINT16_MAX : Nat := 65535

/-- Function `std::stoi` on a string of digits: the value, `std::out_of_range` when it
does not fit an `int`, `std::invalid_argument` when there is no digit. -/
def stoi (s : List Char) : Except exception Nat :=
  if s.isEmpty then .error .invalid_argument
  else if digits_value s > INT_MAX then .error .out_of_range
  else .ok (digits_value s)

/-- Enumerator `dynamic_port::first`, 0xc000. -/
def dynamic_port.first : Nat := 0xc000

/-- Enumerator `dynamic_port::last`, 0xffff. -/
def dynamic_port.last : Nat := 0xffff

/-- A draw of `std::uniform_int_distribution<>(a, b)` from the generator output
`gen`: a value of `[a, b]`, every one of them for some `gen`.  The distribution
requires `a ≤ b`; with `a > b` its behaviour is undefined, and `bind` below does
not come to this function then. -/
def uniform_int_distribution (a b gen : Nat) : Nat := a + gen % (b - a + 1)

/-- The loop `while (rc < 0 && attempts--)` of the dynamic bind; `attempts` is the
number of times the post-decrement can still yield non-zero. -/
def bind_loop {σ : Type} (T : Transport σ) (hostname : String) (first last : Nat) :
    Nat → Int → Nat → String → σ → Int × String × σ
  | 0, rc, _, ep, socket => (rc, ep, socket)
  | attempts + 1, rc, port, ep, socket =>
    if rc < 0 then
      let ep1 := hostname ++ ":" ++ toString port
      let r := T.zmq_bind socket ep1
      let rc1 : Int := if r.1 = 0 then (port : Int) else rc
      let port1 := (port + 1) % 65536
      let port2 := if port1 > last then first else port1
      bind_loop T hostname first last attempts rc1 port2 ep1 r.2
    else (rc, ep, socket)

/-- The value of `attempts = last - first` (an `int`) as a number of iterations:
counting down from a negative value passes through `INT_MIN` and reaches zero
after `attempts mod 2^32` steps. -/
def attempts_count (first last : Nat) : Nat :=
  (((last : Int) - (first : Int)) % 4294967296).toNat

/-- Function `socket_ops::bind`.  `gen` is the next output of the static generator.
The result is the exception thrown, or the returned error code with the
endpoint and socket afterwards.  With the opcode `!` and `first > last` the
distribution is constructed against its precondition: undefined behaviour. -/
def bind {σ : Type} (T : Transport σ) (gen : Nat) (socket : σ) (ep : String) (ec : error_code) :
    Except (exception × σ) (error_code × String × σ) :=
  let finish := fun (rc : Int) (ep1 : String) (s : σ) =>
    if rc < 0 then (make_error_code (T.zmq_errno s), ep1, s) else (ec, ep1, s)
  match simple_tcp ep with
  | some port_str =>
    let r := T.zmq_bind socket ep
    if r.1 = 0 then
      match stoi port_str with
      | .ok rc => .ok (finish rc ep r.2)
      | .error e => .error (e, r.2)
    else .ok (finish (-1) ep r.2)
  | none =>
    match dynamic_tcp ep with
    | some m =>
      let too_big := fun (s : List Char) =>
        if s.isEmpty then Except.ok false
        else match stoi s with
          | .ok v => Except.ok (decide (v > UINT16_MAX))
          | .error e => Except.error e
      match too_big m.first_str with
      | .error e => .error (e, socket)
      | .ok true => .error (.bad_cast, socket)
      | .ok false =>
        match too_big m.last_str with
        | .error e => .error (e, socket)
        | .ok true => .error (.bad_cast, socket)
        | .ok false =>
          let first := if m.first_str.isEmpty then dynamic_port.first
                       else digits_value m.first_str % 65536
          let last := if m.last_str.isEmpty then dynamic_port.last
                      else digits_value m.last_str % 65536
          if m.opcode == '!' && decide (first > last) then .error (.undefined_behaviour, socket)
          else
            let port := if m.opcode == '!' then uniform_int_distribution first last gen % 65536
                        else first
            let r := bind_loop T m.hostname first last (attempts_count first last) (-1) port ep
              socket
            .ok (finish r.1 r.2.1 r.2.2)
    | none =>
      let r := T.zmq_bind socket ep
      .ok (finish r.1 ep r.2)

/-! ## socket_ops: send, receive, receive_more, flush

A message is held here by what the transport sees of it, a `frame`.  The
temporary `message(*it)` of the multipart send is the frame of the buffer's
bytes; its allocation is taken to succeed. -/

/-- Function `socket_ops::get_socket_rcvmore`. -/
def get_socket_rcvmore {σ : Type} (T : Transport σ) (socket : σ) : Bool × σ :=
  let r := T.zmq_getsockopt_rcvmore socket
  if r.1 = 0 then (r.2.1 == 1, r.2.2) else (false, r.2.2)

/-- Function `socket_ops::send(message const&, socket, flags, ec)`: the returned
size, the socket and the error code afterwards. -/
def send_message {σ : Type} (T : Transport σ) (msg : frame) (socket : σ) (flags : Nat)
    (ec : error_code) : Nat × σ × error_code :=
  let r := T.zmq_msg_send socket msg flags
  if r.1 < 0 then (0, r.2, make_error_code (T.zmq_errno r.2))
  else (r.1.toNat, r.2, ec)

/-- The `for` loop of `socket_ops::send(ConstBufferSequence const&, ...)`: `last` is
the distance minus one, `index` the `unsigned` counter. -/
def send_loop {σ : Type} (T : Transport σ) (last : Int) (flags : Nat) :
    List (List Byte) → Nat → Nat → σ → error_code → Nat × σ × error_code
  | [], _, res, socket, ec => (res, socket, ec)
  | b :: rest, index, res, socket, ec =>
    let f := if (index : Int) = last then flags else flags ||| ZMQ_SNDMORE
    let r := send_message T ⟨b, false⟩ socket f ec
    if r.2.2.is_set then (0, r.2.1, r.2.2)
    else send_loop T last flags rest ((index + 1) % 4294967296) (res + r.1) r.2.1 r.2.2

/-- Function `socket_ops::send(ConstBufferSequence const&, socket, flags, ec)`. -/
def send {σ : Type} (T : Transport σ) (buffers : List (List Byte)) (socket : σ) (flags : Nat)
    (ec : error_code) : Nat × σ × error_code :=
  send_loop T ((buffers.length : Int) - 1) flags buffers 0 0 socket ec

/-- What `socket_ops::receive(message&, ...)` leaves behind. -/
structure received (σ : Type) where
  sz : Nat
  msg : frame
  socket : σ
  ec : error_code
  deriving DecidableEq

/-- Function `socket_ops::receive(message&, socket, flags, ec)`. -/
def receive_message {σ : Type} (T : Transport σ) (msg : frame) (socket : σ) (flags : Nat)
    (ec : error_code) : received σ :=
  let r := T.zmq_msg_recv socket msg flags
  if r.1 < 0 then ⟨0, r.2.1, r.2.2, make_error_code (T.zmq_errno r.2.2)⟩
  else ⟨r.1.toNat, r.2.1, r.2.2, ec⟩

/-- Function `asio::buffer_copy(target, source)`: the number of bytes copied and the
target afterwards. -/
def buffer_copy (target source : List Byte) : Nat × List Byte :=
  (min target.length source.length,
    source.take (min target.length source.length) ++ target.drop (min target.length source.length))

/-- What the buffer sequence receive leaves behind. -/
structure receive_result (σ : Type) where
  res : Nat
  buffers : List (List Byte)
  socket : σ
  ec : error_code
  deriving DecidableEq

/-- A step outside the language: `*it` at the end of the buffer sequence. -/
inductive fault where
  | dereference_end
  deriving DecidableEq, Repr

/-- The `do ... while` loop of `socket_ops::receive(MutableBufferSequence const&, ...)`:
`it` is the rest of the sequence from the iterator on, `done` the buffers before it. -/
def receive_loop {σ : Type} (T : Transport σ) :
    List (List Byte) → List (List Byte) → frame → Nat → Nat → σ → error_code →
      Except (fault × σ) (receive_result σ)
  | [], done, msg, _, flags, socket, ec =>
    let r := receive_message T msg socket flags ec
    if r.ec.is_set then .ok ⟨0, done, r.socket, r.ec⟩
    else .error (.dereference_end, r.socket)
  | b :: rest, done, msg, res, flags, socket, ec =>
    let r := receive_message T msg socket flags ec
    if r.ec.is_set then .ok ⟨0, done ++ b :: rest, r.socket, r.ec⟩
    else
      let c := buffer_copy b r.msg.data
      if c.1 < r.sz then .ok ⟨0, done ++ c.2 :: rest, r.socket, no_buffer_space⟩
      else if !rest.isEmpty && r.msg.more then
        receive_loop T rest (done ++ [c.2]) r.msg (res + r.sz) (flags ||| ZMQ_RCVMORE) r.socket r.ec
      else
        .ok ⟨res + r.sz, done ++ c.2 :: rest, r.socket,
              if r.msg.more then no_buffer_space else r.ec⟩

/-- The message made by `message()`: no bytes, more flag clear. -/
def empty_message : frame := ⟨[], false⟩

/-- Function `socket_ops::receive(MutableBufferSequence const&, socket, flags, ec)`. -/
def receive {σ : Type} (T : Transport σ) (buffers : List (List Byte)) (socket : σ) (flags : Nat)
    (ec : error_code) : Except (fault × σ) (receive_result σ) :=
  receive_loop T buffers [] empty_message 0 flags socket ec

/-- What `receive_more` leaves behind. -/
structure receive_more_result (σ : Type) where
  res : Nat
  vec : List frame
  socket : σ
  ec : error_code
  deriving DecidableEq

/-- The `do ... while (more)` loop of `socket_ops::receive_more`, cut off after `fuel`
iterations (`none`). -/
def receive_more_loop {σ : Type} (T : Transport σ) :
    Nat → List frame → frame → Nat → Nat → σ → error_code → Option (receive_more_result σ)
  | 0, _, _, _, _, _, _ => none
  | fuel + 1, vec, msg, res, flags, socket, ec =>
    let r := receive_message T msg socket flags ec
    if r.ec.is_set then some ⟨0, vec, r.socket, r.ec⟩
    else if r.msg.more then
      receive_more_loop T fuel (vec ++ [r.msg]) empty_message (res + r.sz)
        (flags ||| ZMQ_RCVMORE) r.socket r.ec
    else some ⟨res + r.sz, vec ++ [r.msg], r.socket, r.ec⟩

/-- Function `socket_ops::receive_more(vec, socket, flags, ec)`, with `fuel` for the loop. -/
def receive_more {σ : Type} (T : Transport σ) (fuel : Nat) (vec : List frame) (socket : σ)
    (flags : Nat) (ec : error_code) : Option (receive_more_result σ) :=
  receive_more_loop T fuel vec empty_message 0 flags socket ec

/-- The `while (get_socket_rcvmore(socket))` loop of `socket_ops::flush`, cut off after
`fuel` evaluations of the condition (`none`). -/
def flush_loop {σ : Type} (T : Transport σ) :
    Nat → frame → Nat → σ → error_code → Option (Nat × σ × error_code)
  | 0, _, _, _, _ => none
  | fuel + 1, msg, res, socket, ec =>
    let g := get_socket_rcvmore T socket
    if g.1 then
      let r := receive_message T msg g.2 ZMQ_RCVMORE ec
      if r.ec.is_set then some (0, r.socket, r.ec)
      else flush_loop T fuel r.msg (res + r.sz) r.socket r.ec
    else some (res, g.2, ec)

/-- Function `socket_ops::flush(socket, ec)`, with `fuel` for the loop. -/
def flush {σ : Type} (T : Transport σ) (fuel : Nat) (socket : σ) (ec : error_code) :
    Option (Nat × σ × error_code) :=
  flush_loop T fuel empty_message 0 socket ec

end socket_ops

/-! ## Recording the calls made to the transport -/

/-- A call into the transport, with its arguments. -/
inductive call where
  | bind (ep : String)
  | msg_send (msg : frame) (flags : Nat)
  | msg_recv (flags : Nat)
  | getsockopt_rcvmore
  deriving DecidableEq, Repr

/-- The transport `T` run next to a record of the calls made to it, oldest first.
The answers are those of `T`. -/
def recording {σ : Type} (T : Transport σ) : Transport (σ × List call) where
  zmq_bind := fun s ep => ((T.zmq_bind s.1 ep).1, ((T.zmq_bind s.1 ep).2, s.2 ++ [.bind ep]))
  zmq_msg_send := fun s m f =>
    ((T.zmq_msg_send s.1 m f).1, ((T.zmq_msg_send s.1 m f).2, s.2 ++ [.msg_send m f]))
  zmq_msg_recv := fun s m f =>
    ((T.zmq_msg_recv s.1 m f).1, (T.zmq_msg_recv s.1 m f).2.1,
      ((T.zmq_msg_recv s.1 m f).2.2, s.2 ++ [.msg_recv f]))
  zmq_getsockopt_rcvmore := fun s =>
    ((T.zmq_getsockopt_rcvmore s.1).1, (T.zmq_getsockopt_rcvmore s.1).2.1,
      ((T.zmq_getsockopt_rcvmore s.1).2.2, s.2 ++ [.getsockopt_rcvmore]))
  zmq_errno := fun s => T.zmq_errno s.1

/-! ## A concrete transport -/

/-- State of the simulated socket: the endpoints already in use, the frames waiting
to be received, the frames sent, the more flag of the last frame received, and
`errno`. -/
structure sim_socket where
  in_use : List String
  inbox : List frame
  outbox : List frame
  rcvmore : Bool
  errno : Int
  deriving DecidableEq, Repr

/-- The simulated transport: `zmq_bind` refuses an endpoint in use with
`EADDRINUSE`; `zmq_msg_send` appends the frame to the outbox, with the more flag
taken from the `ZMQ_SNDMORE` bit; `zmq_msg_recv` takes the head of the inbox, or
fails with `EAGAIN` when it is empty. -/
def sim : Transport sim_socket where
  zmq_bind := fun s ep =>
    if ep ∈ s.in_use then (-1, { s with errno := EADDRINUSE })
    else (0, { s with in_use := ep :: s.in_use })
  zmq_msg_send := fun s m flags =>
    ((m.data.length : Int),
      { s with outbox := s.outbox ++ [⟨m.data, decide (flags &&& ZMQ_SNDMORE ≠ 0)⟩] })
  zmq_msg_recv := fun s m _ =>
    match s.inbox with
    | [] => (-1, m, { s with errno := EAGAIN })
    | f :: rest => ((f.data.length : Int), f, { s with inbox := rest, rcvmore := f.more })
  zmq_getsockopt_rcvmore := fun s => (0, if s.rcvmore then 1 else 0, s)
  zmq_errno := fun s => s.errno

/-- The simulated transport with a high water mark: `zmq_msg_send` fails with
`EAGAIN` once `hwm` frames are waiting in the outbox. -/
def sim_hwm (hwm : Nat) : Transport sim_socket where
  zmq_bind := sim.zmq_bind
  zmq_msg_send := fun s m flags =>
    if s.outbox.length < hwm then sim.zmq_msg_send s m flags
    else (-1, { s with errno := EAGAIN })
  zmq_msg_recv := sim.zmq_msg_recv
  zmq_getsockopt_rcvmore := sim.zmq_getsockopt_rcvmore
  zmq_errno := sim.zmq_errno

/-- The frames of one logical message with the payloads `fs`: the more flag is set
on all but the last. -/
def multipart : List (List Byte) → List frame
  | [] => []
  | b :: rest => ⟨b, !rest.isEmpty⟩ :: multipart rest

/-- Sum of the sizes of the payloads. -/
def total_size (fs : List (List Byte)) : Nat := (fs.map List.length).sum

/-- The message with payloads `fs` does not fit the buffers: a payload is larger
than its buffer, or payloads are left when the buffers are used up. -/
def misfit : List (List Byte) → List (List Byte) → Bool
  | _, [] => false
  | [], _ :: _ => true
  | b :: bs, f :: fs => decide (b.length < f.length) || misfit bs fs

/-- The buffers after each of the first payloads has been copied into its buffer. -/
def filled : List (List Byte) → List (List Byte) → List (List Byte)
  | b :: bs, f :: fs => (socket_ops.buffer_copy b f).2 :: filled bs fs
  | bs, [] => bs
  | [], _ :: _ => []

/-- The payloads not taken from the socket by a receive into the buffers: those
after the first payload larger than its buffer, or after the last buffer. -/
def leftover : List (List Byte) → List (List Byte) → List (List Byte)
  | _, [] => []
  | [], f :: fs => f :: fs
  | b :: bs, f :: fs => if b.length < f.length then fs else leftover bs fs

/-- The `zmq_msg_send` calls of a multipart send of `buffers`: each buffer as a
message, with `ZMQ_SNDMORE` added to the flags of all but the last. -/
def send_plan (flags : Nat) : List (List Byte) → List (frame × Nat)
  | [] => []
  | b :: rest =>
    (⟨b, false⟩, if rest.isEmpty then flags else flags ||| ZMQ_SNDMORE) :: send_plan flags rest

/-- The socket after the `zmq_msg_send` calls `cs` have been made in turn. -/
def after_sends {σ : Type} (T : Transport σ) (s : σ) : List (frame × Nat) → σ
  | [] => s
  | c :: cs => after_sends T (T.zmq_msg_send s c.1 c.2).2 cs

/-- The `rc` of each of the `zmq_msg_send` calls `cs` when they are made in turn. -/
def send_rcs {σ : Type} (T : Transport σ) (s : σ) : List (frame × Nat) → List Int
  | [] => []
  | c :: cs => (T.zmq_msg_send s c.1 c.2).1 :: send_rcs T (T.zmq_msg_send s c.1 c.2).2 cs

/-- From the state `s` the transport delivers the frames `frs` one after the other
without error, whatever message and flags are passed: each `zmq_msg_recv`
returns the size of the next frame and leaves that frame in the message. -/
def delivers {σ : Type} (T : Transport σ) : σ → List frame → Prop
  | _, [] => True
  | s, fr :: rest => ∀ (msg : frame) (flags : Nat),
      (T.zmq_msg_recv s msg flags).1 = (fr.data.length : Int) ∧
      (T.zmq_msg_recv s msg flags).2.1 = fr ∧
      delivers T (T.zmq_msg_recv s msg flags).2.2 rest

/-! ## libzmq messages (`zmq_msg_t`), the environment of message.hpp

The message functions of libzmq 4.0 (`msg.cpp`), on which the type and flag
constants quoted in message.hpp rest.  A very small message keeps its
bytes inside the `zmq_msg_t`; a large one points to a reference counted
`content_t`; a constant one points to memory it does not own. -/

/-- Largest size kept inside the `zmq_msg_t` (`max_vsm_size`). -/
def max_vsm_size : Nat := 29

/-- Bytes taken by a `content_t` header. -/
def sizeof_content_t : Nat := 40

/-- Value of `ENOMEM` (Linux). -/
def ENOMEM : Int := 12

/-- Value of `EFAULT` (Linux). -/
def EFAULT : Int := 14

/-- Flag bit `msg_t::more`. -/
def flag_more : Nat := 1

/-- Flag bit `msg_t::shared`, the `flag_shared` of message.hpp. -/
def flag_shared : Nat := 128

/-- Type code `type_vsm`. -/
def type_vsm : Nat := 101

/-- Type code `type_lmsg`. -/
def type_lmsg : Nat := 102

/-- Type code `type_cmsg`, as in message.hpp. -/
def type_cmsg : Nat := 104

/-- A `content_t`: the block holding the bytes, the size, the free function with
its hint, and the reference count. -/
structure content_t where
  data : Nat
  size : Nat
  ffn : Option Nat
  hint : Nat
  refcnt : Nat
  deriving DecidableEq, Repr

/-- The union inside a `zmq_msg_t`. -/
inductive msg_body where
  | vsm (data : List Byte)
  | lmsg (content : Nat)
  | cmsg (data : Nat) (size : Nat)
  | closed
  deriving DecidableEq, Repr

/-- A `zmq_msg_t`: the body and the flags byte. -/
structure zmq_msg_t where
  body : msg_body
  flags : Nat
  deriving DecidableEq, Repr

/-- The memory the messages live in: blocks of bytes by address, `content_t`
records by address (`none` once freed), the bytes `malloc` can still hand out,
and the calls `ffn (data, hint)` made so far, oldest first. -/
structure Heap where
  mem : List (List Byte)
  contents : List (Option content_t)
  avail : Nat
  ffn_calls : List (Nat × Nat × Nat)
  deriving DecidableEq, Repr

/-- The live `content_t` at an address. -/
def Heap.content (h : Heap) (k : Nat) : Option content_t := (h.contents.getD k none)

/-- The block at an address. -/
def Heap.block (h : Heap) (p : Nat) : List Byte := h.mem.getD p []

/-- The type byte of a message. -/
def zmq_msg_t.type (m : zmq_msg_t) : Nat :=
  match m.body with
  | .vsm _ => type_vsm
  | .lmsg _ => type_lmsg
  | .cmsg _ _ => type_cmsg
  | .closed => 0

/-- Function `zmq_msg_init`: an empty very small message. -/
def zmq_msg_init : zmq_msg_t := ⟨.vsm [], 0⟩

/-- Function `zmq_msg_init_size`: the message and heap, or `ENOMEM`.  New bytes read as zero. -/
def zmq_msg_init_size (h : Heap) (size : Nat) : Except Int (zmq_msg_t × Heap) :=
  if size ≤ max_vsm_size then .ok (⟨.vsm (List.replicate size 0), 0⟩, h)
  else if sizeof_content_t + size ≤ h.avail then
    .ok (⟨.lmsg h.contents.length, 0⟩,
      { h with mem := h.mem ++ [List.replicate size 0],
               contents := h.contents ++ [some ⟨h.mem.length, size, none, 0, 0⟩],
               avail := h.avail - (sizeof_content_t + size) })
  else .error ENOMEM

/-- Function `zmq_msg_init_data`: a constant message when there is no free function,
else a large message over the caller's block. -/
def zmq_msg_init_data (h : Heap) (data size : Nat) (ffn : Option Nat) (hint : Nat) :
    Except Int (zmq_msg_t × Heap) :=
  match ffn with
  | none => .ok (⟨.cmsg data size, 0⟩, h)
  | some f =>
    if sizeof_content_t ≤ h.avail then
      .ok (⟨.lmsg h.contents.length, 0⟩,
        { h with contents := h.contents ++ [some ⟨data, size, some f, hint, 0⟩],
                 avail := h.avail - sizeof_content_t })
    else .error ENOMEM

/-- Function `zmq_msg_data`: the bytes of the message. -/
def zmq_msg_data (h : Heap) (m : zmq_msg_t) : List Byte :=
  match m.body with
  | .vsm d => d
  | .lmsg k =>
    match h.content k with
    | some c => (h.block c.data).take c.size
    | none => []
  | .cmsg p n => (h.block p).take n
  | .closed => []

/-- Function `zmq_msg_size`. -/
def zmq_msg_size (h : Heap) (m : zmq_msg_t) : Nat :=
  match m.body with
  | .vsm d => d.length
  | .lmsg k =>
    match h.content k with
    | some c => c.size
    | none => 0
  | .cmsg _ n => n
  | .closed => 0

/-- Function `zmq_msg_more`. -/
def zmq_msg_more (m : zmq_msg_t) : Bool := m.flags &&& flag_more != 0

/-- Release of a `content_t`: the free function is called if there is one, and the
record is freed. -/
def Heap.free_content (h : Heap) (k : Nat) (c : content_t) : Heap :=
  { h with contents := h.contents.set k none,
           avail := h.avail + sizeof_content_t + (if c.ffn.isNone then c.size else 0),
           ffn_calls := match c.ffn with
             | some f => h.ffn_calls ++ [(f, c.data, c.hint)]
             | none => h.ffn_calls }

/-- Function `zmq_msg_close`: a large message gives up its content when it is not
shared or its count (a 32 bit counter) drops to zero; the message becomes
invalid.  `EFAULT` on an invalid message. -/
def zmq_msg_close (h : Heap) (m : zmq_msg_t) : Except Int (zmq_msg_t × Heap) :=
  match m.body with
  | .closed => .error EFAULT
  | .lmsg k =>
    match h.content k with
    | some c =>
      let n := (c.refcnt + 4294967295) % 4294967296
      if m.flags &&& flag_shared = 0 || n == 0 then
        .ok (⟨.closed, m.flags⟩, h.free_content k c)
      else
        .ok (⟨.closed, m.flags⟩,
          { h with contents := h.contents.set k (some { c with refcnt := n }) })
    | none => .ok (⟨.closed, m.flags⟩, h)
  | _ => .ok (⟨.closed, m.flags⟩, h)

/-- Function `zmq_msg_move (dst, src)`: the destination, the source and the heap afterwards. -/
def zmq_msg_move (h : Heap) (dst src : zmq_msg_t) : Except Int (zmq_msg_t × zmq_msg_t × Heap) :=
  match src.body with
  | .closed => .error EFAULT
  | _ =>
    match zmq_msg_close h dst with
    | .error e => .error e
    | .ok (_, h1) => .ok (src, zmq_msg_init, h1)

/-- Function `zmq_msg_copy (dst, src)`: the destination, the source and the heap
afterwards.  A large source becomes shared, with count two, or has one added
to its count. -/
def zmq_msg_copy (h : Heap) (dst src : zmq_msg_t) : Except Int (zmq_msg_t × zmq_msg_t × Heap) :=
  match src.body with
  | .closed => .error EFAULT
  | .lmsg k =>
    match zmq_msg_close h dst with
    | .error e => .error e
    | .ok (_, h1) =>
      let src1 : zmq_msg_t := ⟨src.body, src.flags ||| flag_shared⟩
      match h1.content k with
      | some c =>
        let n := if src.flags &&& flag_shared ≠ 0 then (c.refcnt + 1) % 4294967296 else 2
        .ok (src1, src1, { h1 with contents := h1.contents.set k (some { c with refcnt := n }) })
      | none => .ok (src1, src1, h1)
  | _ =>
    match zmq_msg_close h dst with
    | .error e => .error e
    | .ok (_, h1) => .ok (src, src, h1)

/-- The bytes `old` with `bytes` written over their start. -/
def overwrite (old bytes : List Byte) : List Byte := bytes ++ old.drop bytes.length

/-- A write of `bytes` at the address `zmq_msg_data (&m)`: into the message itself
when it is very small, else into the block it points to. -/
def poke (h : Heap) (m : zmq_msg_t) (bytes : List Byte) : zmq_msg_t × Heap :=
  match m.body with
  | .vsm d => (⟨.vsm (overwrite d bytes), m.flags⟩, h)
  | .lmsg k =>
    match h.content k with
    | some c => (m, { h with mem := h.mem.set c.data (overwrite (h.block c.data) bytes) })
    | none => (m, h)
  | .cmsg p _ => (m, { h with mem := h.mem.set p (overwrite (h.block p) bytes) })
  | .closed => (m, h)

/-! ## message.hpp -/

/-- A `message`: its member `msg_`. -/
structure message where
  msg_ : zmq_msg_t
  deriving DecidableEq, Repr

namespace message

/-- Constructor `message()`. -/
def default : message := ⟨zmq_msg_init⟩

/-- Constructor `message(size_t size)`. -/
def with_size (h : Heap) (size : Nat) : Except exception (message × Heap) :=
  match zmq_msg_init_size h size with
  | .error e => .error (.system_error (make_error_code e))
  | .ok (m, h1) => .ok (⟨m⟩, h1)

/-- Constructor `message(asio::const_buffer const& buffer)`; `buffer` is the bytes the
buffer denotes. -/
def from_buffer (h : Heap) (buffer : List Byte) : Except exception (message × Heap) :=
  let sz := buffer.length
  match zmq_msg_init_size h sz with
  | .error e => .error (.system_error (make_error_code e))
  | .ok (m, h1) =>
    let w := poke h1 m (buffer.take (min sz buffer.length))
    .ok (⟨w.1⟩, w.2)

/-- Constructor `message(const std::string& str)`, delegating to the buffer constructor. -/
def from_string (h : Heap) (str : List Byte) : Except exception (message × Heap) :=
  from_buffer h str

/-- Constructor `message(nocopy_t, mutable_buffer const&, void* hint, zmq_free_fn* deleter)`
over the block `data` of `size` bytes. -/
def nocopy_raw (h : Heap) (data size hint : Nat) (deleter : Option Nat) :
    Except exception (message × Heap) :=
  match zmq_msg_init_data h data size deleter hint with
  | .error e => .error (.system_error (make_error_code e))
  | .ok (m, h1) => .ok (⟨m⟩, h1)

/-- Constructor `message(nocopy_t, asio::const_buffer const&)`: no deleter, no hint. -/
def nocopy_const (h : Heap) (data size : Nat) : Except exception (message × Heap) :=
  nocopy_raw h data size 0 none

/-- Function id of the lambda `call_deleter`. -/
def call_deleter : Nat := 0

/-- Constructors `message(nocopy_t, mutable_buffer const&, Deleter&&)` and
`message(nocopy_t, mutable_buffer const&, free_fn*)`: the free function is
`call_deleter` and the hint is the deleter. -/
def nocopy (h : Heap) (data size deleter : Nat) : Except exception (message × Heap) :=
  match zmq_msg_init_data h data size (some call_deleter) deleter with
  | .error e => .error (.system_error (make_error_code e))
  | .ok (m, h1) => .ok (⟨m⟩, h1)

/-- Move constructor `message(message && rhs)`: the new message and `rhs` afterwards. -/
def move_construct (rhs : message) : message × message :=
  (⟨rhs.msg_⟩, ⟨zmq_msg_init⟩)

/-- Move assignment `operator=(message && rhs)`: `msg_ = rhs.msg_` and `rhs` initialised
again; the old `msg_` is overwritten as it is. -/
def move_assign (_self rhs : message) : message × message :=
  (⟨rhs.msg_⟩, ⟨zmq_msg_init⟩)

/-- Copy constructor `message(message const& rhs)`: the new message, `rhs` and the heap
afterwards. -/
def copy_construct (h : Heap) (rhs : message) : Except exception (message × message × Heap) :=
  match zmq_msg_copy h zmq_msg_init rhs.msg_ with
  | .error e => .error (.system_error (make_error_code e))
  | .ok (d, s, h1) => .ok (⟨d⟩, ⟨s⟩, h1)

/-- Copy assignment `operator=(message const& rhs)`: this message, `rhs` and the heap
afterwards. -/
def copy_assign (h : Heap) (self rhs : message) : Except exception (message × message × Heap) :=
  match zmq_msg_copy h self.msg_ rhs.msg_ with
  | .error e => .error (.system_error (make_error_code e))
  | .ok (d, s, h1) => .ok (⟨d⟩, ⟨s⟩, h1)

/-- Member `close()`, the body of the destructor. -/
def close (h : Heap) (m : message) : Heap :=
  match zmq_msg_close h m.msg_ with
  | .ok (_, h1) => h1
  | .error _ => h

/-- Member `data()`. -/
def data (h : Heap) (m : message) : List Byte := zmq_msg_data h m.msg_

/-- Member `size()`. -/
def size (h : Heap) (m : message) : Nat := zmq_msg_size h m.msg_

/-- Member `string()`: `std::string(data(), size())`. -/
def string (h : Heap) (m : message) : List Byte := (data h m).take (size h m)

/-- Member `more()`. -/
def more (m : message) : Bool := zmq_msg_more m.msg_

/-- Member `flags()`: the last byte of the `zmq_msg_t`. -/
def flags (m : message) : Nat := m.msg_.flags

/-- Member `type()`: the byte before the last of the `zmq_msg_t`. -/
def type (m : message) : Nat := m.msg_.type

/-- Member `is_shared()`. -/
def is_shared (m : message) : Bool := (m.flags &&& flag_shared != 0) || m.type == type_cmsg

/-- Member `deep_copy()`: the content goes to `tmp`, `msg_` is made anew with the
same size, the bytes are copied, and `tmp` is closed on leaving the scope. -/
def deep_copy (h : Heap) (m : message) : Except exception (message × Heap) :=
  let sz := size h m
  match zmq_msg_move h zmq_msg_init m.msg_ with
  | .error _ => .error .assertion_failed
  | .ok (tmp, _, h1) =>
    match zmq_msg_init_size h1 sz with
    | .error e => .error (.system_error (make_error_code e))
    | .ok (msg2, h2) =>
      let w := poke h2 msg2 ((zmq_msg_data h2 tmp).take sz)
      match zmq_msg_close w.2 tmp with
      | .ok (_, h3) => .ok (⟨w.1⟩, h3)
      | .error _ => .ok (⟨w.1⟩, w.2)

/-- Member `buffer()` (mutable): the message and heap once the view
`asio::buffer(data(), size())` has been returned. -/
def buffer (h : Heap) (m : message) : Except exception (message × Heap) :=
  if m.is_shared then deep_copy h m else .ok (m, h)

/-- A write of `bytes` through the view returned by `buffer()` (mutable), no
further than the size of the view. -/
def write_buffer (h : Heap) (m : message) (bytes : List Byte) : Except exception (message × Heap) :=
  match buffer h m with
  | .error e => .error e
  | .ok (m1, h1) =>
    let w := poke h1 m1.msg_ (bytes.take (size h1 m1))
    .ok (⟨w.1⟩, w.2)

/-- Member `buffer_copy(target)`: the bytes copied and the target afterwards. -/
def buffer_copy (h : Heap) (m : message) (target : List Byte) : Nat × List Byte :=
  socket_ops.buffer_copy target (data h m)

/-- A message that can be used in a heap: not closed, pointing to a live
`content_t` or block that holds its bytes, with a count of at least one when
shared and below the top of the counter. -/
def valid (h : Heap) (m : message) : Bool :=
  match m.msg_.body with
  | .vsm _ => true
  | .lmsg k =>
    match h.content k with
    | some c => decide (c.data < h.mem.length) && decide (c.size ≤ (h.block c.data).length)
        && (m.msg_.flags &&& flag_shared == 0 || decide (1 ≤ c.refcnt))
        && decide (c.refcnt + 1 < 4294967296)
    | none => false
  | .cmsg p n => decide (p < h.mem.length) && decide (n ≤ (h.block p).length)
  | .closed => false

end message

/-- The state `zmq_msg_copy` leaves both messages in: a large message is marked
shared and its content, if not freed, is counted at least twice and lies in
memory; a constant message points into memory. -/
def after_copy (h : Heap) (x : zmq_msg_t) : Prop :=
  match x.body with
  | .vsm _ => True
  | .lmsg k => x.flags &&& flag_shared ≠ 0 ∧ k < h.contents.length ∧
      ∀ c, h.content k = some c → 2 ≤ c.refcnt ∧ c.refcnt < 4294967296 ∧ c.data < h.mem.length
  | .cmsg p _ => p < h.mem.length
  | .closed => False

/-- A heap with one block of 40 bytes held by one large message. -/
def demo_heap : Heap := ⟨[List.replicate 40 7], [some ⟨0, 40, none, 0, 0⟩], 1000, []⟩

/-- The large message of `demo_heap`. -/
def demo_message : message := ⟨⟨.lmsg 0, 0⟩⟩

/-- Function `memcmp` over the first `n` bytes of two blocks that hold at least
`n` bytes each: zero when they agree, else the sign of the first difference. -/
def memcmp : List Byte → List Byte → Nat → Int
  | _, _, 0 => 0
  | a :: p, b :: q, n + 1 => if a = b then memcmp p q n else if a < b then -1 else 1
  | _, _, _ + 1 => 0

/-- Member `operator!=`. -/
def message.operator_ne (h : Heap) (self rhs : message) : Bool :=
  let sz := message.size h self
  sz != message.size h rhs || (0 : Int) != memcmp (message.data h self) (message.data h rhs) sz

/-- Member `operator==`. -/
def message.operator_eq (h : Heap) (self rhs : message) : Bool :=
  !message.operator_ne h self rhs

/-- A chain of `n` move constructions starting at `m`: the message constructed
last, and the moved-from messages left behind, oldest first. -/
def move_chain : Nat → message → message × List message
  | 0, m => (m, [])
  | n + 1, m =>
    let r := message.move_construct m
    let c := move_chain n r.1
    (c.1, r.2 :: c.2)

/-- The destructors of the given messages, run in order. -/
def destroy_all (h : Heap) (ms : List message) : Heap := ms.foldl message.close h

/-- The buffer pointers the deleter `deleter` has been invoked with so far: the
calls of `call_deleter` whose hint is that deleter. -/
def deleter_invocations (h : Heap) (deleter : Nat) : List Nat :=
  (h.ffn_calls.filter (fun c => c.1 == message.call_deleter && c.2.2 == deleter)).map (fun c => c.2.1)

/-- A heap whose one block of 40 bytes is held by two large messages. -/
def shared_heap : Heap := ⟨[List.replicate 40 7], [some ⟨0, 40, none, 0, 2⟩], 1000, []⟩

/-- One of the two large messages of `shared_heap`. -/
def shared_message : message := ⟨⟨.lmsg 0, 128⟩⟩

/-- A heap in which nothing is allocated yet. -/
def empty_heap : Heap := ⟨[], [], 1000, []⟩

/-! ## The other operations of socket_ops -/

/-- Option name `ZMQ_EVENTS`. -/
def ZMQ_EVENTS : Nat := 15

/-- Option name `ZMQ_TYPE`. -/
def ZMQ_TYPE : Nat := 16

/-- Value of `ETERM`, `ZMQ_HAUSNUMERO + 53`. -/
def ETERM : Int := 156384765

/-- Value of `ENOENT` (Linux). -/
def ENOENT : Int := 2

/-- Value of `EINVAL` (Linux). -/
def EINVAL : Int := 22

/-- The libzmq calls of socket_ops beyond those of `Transport`, in the same
style: each returns its `rc` and the next state. -/
structure Api (σ : Type) extends Transport σ where
  /-- Call `zmq_unbind(socket, ep)`. -/
  zmq_unbind : σ → String → Int × σ
  /-- Call `zmq_connect(socket, ep)`. -/
  zmq_connect : σ → String → Int × σ
  /-- Call `zmq_disconnect(socket, ep)`. -/
  zmq_disconnect : σ → String → Int × σ
  /-- Call `zmq_setsockopt(socket, name, data, size)`, the size being that of `data`. -/
  zmq_setsockopt : σ → Nat → List Byte → Int × σ
  /-- Call `zmq_getsockopt(socket, name, data, &size)`: rc and the bytes at `data` afterwards. -/
  zmq_getsockopt : σ → Nat → List Byte → Int × List Byte × σ
  /-- Call `zmq_getsockopt(socket, name, &i, &size)` on an `int i = 0`: rc and `i` afterwards. -/
  zmq_getsockopt_int : σ → Nat → Int × Int × σ
  /-- Call `zmq_socket_monitor(socket, addr, events)`. -/
  zmq_socket_monitor : σ → String → Int → Int × σ

/-- What socket_ops uses of an `Option`: `name()` and the bytes at `data()`, `size()`
being their number. -/
structure option_value where
  name : Nat
  data : List Byte
  deriving DecidableEq, Repr

namespace socket_ops

/-- Function `socket_ops::unbind`. -/
def unbind {σ : Type} (A : Api σ) (socket : σ) (ep : String) (ec : error_code) :
    error_code × σ :=
  let r := A.zmq_unbind socket ep
  if r.1 < 0 then (make_error_code (A.zmq_errno r.2), r.2) else (ec, r.2)

/-- Function `socket_ops::connect`. -/
def connect {σ : Type} (A : Api σ) (socket : σ) (ep : String) (ec : error_code) :
    error_code × σ :=
  let r := A.zmq_connect socket ep
  if r.1 < 0 then (make_error_code (A.zmq_errno r.2), r.2) else (ec, r.2)

/-- Function `socket_ops::disconnect`. -/
def disconnect {σ : Type} (A : Api σ) (socket : σ) (ep : String) (ec : error_code) :
    error_code × σ :=
  let r := A.zmq_disconnect socket ep
  if r.1 < 0 then (make_error_code (A.zmq_errno r.2), r.2) else (ec, r.2)

/-- Function `socket_ops::set_option` (the name itself is a keyword here). -/
def set_opt {σ : Type} (A : Api σ) (socket : σ) (opt : option_value) (ec : error_code) :
    error_code × σ :=
  let r := A.zmq_setsockopt socket opt.name opt.data
  if r.1 < 0 then (make_error_code (A.zmq_errno r.2), r.2) else (ec, r.2)

/-- Function `socket_ops::get_option`: the error code, the option and the socket afterwards. -/
def get_option {σ : Type} (A : Api σ) (socket : σ) (opt : option_value) (ec : error_code) :
    error_code × option_value × σ :=
  let r := A.zmq_getsockopt socket opt.name opt.data
  if r.1 < 0 then (make_error_code (A.zmq_errno r.2.2), ⟨opt.name, r.2.1⟩, r.2.2)
  else (ec, ⟨opt.name, r.2.1⟩, r.2.2)

/-- Function `socket_ops::get_events`: the returned events, the socket and the error code. -/
def get_events {σ : Type} (A : Api σ) (socket : σ) (ec : error_code) : Int × σ × error_code :=
  let r := A.zmq_getsockopt_int socket ZMQ_EVENTS
  if r.1 < 0 then (0, r.2.2, make_error_code (A.zmq_errno r.2.2))
  else (r.2.1, r.2.2, ec)

/-- Function `socket_ops::get_socket_kind`: the returned kind, the socket and the error code. -/
def get_socket_kind {σ : Type} (A : Api σ) (socket : σ) (ec : error_code) :
    Int × σ × error_code :=
  let r := A.zmq_getsockopt_int socket ZMQ_TYPE
  if r.1 < 0 then (r.2.1, r.2.2, make_error_code (A.zmq_errno r.2.2))
  else (r.2.1, r.2.2, ec)

/-- Function `socket_ops::monitor`; `ptr` is the text `stm << socket.get()` writes.  The
returned address, the socket and the error code. -/
def monitor {σ : Type} (A : Api σ) (ptr : String) (socket : σ) (events : Int)
    (ec : error_code) : String × σ × error_code :=
  let addr := "inproc://monitor-" ++ ptr
  let r := A.zmq_socket_monitor socket addr events
  if r.1 < 0 then (addr, r.2, make_error_code (A.zmq_errno r.2)) else (addr, r.2, ec)

end socket_ops

/-- The libzmq functions called by socket_ops. -/
inductive zmq_fn where
  | bind
  | unbind
  | connect
  | disconnect
  | setsockopt
  | getsockopt
  | msg_send
  | msg_recv
  | socket_monitor
  deriving DecidableEq, Repr

/-- The mark left by a call: the function when its `rc` was negative, nothing else. -/
def failed_call (f : zmq_fn) (rc : Int) : Option zmq_fn := if rc < 0 then some f else none

/-- The library `A` run next to a mark of the last call: which function it was
when that call failed, `none` when it succeeded.  The answers are those of `A`. -/
def watching {σ : Type} (A : Api σ) : Api (σ × Option zmq_fn) where
  zmq_bind := fun s ep =>
    ((A.zmq_bind s.1 ep).1, ((A.zmq_bind s.1 ep).2, failed_call .bind (A.zmq_bind s.1 ep).1))
  zmq_msg_send := fun s m f =>
    ((A.zmq_msg_send s.1 m f).1,
      ((A.zmq_msg_send s.1 m f).2, failed_call .msg_send (A.zmq_msg_send s.1 m f).1))
  zmq_msg_recv := fun s m f =>
    ((A.zmq_msg_recv s.1 m f).1, (A.zmq_msg_recv s.1 m f).2.1,
      ((A.zmq_msg_recv s.1 m f).2.2, failed_call .msg_recv (A.zmq_msg_recv s.1 m f).1))
  zmq_getsockopt_rcvmore := fun s =>
    ((A.zmq_getsockopt_rcvmore s.1).1, (A.zmq_getsockopt_rcvmore s.1).2.1,
      ((A.zmq_getsockopt_rcvmore s.1).2.2,
        failed_call .getsockopt (A.zmq_getsockopt_rcvmore s.1).1))
  zmq_errno := fun s => A.zmq_errno s.1
  zmq_unbind := fun s ep =>
    ((A.zmq_unbind s.1 ep).1, ((A.zmq_unbind s.1 ep).2, failed_call .unbind (A.zmq_unbind s.1 ep).1))
  zmq_connect := fun s ep =>
    ((A.zmq_connect s.1 ep).1,
      ((A.zmq_connect s.1 ep).2, failed_call .connect (A.zmq_connect s.1 ep).1))
  zmq_disconnect := fun s ep =>
    ((A.zmq_disconnect s.1 ep).1,
      ((A.zmq_disconnect s.1 ep).2, failed_call .disconnect (A.zmq_disconnect s.1 ep).1))
  zmq_setsockopt := fun s n d =>
    ((A.zmq_setsockopt s.1 n d).1,
      ((A.zmq_setsockopt s.1 n d).2, failed_call .setsockopt (A.zmq_setsockopt s.1 n d).1))
  zmq_getsockopt := fun s n d =>
    ((A.zmq_getsockopt s.1 n d).1, (A.zmq_getsockopt s.1 n d).2.1,
      ((A.zmq_getsockopt s.1 n d).2.2, failed_call .getsockopt (A.zmq_getsockopt s.1 n d).1))
  zmq_getsockopt_int := fun s n =>
    ((A.zmq_getsockopt_int s.1 n).1, (A.zmq_getsockopt_int s.1 n).2.1,
      ((A.zmq_getsockopt_int s.1 n).2.2, failed_call .getsockopt (A.zmq_getsockopt_int s.1 n).1))
  zmq_socket_monitor := fun s a e =>
    ((A.zmq_socket_monitor s.1 a e).1,
      ((A.zmq_socket_monitor s.1 a e).2,
        failed_call .socket_monitor (A.zmq_socket_monitor s.1 a e).1))

/-- The library leaves `errno` non-zero whenever one of its calls returns a negative `rc`. -/
def errno_on_failure {σ : Type} (A : Api σ) : Prop :=
  (∀ s ep, (A.zmq_bind s ep).1 < 0 → A.zmq_errno (A.zmq_bind s ep).2 ≠ 0) ∧
  (∀ s m f, (A.zmq_msg_send s m f).1 < 0 → A.zmq_errno (A.zmq_msg_send s m f).2 ≠ 0) ∧
  (∀ s m f, (A.zmq_msg_recv s m f).1 < 0 → A.zmq_errno (A.zmq_msg_recv s m f).2.2 ≠ 0) ∧
  (∀ s ep, (A.zmq_unbind s ep).1 < 0 → A.zmq_errno (A.zmq_unbind s ep).2 ≠ 0) ∧
  (∀ s ep, (A.zmq_connect s ep).1 < 0 → A.zmq_errno (A.zmq_connect s ep).2 ≠ 0) ∧
  (∀ s ep, (A.zmq_disconnect s ep).1 < 0 → A.zmq_errno (A.zmq_disconnect s ep).2 ≠ 0) ∧
  (∀ s n d, (A.zmq_setsockopt s n d).1 < 0 → A.zmq_errno (A.zmq_setsockopt s n d).2 ≠ 0) ∧
  (∀ s n d, (A.zmq_getsockopt s n d).1 < 0 → A.zmq_errno (A.zmq_getsockopt s n d).2.2 ≠ 0) ∧
  (∀ s n, (A.zmq_getsockopt_int s n).1 < 0 → A.zmq_errno (A.zmq_getsockopt_int s n).2.2 ≠ 0) ∧
  (∀ s a e, (A.zmq_socket_monitor s a e).1 < 0 → A.zmq_errno (A.zmq_socket_monitor s a e).2 ≠ 0)

/-- The failure of the last call has been reported: when the mark names a call,
the error code is the ZeroMQ error of `errno`, and it is set. -/
def reported {σ : Type} (A : Api σ) (st : σ × Option zmq_fn) (ec : error_code) : Prop :=
  st.2 ≠ none → ec = make_error_code (A.zmq_errno st.1) ∧ ec.is_set = true

/-- An error code an operation leaves when entered with `ec`: `ec` itself, or one
of the ZeroMQ category. -/
def zeromq_or_kept (ec ec1 : error_code) : Prop := ec1 = ec ∨ ec1.category = .zeromq

/-- The simulated library: the calls of `sim`; `zmq_unbind` and `zmq_disconnect`
fail with `ENOENT` on an endpoint not in use; options are stored nowhere,
`zmq_setsockopt` accepts any, `zmq_getsockopt` answers zero bytes and
`zmq_getsockopt_int` zero. -/
def sim_api : Api sim_socket where
  toTransport := sim
  zmq_unbind := fun s ep =>
    if ep ∈ s.in_use then (0, { s with in_use := s.in_use.erase ep })
    else (-1, { s with errno := ENOENT })
  zmq_connect := fun s _ => (0, s)
  zmq_disconnect := fun s ep =>
    if ep ∈ s.in_use then (0, { s with in_use := s.in_use.erase ep })
    else (-1, { s with errno := ENOENT })
  zmq_setsockopt := fun s _ _ => (0, s)
  zmq_getsockopt := fun s _ d => (0, List.replicate d.length 0, s)
  zmq_getsockopt_int := fun s _ => (0, 0, s)
  zmq_socket_monitor := fun s _ _ => (0, s)

/-- A socket whose context has been terminated: every call fails with `ETERM`
and changes nothing but `errno`. -/
def terminated : Api sim_socket where
  zmq_bind := fun s _ => (-1, { s with errno := ETERM })
  zmq_msg_send := fun s _ _ => (-1, { s with errno := ETERM })
  zmq_msg_recv := fun s m _ => (-1, m, { s with errno := ETERM })
  zmq_getsockopt_rcvmore := fun s => (-1, 0, { s with errno := ETERM })
  zmq_errno := fun s => s.errno
  zmq_unbind := fun s _ => (-1, { s with errno := ETERM })
  zmq_connect := fun s _ => (-1, { s with errno := ETERM })
  zmq_disconnect := fun s _ => (-1, { s with errno := ETERM })
  zmq_setsockopt := fun s _ _ => (-1, { s with errno := ETERM })
  zmq_getsockopt := fun s _ d => (-1, d, { s with errno := ETERM })
  zmq_getsockopt_int := fun s _ => (-1, 0, { s with errno := ETERM })
  zmq_socket_monitor := fun s _ _ => (-1, { s with errno := ETERM })

/-! ## Describing the dynamic bind and the failed receive -/

/-- Variable `first` of the dynamic bind for a match `m`. -/
def range_first (m : socket_ops.dynamic_match) : Nat :=
  if m.first_str.isEmpty then socket_ops.dynamic_port.first
  else socket_ops.digits_value m.first_str % 65536

/-- Variable `last` of the dynamic bind for a match `m`. -/
def range_last (m : socket_ops.dynamic_match) : Nat :=
  if m.last_str.isEmpty then socket_ops.dynamic_port.last
  else socket_ops.digits_value m.last_str % 65536

/-- Variable `port` of the dynamic bind when the loop is entered. -/
def range_start (m : socket_ops.dynamic_match) (gen : Nat) : Nat :=
  if m.opcode == '!' then
    socket_ops.uniform_int_distribution (range_first m) (range_last m) gen % 65536
  else range_first m

/-- The candidate order as the specification words it: the port tried at step
`k` of a search of `[first, last]` that starts at `s`. -/
def claimed_candidate (first last s k : Nat) : Nat :=
  first + (s - first + k) % (last - first + 1)

/-- The number of ports of `[first, last]`. -/
def ports_in_range (first last : Nat) : Nat := if first ≤ last then last - first + 1 else 0

/-- One of the payloads that meet a buffer is larger than that buffer. -/
def oversize : List (List Byte) → List (List Byte) → Bool
  | b :: bs, f :: fs => decide (b.length < f.length) || oversize bs fs
  | _, _ => false

/-- One of the two large messages of `shared_heap`, with the more flag set. -/
def shared_more_message : message := ⟨⟨.lmsg 0, 129⟩⟩

end azmq

/-! # Theorems -/

namespace azmq

open socket_ops

/-! ## Dynamic port bind -/

/-- The dynamic bind loop makes at most `attempts` calls of `zmq_bind`, whatever
the transport answers. -/
theorem bind_loop_calls_le {σ : Type} (T : Transport σ) (hostname : String) (first last : Nat) :
    ∀ (attempts : Nat) (rc : Int) (port : Nat) (ep : String) (s : σ) (log : List call),
      (bind_loop (recording T) hostname first last attempts rc port ep (s, log)).2.2.2.length
        ≤ log.length + attempts := by
  intro attempts
  induction attempts with
  | zero => intro rc port ep s log; simp [bind_loop]
  | succ n ih =>
    intro rc port ep s log
    rw [bind_loop]
    by_cases hneg : rc < 0
    · simp only [hneg, if_true]
      have h := ih (if ((recording T).zmq_bind (s, log) (hostname ++ ":" ++ toString port)).1 = 0
          then (port : Int) else rc)
        (if (port + 1) % 65536 > last then first else (port + 1) % 65536)
        (hostname ++ ":" ++ toString port) (T.zmq_bind s (hostname ++ ":" ++ toString port)).2
        (log ++ [.bind (hostname ++ ":" ++ toString port)])
      have e : ((recording T).zmq_bind (s, log) (hostname ++ ":" ++ toString port)).2
          = ((T.zmq_bind s (hostname ++ ":" ++ toString port)).2,
              log ++ [.bind (hostname ++ ":" ++ toString port)]) := rfl
      rw [e]
      simp only [List.length_append, List.length_singleton] at h
      omega
    · simp only [hneg, if_false]
      omega

/-- When `last` is below 65535 and the loop starts at a port of `[first, last]`,
a bind that succeeded returns a port of `[first, last]` and the address
rewritten to that port. -/
theorem bind_loop_in_range {σ : Type} (T : Transport σ) (hostname : String) (first last : Nat)
    (hlast : last < 65535) :
    ∀ (attempts : Nat) (rc : Int) (port : Nat) (ep : String) (s : σ),
      first ≤ port → port ≤ last →
      (rc < 0 ∨ ((first : Int) ≤ rc ∧ rc ≤ last ∧ ep = hostname ++ ":" ++ toString rc.toNat)) →
      0 ≤ (bind_loop T hostname first last attempts rc port ep s).1 →
      (first : Int) ≤ (bind_loop T hostname first last attempts rc port ep s).1 ∧
      (bind_loop T hostname first last attempts rc port ep s).1 ≤ last ∧
      (bind_loop T hostname first last attempts rc port ep s).2.1
        = hostname ++ ":" ++ toString (bind_loop T hostname first last attempts rc port ep s).1.toNat := by
  intro attempts
  induction attempts with
  | zero =>
    intro rc port ep s _ _ hrc h0
    simp only [bind_loop] at h0 ⊢
    rcases hrc with h | h
    · omega
    · exact h
  | succ n ih =>
    intro rc port ep s hfp hpl hrc h0
    rw [bind_loop] at h0 ⊢
    by_cases hneg : rc < 0
    · simp only [hneg, if_true] at h0 ⊢
      have hp1 : (port + 1) % 65536 = port + 1 := by omega
      apply ih
      · rw [hp1]; split <;> omega
      · rw [hp1]; split <;> omega
      · by_cases hb : (T.zmq_bind s (hostname ++ ":" ++ toString port)).1 = 0
        · right
          simp only [hb, if_true]
          refine ⟨by omega, by omega, by simp⟩
        · left
          simp only [hb, if_false]
          exact hneg
      · exact h0
    · simp only [hneg, if_false] at h0 ⊢
      rcases hrc with h | h
      · exact absurd h hneg
      · exact h

/-- C1 (defect of the code): the dynamic bind gives up before the range is
exhausted.  On `tcp://127.0.0.1:*[6000-6002]` with 6000 and 6001 in use the
transport is asked for 6000 and 6001 only and bind reports `EADDRINUSE`,
although the transport accepts 6002; on the one port range `[6000-6000]` with
nothing in use no bind call is made at all and the address is left as given. -/
theorem bind_gives_up_before_last_port :
    bind (recording sim) 0
        (⟨["tcp://127.0.0.1:6000", "tcp://127.0.0.1:6001"], [], [], false, 0⟩, [])
        "tcp://127.0.0.1:*[6000-6002]" error_code.clear
      = .ok (make_error_code EADDRINUSE, "tcp://127.0.0.1:6001",
          (⟨["tcp://127.0.0.1:6000", "tcp://127.0.0.1:6001"], [], [], false, EADDRINUSE⟩,
            [.bind "tcp://127.0.0.1:6000", .bind "tcp://127.0.0.1:6001"]))
    ∧ (sim.zmq_bind ⟨["tcp://127.0.0.1:6000", "tcp://127.0.0.1:6001"], [], [], false, 0⟩
        "tcp://127.0.0.1:6002").1 = 0
    ∧ bind (recording sim) 0 (⟨[], [], [], false, 0⟩, [])
        "tcp://127.0.0.1:*[6000-6000]" error_code.clear
      = .ok (make_error_code 0, "tcp://127.0.0.1:*[6000-6000]", (⟨[], [], [], false, 0⟩, []))
    ∧ (sim.zmq_bind ⟨[], [], [], false, 0⟩ "tcp://127.0.0.1:6000").1 = 0 := by
  refine ⟨?_, ?_, ?_, ?_⟩ <;> decide

/-- C2 (defect of the code): with `last = 65535` the increment of the 16 bit port
wraps to 0, which is not above `last`, so the next candidate is port 0.  On
`tcp://127.0.0.1:![65533-65535]` with the draw 65535 and port 65535 in use, bind
succeeds and returns the address with port 0, outside `[65533, 65535]`. -/
theorem bind_random_start_leaves_range :
    uniform_int_distribution 65533 65535 2 = 65535
    ∧ bind (recording sim) 2 (⟨["tcp://127.0.0.1:65535"], [], [], false, 0⟩, [])
        "tcp://127.0.0.1:![65533-65535]" error_code.clear
      = .ok (error_code.clear, "tcp://127.0.0.1:0",
          (⟨["tcp://127.0.0.1:0", "tcp://127.0.0.1:65535"], [], [], false, EADDRINUSE⟩,
            [.bind "tcp://127.0.0.1:65535", .bind "tcp://127.0.0.1:0"])) := by
  refine ⟨?_, ?_⟩ <;> decide

/-! ## Receive into a buffer sequence -/

/-- A receive on the simulated transport takes the head of the inbox. -/
theorem receive_message_sim (msg fr : frame) (rest : List frame) (s : sim_socket) (flags : Nat)
    (ec : error_code) (hin : s.inbox = fr :: rest) :
    receive_message sim msg s flags ec
      = ⟨fr.data.length, fr, { s with inbox := rest, rcvmore := fr.more }, ec⟩ := by
  simp [receive_message, sim, hin]

/-- The buffer sequence receive on the simulated transport: error code, socket,
and, when the message fits, count and buffers. -/
theorem receive_loop_sim (rest : List (List Byte)) :
    ∀ (b : List Byte) (done : List (List Byte)) (msg : frame) (res flags : Nat) (s : sim_socket)
      (ec : error_code) (f : List Byte) (fs : List (List Byte)) (later : List frame),
      s.inbox = multipart (f :: fs) ++ later → ec.is_set = false →
      ∃ r, receive_loop sim (b :: rest) done msg res flags s ec = .ok r ∧
        r.ec = (if misfit (b :: rest) (f :: fs) then no_buffer_space else ec) ∧
        r.socket = { s with inbox := multipart (leftover (b :: rest) (f :: fs)) ++ later,
                            rcvmore := !(leftover (b :: rest) (f :: fs)).isEmpty } ∧
        (misfit (b :: rest) (f :: fs) = false →
          r.res = res + total_size (f :: fs) ∧
          r.buffers = done ++ filled (b :: rest) (f :: fs)) := by
  induction rest with
  | nil =>
    intro b done msg res flags s ec f fs later hin hec
    have hin2 : s.inbox = ⟨f, !fs.isEmpty⟩ :: (multipart fs ++ later) := by simp [hin, multipart]
    rw [receive_loop]
    simp only [receive_message_sim msg _ _ s flags ec hin2, hec]
    by_cases hlt : b.length < f.length
    · have hmin : min b.length f.length < f.length := by omega
      simp [buffer_copy, hlt, misfit, hmin, leftover]
    · have hmin : ¬ (min b.length f.length < f.length) := by omega
      cases fs with
      | nil => simp [buffer_copy, hmin, misfit, hlt, multipart, total_size, filled, leftover]
      | cons g gs => simp [buffer_copy, hmin, misfit, hlt, leftover]
  | cons b2 rest ih =>
    intro b done msg res flags s ec f fs later hin hec
    have hin2 : s.inbox = ⟨f, !fs.isEmpty⟩ :: (multipart fs ++ later) := by simp [hin, multipart]
    rw [receive_loop]
    simp only [receive_message_sim msg _ _ s flags ec hin2, hec]
    by_cases hlt : b.length < f.length
    · have hmin : min b.length f.length < f.length := by omega
      simp [buffer_copy, hlt, misfit, hmin, leftover]
    · have hmin : ¬ (min b.length f.length < f.length) := by omega
      cases fs with
      | nil => simp [buffer_copy, hmin, misfit, hlt, multipart, total_size, filled, leftover]
      | cons g gs =>
        obtain ⟨r, hr, hec', hs', hfit⟩ := ih b2 (done ++ [(buffer_copy b f).2]) ⟨f, true⟩
          (res + f.length) (flags ||| ZMQ_RCVMORE)
          { s with inbox := multipart (g :: gs) ++ later, rcvmore := true } ec g gs later rfl hec
        refine ⟨r, ?_, ?_, ?_, ?_⟩
        · simp only [Bool.false_eq_true, if_false]
          rw [if_neg (by simpa [buffer_copy] using hmin)]
          simpa using hr
        · simp [hec', misfit, hlt]
        · simp [hs', leftover, hlt]
        · intro hm
          have hm2 : misfit (b2 :: rest) (g :: gs) = false := by
            simpa [misfit, hlt] using hm
          obtain ⟨h2, h3⟩ := hfit hm2
          refine ⟨?_, ?_⟩
          · simp [h2, total_size]; omega
          · simp [h3, filled]
/-- A receive from a state that delivers a frame returns its size and the frame. -/
theorem receive_message_delivers {σ : Type} (T : Transport σ) (msg fr : frame) (rest : List frame)
    (s : σ) (flags : Nat) (ec : error_code) (hd : delivers T s (fr :: rest)) :
    receive_message T msg s flags ec
      = ⟨fr.data.length, fr, (T.zmq_msg_recv s msg flags).2.2, ec⟩ ∧
    delivers T (T.zmq_msg_recv s msg flags).2.2 rest := by
  obtain ⟨h1, h2, h3⟩ := hd msg flags
  refine ⟨?_, h3⟩
  simp only [receive_message, h1, h2]
  rw [if_neg (by omega)]
  simp

/-- The simulated transport delivers the frames at the head of its inbox. -/
theorem sim_delivers (frs : List frame) :
    ∀ (s : sim_socket) (later : List frame), s.inbox = frs ++ later → delivers sim s frs := by
  induction frs with
  | nil => intro s later _; trivial
  | cons fr rest ih =>
    intro s later hin msg flags
    have hin2 : s.inbox = fr :: (rest ++ later) := by simpa using hin
    refine ⟨by simp [sim, hin2], by simp [sim, hin2], ?_⟩
    apply ih _ later
    simp [sim, hin2]

/-- The buffer sequence receive on any transport that delivers the frames of the
message: error code, frames left, and, when the message fits, count and buffers. -/
theorem receive_loop_delivers {σ : Type} (T : Transport σ) (rest : List (List Byte)) :
    ∀ (b : List Byte) (done : List (List Byte)) (msg : frame) (res flags : Nat) (s : σ)
      (ec : error_code) (f : List Byte) (fs : List (List Byte)) (later : List frame),
      delivers T s (multipart (f :: fs) ++ later) → ec.is_set = false →
      ∃ r, receive_loop T (b :: rest) done msg res flags s ec = .ok r ∧
        r.ec = (if misfit (b :: rest) (f :: fs) then no_buffer_space else ec) ∧
        delivers T r.socket (multipart (leftover (b :: rest) (f :: fs)) ++ later) ∧
        (misfit (b :: rest) (f :: fs) = false →
          r.res = res + total_size (f :: fs) ∧
          r.buffers = done ++ filled (b :: rest) (f :: fs)) := by
  induction rest with
  | nil =>
    intro b done msg res flags s ec f fs later hd hec
    have hd2 : delivers T s (⟨f, !fs.isEmpty⟩ :: (multipart fs ++ later)) := by
      simpa [multipart] using hd
    obtain ⟨hrm, hnext⟩ := receive_message_delivers T msg _ _ s flags ec hd2
    rw [receive_loop]
    simp only [hrm, hec]
    by_cases hlt : b.length < f.length
    · have hmin : min b.length f.length < f.length := by omega
      simpa [buffer_copy, hlt, misfit, hmin, leftover] using hnext
    · have hmin : ¬ (min b.length f.length < f.length) := by omega
      cases fs with
      | nil => simpa [buffer_copy, hmin, misfit, hlt, multipart, total_size, filled, leftover] using hnext
      | cons g gs => simpa [buffer_copy, hmin, misfit, hlt, leftover] using hnext
  | cons b2 rest ih =>
    intro b done msg res flags s ec f fs later hd hec
    have hd2 : delivers T s (⟨f, !fs.isEmpty⟩ :: (multipart fs ++ later)) := by
      simpa [multipart] using hd
    obtain ⟨hrm, hnext⟩ := receive_message_delivers T msg _ _ s flags ec hd2
    rw [receive_loop]
    simp only [hrm, hec]
    by_cases hlt : b.length < f.length
    · have hmin : min b.length f.length < f.length := by omega
      simpa [buffer_copy, hlt, misfit, hmin, leftover] using hnext
    · have hmin : ¬ (min b.length f.length < f.length) := by omega
      cases fs with
      | nil => simpa [buffer_copy, hmin, misfit, hlt, multipart, total_size, filled, leftover] using hnext
      | cons g gs =>
        obtain ⟨r, hr, hec', hs', hfit⟩ := ih b2 (done ++ [(buffer_copy b f).2]) ⟨f, true⟩
          (res + f.length) (flags ||| ZMQ_RCVMORE) _ ec g gs later hnext hec
        refine ⟨r, ?_, ?_, ?_, ?_⟩
        · simp only [Bool.false_eq_true, if_false]
          rw [if_neg (by simpa [buffer_copy] using hmin)]
          simpa using hr
        · simp [hec', misfit, hlt]
        · simpa [leftover, hlt] using hs'
        · intro hm
          have hm2 : misfit (b2 :: rest) (g :: gs) = false := by
            simpa [misfit, hlt] using hm
          obtain ⟨h2, h3⟩ := hfit hm2
          refine ⟨?_, ?_⟩
          · simp [h2, total_size]; omega
          · simp [h3, filled]

/-- The message does not fit exactly when a payload with a buffer is larger than
it or there are more payloads than buffers. -/
theorem misfit_iff (bufs : List (List Byte)) :
    ∀ fs : List (List Byte), misfit bufs fs = true ↔
      ((∃ i, i < bufs.length ∧ i < fs.length ∧ (bufs.getD i []).length < (fs.getD i []).length)
        ∨ bufs.length < fs.length) := by
  induction bufs with
  | nil =>
    intro fs
    cases fs with
    | nil => simp [misfit]
    | cons f fs => simp [misfit]
  | cons b bs ih =>
    intro fs
    cases fs with
    | nil => simp [misfit]
    | cons f fs =>
      simp only [misfit, Bool.or_eq_true, decide_eq_true_eq, ih fs, List.length_cons]
      constructor
      · rintro (h | ⟨i, h1, h2, h3⟩ | h)
        · exact Or.inl ⟨0, by omega, by omega, by simpa using h⟩
        · exact Or.inl ⟨i + 1, by omega, by omega, by simpa using h3⟩
        · exact Or.inr (by omega)
      · rintro (⟨i, h1, h2, h3⟩ | h)
        · cases i with
          | zero => exact Or.inl (by simpa using h3)
          | succ j => exact Or.inr (Or.inl ⟨j, by omega, by omega, by simpa using h3⟩)
        · exact Or.inr (Or.inr (by omega))

theorem leftover_of_fit (bufs : List (List Byte)) :
    ∀ fs : List (List Byte), misfit bufs fs = false → leftover bufs fs = [] := by
  induction bufs with
  | nil =>
    intro fs h
    cases fs with
    | nil => rfl
    | cons f fs => simp [misfit] at h
  | cons b bs ih =>
    intro fs h
    cases fs with
    | nil => rfl
    | cons f fs =>
      simp [misfit] at h
      have hlt : ¬ b.length < f.length := by omega
      simp [leftover, hlt, ih fs h.2]

/-- C3: when the transport delivers the frames of one logical message without
error, a receive into a non-empty buffer sequence, entered with the error code
not set, ends with `no_buffer_space` exactly when a frame that has a buffer is
larger than it (the first such frame is always read) or the message has more
frames than there are buffers; otherwise the error code is as it was. -/
theorem receive_no_buffer_space_iff {σ : Type} (T : Transport σ) (bufs fs : List (List Byte))
    (s : σ) (flags : Nat) (ec : error_code)
    (hb : bufs ≠ []) (hf : fs ≠ []) (hd : delivers T s (multipart fs))
    (hec : ec.is_set = false) :
    ∃ r, receive T bufs s flags ec = .ok r ∧
      (r.ec = no_buffer_space ↔
        ((∃ i, i < bufs.length ∧ i < fs.length ∧ (bufs.getD i []).length < (fs.getD i []).length)
          ∨ bufs.length < fs.length)) ∧
      (r.ec ≠ no_buffer_space → r.ec = ec) := by
  cases bufs with
  | nil => exact absurd rfl hb
  | cons b rest =>
    cases fs with
    | nil => exact absurd rfl hf
    | cons f fs =>
      obtain ⟨r, hr, hrec, _, _⟩ :=
        receive_loop_delivers T rest b [] empty_message 0 flags s ec f fs [] (by simpa using hd) hec
      refine ⟨r, hr, ?_, ?_⟩
      · rw [← misfit_iff, hrec]
        by_cases hm : misfit (b :: rest) (f :: fs) = true
        · simp [hm]
        · simp only [hm, if_false, Bool.false_eq_true, iff_false]
          intro h
          rw [h] at hec
          simp [no_buffer_space, error_code.is_set, ENOBUFS] at hec
      · intro hne
        rw [hrec] at hne ⊢
        by_cases hm : misfit (b :: rest) (f :: fs) = true
        · simp [hm] at hne
        · simp [hm]

/-- Witness of C3: the message "A", "B" received into one buffer of two bytes
ends with `no_buffer_space`. -/
theorem receive_no_buffer_space_iff_witness :
    ([[(0 : Byte), 0]] ≠ [] ∧ [[(65 : Byte)], [66]] ≠ [] ∧
      delivers sim ⟨[], [⟨[65], true⟩, ⟨[66], false⟩], [], false, 0⟩ (multipart [[65], [66]]) ∧
      error_code.clear.is_set = false) ∧
    ∃ r, receive sim [[0, 0]] ⟨[], [⟨[65], true⟩, ⟨[66], false⟩], [], false, 0⟩ 0 error_code.clear
        = .ok r ∧
      (r.ec = no_buffer_space ↔
        ((∃ i, i < [[(0 : Byte), 0]].length ∧ i < [[(65 : Byte)], [66]].length ∧
            ([[(0 : Byte), 0]].getD i []).length < ([[(65 : Byte)], [66]].getD i []).length)
          ∨ [[(0 : Byte), 0]].length < [[(65 : Byte)], [66]].length)) ∧
      (r.ec ≠ no_buffer_space → r.ec = error_code.clear) :=
  ⟨⟨by decide, by decide, sim_delivers _ _ [] (by decide), by decide⟩,
    receive_no_buffer_space_iff sim [[0, 0]] [[65], [66]]
      ⟨[], [⟨[65], true⟩, ⟨[66], false⟩], [], false, 0⟩
      0 error_code.clear (by decide) (by decide) (sim_delivers _ _ [] (by decide)) (by decide)⟩

/-! ## Multipart send -/

theorem send_message_recording {σ : Type} (T : Transport σ) (m : frame) (s : σ) (log : List call)
    (f : Nat) (ec : error_code) :
    send_message (recording T) m (s, log) f ec
      = if (T.zmq_msg_send s m f).1 < 0
        then (0, ((T.zmq_msg_send s m f).2, log ++ [.msg_send m f]),
              make_error_code (T.zmq_errno (T.zmq_msg_send s m f).2))
        else ((T.zmq_msg_send s m f).1.toNat, ((T.zmq_msg_send s m f).2, log ++ [.msg_send m f]), ec) := by
  simp [send_message, recording]

theorem send_flag_eq (idx : Nat) (rest : List (List Byte)) (flags : Nat) :
    (if ((idx : Nat) : Int) = ((idx + (rest.length + 1) : Nat) : Int) - 1 then flags
      else flags ||| ZMQ_SNDMORE)
      = (if rest.isEmpty then flags else flags ||| ZMQ_SNDMORE) := by
  cases rest with
  | nil => simp
  | cons b r =>
    have h : ¬ (((idx : Nat) : Int) = ((idx + ((b :: r).length + 1) : Nat) : Int) - 1) := by
      simp only [List.length_cons]; omega
    rw [if_neg h]
    rfl

theorem send_loop_recording_step {σ : Type} (T : Transport σ) (flags : Nat) (b : List Byte)
    (rest : List (List Byte)) (idx res : Nat) (s : σ) (log : List call) (ec : error_code) (f0 : Nat)
    (hf0 : f0 = (if rest.isEmpty then flags else flags ||| ZMQ_SNDMORE)) :
    send_loop (recording T) (((idx + (b :: rest).length : Nat) : Int) - 1) flags (b :: rest) idx res
        (s, log) ec
      = if (T.zmq_msg_send s ⟨b, false⟩ f0).1 < 0 then
          if (make_error_code (T.zmq_errno (T.zmq_msg_send s ⟨b, false⟩ f0).2)).is_set then
            (0, ((T.zmq_msg_send s ⟨b, false⟩ f0).2, log ++ [.msg_send ⟨b, false⟩ f0]),
              make_error_code (T.zmq_errno (T.zmq_msg_send s ⟨b, false⟩ f0).2))
          else
            send_loop (recording T) (((idx + (b :: rest).length : Nat) : Int) - 1) flags rest
              ((idx + 1) % 4294967296) (res + 0)
              ((T.zmq_msg_send s ⟨b, false⟩ f0).2, log ++ [.msg_send ⟨b, false⟩ f0])
              (make_error_code (T.zmq_errno (T.zmq_msg_send s ⟨b, false⟩ f0).2))
        else if ec.is_set then
            (0, ((T.zmq_msg_send s ⟨b, false⟩ f0).2, log ++ [.msg_send ⟨b, false⟩ f0]), ec)
          else
            send_loop (recording T) (((idx + (b :: rest).length : Nat) : Int) - 1) flags rest
              ((idx + 1) % 4294967296) (res + (T.zmq_msg_send s ⟨b, false⟩ f0).1.toNat)
              ((T.zmq_msg_send s ⟨b, false⟩ f0).2, log ++ [.msg_send ⟨b, false⟩ f0]) ec := by
  rw [send_loop]
  simp only [List.length_cons, send_flag_eq, send_message_recording, ← hf0]
  split <;> rfl

theorem send_loop_last_shift (idx : Nat) (b b2 : List Byte) (r2 : List (List Byte)) :
    ((idx + (b :: b2 :: r2).length : Nat) : Int) - 1
      = (((idx + 1) + (b2 :: r2).length : Nat) : Int) - 1 := by
  simp only [List.length_cons]; omega

/-- The multipart send loop when the transport accepts every frame: the calls
made are those of the plan. -/
theorem send_loop_recording_ok {σ : Type} (T : Transport σ) (flags : Nat) :
    ∀ (bs : List (List Byte)) (idx res : Nat) (s : σ) (log : List call) (ec : error_code),
      idx + bs.length ≤ 4294967296 → ec.is_set = false →
      (∀ rc ∈ send_rcs T s (send_plan flags bs), 0 ≤ rc) →
      send_loop (recording T) (((idx + bs.length : Nat) : Int) - 1) flags bs idx res (s, log) ec
        = (res + ((send_rcs T s (send_plan flags bs)).map Int.toNat).sum,
            (after_sends T s (send_plan flags bs),
              log ++ (send_plan flags bs).map (fun c => call.msg_send c.1 c.2)), ec) := by
  intro bs
  induction bs with
  | nil =>
    intro idx res s log ec _ _ _
    simp [send_loop, send_plan, send_rcs, after_sends]
  | cons b rest ih =>
    intro idx res s log ec hlen hec hok
    simp only [send_plan, send_rcs, List.mem_cons, forall_eq_or_imp] at hok
    obtain ⟨h0, hrest⟩ := hok
    rw [send_loop_recording_step T flags b rest idx res s log ec _ rfl]
    simp only [send_plan, send_rcs, after_sends]
    generalize (if rest.isEmpty then flags else flags ||| ZMQ_SNDMORE) = f0 at *
    rw [if_neg (not_lt.mpr h0), if_neg (by simp [hec])]
    cases rest with
    | nil =>
      simp [send_loop, send_plan, send_rcs, after_sends]
    | cons b2 r2 =>
      have hidx : (idx + 1) % 4294967296 = idx + 1 := by
        simp only [List.length_cons] at hlen
        omega
      rw [hidx, send_loop_last_shift,
        ih (idx + 1) _ _ _ ec (by simp only [List.length_cons] at hlen ⊢; omega) hec hrest]
      simp [Nat.add_assoc]

/-- The multipart send loop when frame `k` is the first to fail: the calls made
are the first `k + 1` of the plan. -/
theorem send_loop_recording_fail {σ : Type} (T : Transport σ) (flags : Nat) :
    ∀ (bs : List (List Byte)) (k idx res : Nat) (s : σ) (log : List call) (ec : error_code),
      idx + bs.length ≤ 4294967296 → ec.is_set = false → k < bs.length →
      (∀ i, i < k → 0 ≤ (send_rcs T s (send_plan flags bs)).getD i 0) →
      (send_rcs T s (send_plan flags bs)).getD k 0 < 0 →
      T.zmq_errno (after_sends T s ((send_plan flags bs).take (k + 1))) ≠ 0 →
      send_loop (recording T) (((idx + bs.length : Nat) : Int) - 1) flags bs idx res (s, log) ec
        = (0, (after_sends T s ((send_plan flags bs).take (k + 1)),
              log ++ ((send_plan flags bs).take (k + 1)).map (fun c => call.msg_send c.1 c.2)),
            make_error_code (T.zmq_errno (after_sends T s ((send_plan flags bs).take (k + 1))))) := by
  intro bs
  induction bs with
  | nil =>
    intro k idx res s log ec _ _ hk
    simp at hk
  | cons b rest ih =>
    intro k idx res s log ec hlen hec hk hok hfail herr
    rw [send_loop_recording_step T flags b rest idx res s log ec _ rfl]
    simp only [send_plan, send_rcs, after_sends, List.take_succ_cons, List.map_cons] at hok hfail herr ⊢
    generalize (if rest.isEmpty then flags else flags ||| ZMQ_SNDMORE) = f0 at *
    cases k with
    | zero =>
      simp only [List.getD_cons_zero] at hfail
      simp only [List.take_zero, after_sends] at herr
      have hset : (make_error_code (T.zmq_errno (T.zmq_msg_send s ⟨b, false⟩ f0).2)).is_set
          = true := by
        simpa [make_error_code, error_code.is_set] using herr
      rw [if_pos hfail, if_pos hset]
      simp [after_sends]
    | succ j =>
      have h0 : 0 ≤ (T.zmq_msg_send s ⟨b, false⟩ f0).1 := by
        simpa using hok 0 (by omega)
      rw [if_neg (not_lt.mpr h0), if_neg (by simp [hec])]
      cases rest with
      | nil => simp at hk
      | cons b2 r2 =>
        have hidx : (idx + 1) % 4294967296 = idx + 1 := by
          simp only [List.length_cons] at hlen
          omega
        rw [hidx, send_loop_last_shift,
          ih j (idx + 1) _ _ _ ec (by simp only [List.length_cons] at hlen ⊢; omega) hec
          (by simpa using hk)
          (fun i hi => by simpa using hok (i + 1) (by omega))
          (by simpa using hfail)
          (by simpa using herr)]
        simp

theorem send_loop_cons {σ : Type} (T : Transport σ) (last : Int) (flags : Nat) (b : List Byte)
    (rest : List (List Byte)) (idx res : Nat) (s : σ) (ec : error_code) (f0 : Nat)
    (hf0 : f0 = (if (idx : Int) = last then flags else flags ||| ZMQ_SNDMORE)) :
    send_loop T last flags (b :: rest) idx res s ec
      = if (T.zmq_msg_send s ⟨b, false⟩ f0).1 < 0 then
          if (make_error_code (T.zmq_errno (T.zmq_msg_send s ⟨b, false⟩ f0).2)).is_set then
            (0, (T.zmq_msg_send s ⟨b, false⟩ f0).2,
              make_error_code (T.zmq_errno (T.zmq_msg_send s ⟨b, false⟩ f0).2))
          else
            send_loop T last flags rest ((idx + 1) % 4294967296) (res + 0)
              (T.zmq_msg_send s ⟨b, false⟩ f0).2
              (make_error_code (T.zmq_errno (T.zmq_msg_send s ⟨b, false⟩ f0).2))
        else if ec.is_set then (0, (T.zmq_msg_send s ⟨b, false⟩ f0).2, ec)
          else
            send_loop T last flags rest ((idx + 1) % 4294967296)
              (res + (T.zmq_msg_send s ⟨b, false⟩ f0).1.toNat)
              (T.zmq_msg_send s ⟨b, false⟩ f0).2 ec := by
  rw [send_loop]
  simp only [send_message, ← hf0]
  split <;> rfl

/-- Recording the calls does not change what the send loop returns. -/
theorem send_loop_erase {σ : Type} (T : Transport σ) (last : Int) (flags : Nat) :
    ∀ (bs : List (List Byte)) (idx res : Nat) (s : σ) (log : List call) (ec : error_code),
      ((send_loop (recording T) last flags bs idx res (s, log) ec).1,
        (send_loop (recording T) last flags bs idx res (s, log) ec).2.1.1,
        (send_loop (recording T) last flags bs idx res (s, log) ec).2.2)
        = send_loop T last flags bs idx res s ec := by
  intro bs
  induction bs with
  | nil => intro idx res s log ec; simp [send_loop]
  | cons b rest ih =>
    intro idx res s log ec
    rw [send_loop_cons (recording T) last flags b rest idx res (s, log) ec _ rfl,
      send_loop_cons T last flags b rest idx res s ec _ rfl]
    generalize (if (idx : Int) = last then flags else flags ||| ZMQ_SNDMORE) = f0
    have e1 : ((recording T).zmq_msg_send (s, log) ⟨b, false⟩ f0).1
        = (T.zmq_msg_send s ⟨b, false⟩ f0).1 := rfl
    have e2 : ((recording T).zmq_msg_send (s, log) ⟨b, false⟩ f0).2
        = ((T.zmq_msg_send s ⟨b, false⟩ f0).2, log ++ [.msg_send ⟨b, false⟩ f0]) := rfl
    have e3 : ∀ x : σ × List call, (recording T).zmq_errno x = T.zmq_errno x.1 := fun _ => rfl
    rw [e1, e2, e3]
    by_cases h1 : (T.zmq_msg_send s ⟨b, false⟩ f0).1 < 0
    · rw [if_pos h1, if_pos h1]
      by_cases h2 : (make_error_code (T.zmq_errno (T.zmq_msg_send s ⟨b, false⟩ f0).2)).is_set = true
      · rw [if_pos h2, if_pos h2]
      · rw [if_neg h2, if_neg h2]
        exact ih _ _ _ _ _
    · rw [if_neg h1, if_neg h1]
      by_cases h2 : ec.is_set = true
      · rw [if_pos h2, if_pos h2]
      · rw [if_neg h2, if_neg h2]
        exact ih _ _ _ _ _

theorem sndmore_bit (flags : Nat) : ((flags ||| ZMQ_SNDMORE) &&& ZMQ_SNDMORE ≠ 0) := by
  have : (flags ||| ZMQ_SNDMORE) &&& ZMQ_SNDMORE = ZMQ_SNDMORE := by
    apply Nat.eq_of_testBit_eq
    intro i
    simp only [Nat.testBit_and, Nat.testBit_or]
    cases flags.testBit i <;> cases ZMQ_SNDMORE.testBit i <;> rfl
  rw [this]; decide

theorem sim_after_sends (flags : Nat) (hf : flags &&& ZMQ_SNDMORE = 0) :
    ∀ (bs : List (List Byte)) (s : sim_socket),
      after_sends sim s (send_plan flags bs) = { s with outbox := s.outbox ++ multipart bs } := by
  intro bs
  induction bs with
  | nil => intro s; simp [after_sends, send_plan, multipart]
  | cons b rest ih =>
    intro s
    simp only [send_plan, after_sends]
    cases rest with
    | nil => simp [sim, hf, after_sends, send_plan, multipart]
    | cons b2 r2 =>
      rw [show (b2 :: r2).isEmpty = false from rfl]
      simp only [Bool.false_eq_true, if_false]
      rw [show (sim.zmq_msg_send s ⟨b, false⟩ (flags ||| ZMQ_SNDMORE)).2
          = { s with outbox := s.outbox ++ [⟨b, true⟩] } from by
            simp [sim, sndmore_bit]]
      rw [ih]
      simp [multipart]

theorem sim_send_rcs (flags : Nat) :
    ∀ (bs : List (List Byte)) (s : sim_socket),
      send_rcs sim s (send_plan flags bs) = bs.map (fun b => (b.length : Int)) := by
  intro bs
  induction bs with
  | nil => intro s; simp [send_rcs, send_plan]
  | cons b rest ih =>
    intro s
    simp only [send_plan, send_rcs, List.map_cons]
    rw [ih]
    simp [sim]

/-- The multipart send on the simulated transport puts the frames of one
multipart message on the wire and returns their total size. -/
theorem send_sim (bs : List (List Byte)) (s : sim_socket) (flags : Nat) (ec : error_code)
    (hlen : bs.length ≤ 4294967296) (hf : flags &&& ZMQ_SNDMORE = 0) (hec : ec.is_set = false) :
    send sim bs s flags ec
      = (total_size bs, { s with outbox := s.outbox ++ multipart bs }, ec) := by
  have h := send_loop_recording_ok sim flags bs 0 0 s [] ec (by omega) hec
    (by rw [sim_send_rcs]; intro rc hrc; simp at hrc; obtain ⟨b, _, rfl⟩ := hrc; omega)
  have he := send_loop_erase sim (((0 + bs.length : Nat) : Int) - 1) flags bs 0 0 s [] ec
  rw [h] at he
  simp only [send]
  rw [show ((bs.length : Nat) : Int) - 1 = (((0 + bs.length : Nat) : Nat) : Int) - 1 from by simp]
  rw [← he, sim_after_sends flags hf, sim_send_rcs]
  simp [total_size, Function.comp_def]

/-! ## receive_more and flush -/

/-- The loop of `receive_more` on any transport that delivers the frames of the
message and then the later frames. -/
theorem receive_more_loop_delivers {σ : Type} (T : Transport σ) (fs : List (List Byte)) :
    ∀ (f : List Byte) (fuel : Nat) (vec : List frame) (msg : frame) (res flags : Nat)
      (s : σ) (ec : error_code) (later : List frame),
      delivers T s (multipart (f :: fs) ++ later) → ec.is_set = false → fs.length < fuel →
      ∃ s1, receive_more_loop T fuel vec msg res flags s ec
          = some ⟨res + total_size (f :: fs), vec ++ multipart (f :: fs), s1, ec⟩ ∧
        delivers T s1 later := by
  induction fs with
  | nil =>
    intro f fuel vec msg res flags s ec later hd hec hfuel
    have hd2 : delivers T s (⟨f, false⟩ :: later) := by simpa [multipart] using hd
    obtain ⟨hrm, hnext⟩ := receive_message_delivers T msg _ _ s flags ec hd2
    cases fuel with
    | zero => simp at hfuel
    | succ n =>
      rw [receive_more_loop]
      refine ⟨_, ?_, hnext⟩
      simp [hrm, hec, multipart, total_size]
  | cons g gs ih =>
    intro f fuel vec msg res flags s ec later hd hec hfuel
    have hd2 : delivers T s (⟨f, true⟩ :: (multipart (g :: gs) ++ later)) := by
      simpa [multipart] using hd
    obtain ⟨hrm, hnext⟩ := receive_message_delivers T msg _ _ s flags ec hd2
    cases fuel with
    | zero => simp at hfuel
    | succ n =>
      rw [receive_more_loop]
      simp only [hrm, hec, Bool.false_eq_true, if_false, if_true]
      obtain ⟨s1, h1, h2⟩ := ih g n (vec ++ [⟨f, true⟩]) empty_message (res + f.length)
        (flags ||| ZMQ_RCVMORE) _ ec later hnext hec (by simpa using hfuel)
      refine ⟨s1, ?_, h2⟩
      rw [h1]
      simp [multipart, total_size, Nat.add_assoc]
/-- The loop of `flush` on the simulated transport drains the rest of the current
message. -/
theorem flush_loop_sim (rem : List (List Byte)) :
    ∀ (fuel : Nat) (msg : frame) (res : Nat) (s : sim_socket) (ec : error_code)
      (later : List frame),
      s.inbox = multipart rem ++ later → s.rcvmore = !rem.isEmpty → ec.is_set = false →
      rem.length < fuel →
      flush_loop sim fuel msg res s ec
        = some (res + total_size rem, { s with inbox := later, rcvmore := false }, ec) := by
  induction rem with
  | nil =>
    intro fuel msg res s ec later hin hmore hec hfuel
    cases fuel with
    | zero => simp at hfuel
    | succ n =>
      rw [flush_loop]
      have hm : s.rcvmore = false := by simpa using hmore
      have hi : s.inbox = later := by simpa [multipart] using hin
      cases s
      simp_all [get_socket_rcvmore, sim, total_size]
  | cons f fs ih =>
    intro fuel msg res s ec later hin hmore hec hfuel
    cases fuel with
    | zero => simp at hfuel
    | succ n =>
      rw [flush_loop]
      have hm : s.rcvmore = true := by simpa using hmore
      have hin2 : s.inbox = ⟨f, !fs.isEmpty⟩ :: (multipart fs ++ later) := by
        simpa [multipart] using hin
      have hg : get_socket_rcvmore sim s = (true, s) := by
        simp [get_socket_rcvmore, sim, hm]
      simp only [hg, if_true, receive_message_sim msg _ _ s ZMQ_RCVMORE ec hin2, hec,
        Bool.false_eq_true, if_false]
      rw [ih n _ _ _ ec later rfl rfl hec (by simpa using hfuel)]
      simp [total_size, Nat.add_assoc]

/-! ## The claims on send, receive, receive_more and flush -/

theorem send_plan_length (flags : Nat) (bs : List (List Byte)) :
    (send_plan flags bs).length = bs.length := by
  induction bs with
  | nil => rfl
  | cons b rest ih => simp [send_plan, ih]

theorem send_plan_getD (flags : Nat) :
    ∀ (bs : List (List Byte)) (i : Nat) (d : frame × Nat), i < bs.length →
      (send_plan flags bs).getD i d
        = (⟨bs.getD i [], false⟩, if i + 1 = bs.length then flags else flags ||| ZMQ_SNDMORE) := by
  intro bs
  induction bs with
  | nil => intro i d hi; simp at hi
  | cons b rest ih =>
    intro i d hi
    cases i with
    | zero =>
      cases rest with
      | nil => simp [send_plan]
      | cons b2 r2 => simp [send_plan]
    | succ j =>
      have hj : j < rest.length := by simpa using hi
      have h := ih j d hj
      simp only [send_plan, List.getD_cons_succ, List.length_cons, h]
      simp

theorem send_plan_data (flags : Nat) (bs : List (List Byte)) :
    (send_plan flags bs).map (fun c => c.1.data) = bs := by
  induction bs with
  | nil => rfl
  | cons b rest ih => simp [send_plan, ih]

theorem multipart_drop (bs : List (List Byte)) :
    ∀ i, i < bs.length →
      (multipart bs).drop i
        = ⟨bs.getD i [], decide (i + 1 < bs.length)⟩ :: (multipart bs).drop (i + 1) := by
  induction bs with
  | nil => intro i hi; simp at hi
  | cons b rest ih =>
    intro i hi
    cases i with
    | zero =>
      cases rest <;> simp [multipart]
    | succ j =>
      have hj : j < rest.length := by simpa using hi
      simpa [multipart] using ih j hj

theorem leftover_length_le (bufs : List (List Byte)) :
    ∀ fs : List (List Byte), (leftover bufs fs).length ≤ fs.length := by
  induction bufs with
  | nil => intro fs; cases fs <;> simp [leftover]
  | cons b bs ih =>
    intro fs
    cases fs with
    | nil => simp [leftover]
    | cons f fs =>
      simp only [leftover]
      split
      · simp
      · have := ih fs
        simp only [List.length_cons]
        omega

/-- C4 as the code has it: entered with the error code not set, on a transport
that accepts each frame, the multipart send makes one `zmq_msg_send` call per buffer, in order,
call `i` carrying the bytes of buffer `i` and the flags `f ||| ZMQ_SNDMORE` for
every `i` but the last and `f` for the last; over the FIFO transport, when `f`
has no `ZMQ_SNDMORE` bit, the frames put on the wire are those of one
multipart message, and the `i`-th frame read has `more()` true exactly when it
is not the last. -/
theorem send_marks_all_but_last {σ : Type} (T : Transport σ) (bs : List (List Byte)) (s : σ)
    (flags : Nat) (ec : error_code)
    (hlen : bs.length ≤ 4294967296) (hf : flags &&& ZMQ_SNDMORE = 0) (hec : ec.is_set = false)
    (hok : ∀ rc ∈ send_rcs T s (send_plan flags bs), 0 ≤ rc) :
    (send (recording T) bs (s, []) flags ec).2.1.2.length = bs.length ∧
    (∀ i, i < bs.length →
      (send (recording T) bs (s, []) flags ec).2.1.2.getD i .getsockopt_rcvmore
        = .msg_send ⟨bs.getD i [], false⟩
            (if i + 1 = bs.length then flags else flags ||| ZMQ_SNDMORE)) ∧
    (∀ a : sim_socket, (send sim bs a flags ec).2.1.outbox = a.outbox ++ multipart bs) ∧
    (∀ (b : sim_socket) (msg : frame) (rf i : Nat), i < bs.length →
      (receive_message sim msg { b with inbox := (multipart bs).drop i } rf ec).msg
        = ⟨bs.getD i [], decide (i + 1 < bs.length)⟩) := by
  have h := send_loop_recording_ok T flags bs 0 0 s [] ec (by omega) hec hok
  have hs : send (recording T) bs (s, []) flags ec
      = (0 + ((send_rcs T s (send_plan flags bs)).map Int.toNat).sum,
          (after_sends T s (send_plan flags bs),
            [] ++ (send_plan flags bs).map (fun c => call.msg_send c.1 c.2)), ec) := by
    rw [← h]
    simp [send]
  refine ⟨?_, ?_, ?_, ?_⟩
  · simp [hs, send_plan_length]
  · intro i hi
    rw [hs]
    simp only [List.nil_append]
    have hi2 : i < (send_plan flags bs).length := by rw [send_plan_length]; exact hi
    rw [List.getD_eq_getElem _ _ (by simpa using hi2)]
    rw [List.getElem_map]
    have := send_plan_getD flags bs i (⟨[], false⟩, 0) hi
    rw [List.getD_eq_getElem _ _ hi2] at this
    rw [this]
  · intro a
    rw [send_sim bs a flags ec hlen hf hec]
  · intro b msg rf i hi
    rw [receive_message_sim msg _ _ _ rf ec (multipart_drop bs i hi)]

/-- Witness of the amended C4: the buffers "A", "B", "A" sent with the flags `ZMQ_DONTWAIT`. -/
theorem send_marks_all_but_last_witness :
    (([[65], [66], [65]] : List (List Byte)).length ≤ 4294967296 ∧
      ZMQ_DONTWAIT &&& ZMQ_SNDMORE = 0 ∧ error_code.clear.is_set = false ∧
      ∀ rc ∈ send_rcs sim ⟨[], [], [], false, 0⟩ (send_plan ZMQ_DONTWAIT [[65], [66], [65]]),
        0 ≤ rc) ∧
    (send (recording sim) [[65], [66], [65]] (⟨[], [], [], false, 0⟩, []) ZMQ_DONTWAIT
      error_code.clear).2.1.2
      = [.msg_send ⟨[65], false⟩ 3, .msg_send ⟨[66], false⟩ 3, .msg_send ⟨[65], false⟩ 1] ∧
    (send (recording sim) [[65], [66], [65]] (⟨[], [], [], false, 0⟩, []) ZMQ_DONTWAIT
      error_code.clear).2.1.2.length = ([[65], [66], [65]] : List (List Byte)).length :=
  ⟨by decide, by decide,
    (send_marks_all_but_last sim [[65], [66], [65]] ⟨[], [], [], false, 0⟩ ZMQ_DONTWAIT
      error_code.clear (by decide) (by decide) (by decide) (by decide)).1⟩

/-- C5: entered with the error code not set, when the send of frame `k` is the
first to fail (and leaves `errno` non-zero), the multipart send returns 0, the
error code is that of frame `k`, and the calls made are those of frames 0 to
`k`, in order, and no other. -/
theorem send_aborts_at_first_failure {σ : Type} (T : Transport σ) (bs : List (List Byte)) (s : σ)
    (flags k : Nat) (ec : error_code)
    (hlen : bs.length ≤ 4294967296) (hec : ec.is_set = false) (hk : k < bs.length)
    (hok : ∀ i, i < k → 0 ≤ (send_rcs T s (send_plan flags bs)).getD i 0)
    (hfail : (send_rcs T s (send_plan flags bs)).getD k 0 < 0)
    (herr : T.zmq_errno (after_sends T s ((send_plan flags bs).take (k + 1))) ≠ 0) :
    send (recording T) bs (s, []) flags ec
      = (0, (after_sends T s ((send_plan flags bs).take (k + 1)),
            ((send_plan flags bs).take (k + 1)).map (fun c => call.msg_send c.1 c.2)),
          make_error_code (T.zmq_errno (after_sends T s ((send_plan flags bs).take (k + 1)))))
    ∧ (((send_plan flags bs).take (k + 1)).map (fun c => c.1.data) = bs.take (k + 1))
    ∧ (send T bs s flags ec).1 = 0
    ∧ (send T bs s flags ec).2.2
        = make_error_code (T.zmq_errno (after_sends T s ((send_plan flags bs).take (k + 1)))) := by
  have h := send_loop_recording_fail T flags bs k 0 0 s [] ec (by omega) hec hk hok hfail herr
  have hs : send (recording T) bs (s, []) flags ec
      = (0, (after_sends T s ((send_plan flags bs).take (k + 1)),
            [] ++ ((send_plan flags bs).take (k + 1)).map (fun c => call.msg_send c.1 c.2)),
          make_error_code (T.zmq_errno (after_sends T s ((send_plan flags bs).take (k + 1))))) := by
    rw [← h]
    simp [send]
  have he := send_loop_erase T ((bs.length : Int) - 1) flags bs 0 0 s [] ec
  have hs2 : send_loop (recording T) ((bs.length : Int) - 1) flags bs 0 0 (s, []) ec
      = send (recording T) bs (s, []) flags ec := rfl
  rw [hs2, hs] at he
  refine ⟨by simpa using hs, ?_, ?_, ?_⟩
  · rw [List.map_take, send_plan_data]
  · simp only [send]; rw [← he]
  · simp only [send]; rw [← he]

/-- Witness of C5: with a high water mark of one frame, the second of three
frames is the first to fail. -/
theorem send_aborts_at_first_failure_witness :
    (([[65], [66], [65]] : List (List Byte)).length ≤ 4294967296 ∧
      error_code.clear.is_set = false ∧ 1 < ([[65], [66], [65]] : List (List Byte)).length ∧
      (∀ i, i < 1 → 0 ≤ (send_rcs (sim_hwm 1) ⟨[], [], [], false, 0⟩
          (send_plan 0 [[65], [66], [65]])).getD i 0) ∧
      (send_rcs (sim_hwm 1) ⟨[], [], [], false, 0⟩ (send_plan 0 [[65], [66], [65]])).getD 1 0 < 0 ∧
      (sim_hwm 1).zmq_errno (after_sends (sim_hwm 1) ⟨[], [], [], false, 0⟩
          ((send_plan 0 [[65], [66], [65]]).take (1 + 1))) ≠ 0) ∧
    send (recording (sim_hwm 1)) [[65], [66], [65]] (⟨[], [], [], false, 0⟩, []) 0 error_code.clear
      = (0, (⟨[], [], [⟨[65], true⟩], false, EAGAIN⟩,
            [.msg_send ⟨[65], false⟩ 2, .msg_send ⟨[66], false⟩ 2]),
          make_error_code EAGAIN) :=
  ⟨by decide,
    (send_aborts_at_first_failure (sim_hwm 1) [[65], [66], [65]] ⟨[], [], [], false, 0⟩ 0 1
      error_code.clear (by decide) (by decide) (by decide) (by decide) (by decide) (by decide)).1⟩

/-- C7 as the code has it: when the transport delivers the `k ≥ 1` remaining
frames of the current logical message and then the frames `later`, `receive_more`, entered with the
error code not set and given fuel for `k` iterations, appends exactly these `k`
frames to the collection, in order, returns the sum of their sizes, and leaves
the socket in a state from which the frames `later` are still delivered. -/
theorem receive_more_collects_message {σ : Type} (T : Transport σ) (fs : List (List Byte))
    (later vec : List frame) (s : σ) (flags fuel : Nat) (ec : error_code)
    (hf : fs ≠ []) (hd : delivers T s (multipart fs ++ later)) (hec : ec.is_set = false)
    (hfuel : fs.length ≤ fuel) :
    (∃ s1, receive_more T fuel vec s flags ec
        = some ⟨total_size fs, vec ++ multipart fs, s1, ec⟩ ∧ delivers T s1 later)
    ∧ (multipart fs).map (fun m => m.data) = fs ∧ (multipart fs).length = fs.length := by
  refine ⟨?_, ?_, ?_⟩
  · cases fs with
    | nil => exact absurd rfl hf
    | cons f rest =>
      obtain ⟨s1, h1, h2⟩ := receive_more_loop_delivers T rest f fuel vec empty_message 0 flags s
        ec later hd hec (by simpa using hfuel)
      exact ⟨s1, by simpa [receive_more] using h1, h2⟩
  · clear hf hd hfuel
    induction fs with
    | nil => rfl
    | cons f rest ih => simp [multipart, ih]
  · clear hf hd hfuel
    induction fs with
    | nil => rfl
    | cons f rest ih => simp [multipart, ih]

/-- Witness of the amended C7: the frames "A", "B" are collected, 2 bytes in all, and the
frame of the next message stays in the inbox. -/
theorem receive_more_collects_message_witness :
    (([[65], [66]] : List (List Byte)) ≠ [] ∧
      delivers sim ⟨[], [⟨[65], true⟩, ⟨[66], false⟩, ⟨[67], false⟩], [], false, 0⟩
        (multipart [[65], [66]] ++ [⟨[67], false⟩]) ∧
      error_code.clear.is_set = false ∧ ([[65], [66]] : List (List Byte)).length ≤ 2) ∧
    (∃ s1, receive_more sim 2 [] ⟨[], [⟨[65], true⟩, ⟨[66], false⟩, ⟨[67], false⟩], [], false, 0⟩
          0 error_code.clear
        = some ⟨total_size [[65], [66]], [] ++ multipart [[65], [66]], s1, error_code.clear⟩ ∧
      delivers sim s1 [⟨[67], false⟩]) ∧
    receive_more sim 2 [] ⟨[], [⟨[65], true⟩, ⟨[66], false⟩, ⟨[67], false⟩], [], false, 0⟩ 0
        error_code.clear
      = some ⟨2, [⟨[65], true⟩, ⟨[66], false⟩], ⟨[], [⟨[67], false⟩], [], false, 0⟩,
          error_code.clear⟩ :=
  ⟨⟨by decide, sim_delivers _ _ [] (by decide), by decide, by decide⟩,
    (receive_more_collects_message sim [[65], [66]] [⟨[67], false⟩] []
      ⟨[], [⟨[65], true⟩, ⟨[66], false⟩, ⟨[67], false⟩], [], false, 0⟩ 0 2 error_code.clear
      (by decide) (sim_delivers _ _ [] (by decide)) (by decide) (by decide)).1,
    by decide⟩

/-- C8 as the code has it: on a socket whose inbox holds the remaining frames
`remaining` of the message being read (none when no message is partially read) followed by the
frames `later` of the next messages, `flush`, entered with the error code not
set and given fuel for the loop, discards exactly the remaining frames, returns
the sum of their sizes, leaves the receive-more indicator false and the later
frames in the inbox.  In particular, after a buffer sequence receive that ended
with `no_buffer_space`, flush called with an error code that is not set leaves
the inbox at the first frame of the next message, and a receive that follows
delivers that message. -/
theorem flush_discards_rest_of_message (s : sim_socket) (remaining : List (List Byte))
    (later : List frame) (fuel : Nat) (ec : error_code)
    (hin : s.inbox = multipart remaining ++ later) (hmore : s.rcvmore = !remaining.isEmpty)
    (hec : ec.is_set = false) (hfuel : remaining.length < fuel) :
    flush sim fuel s ec
      = some (total_size remaining, { s with inbox := later, rcvmore := false }, ec)
    ∧ (∀ (bufs fs : List (List Byte)) (s0 : sim_socket) (flags : Nat) (ec0 : error_code),
        bufs ≠ [] → fs ≠ [] → s0.inbox = multipart fs ++ later → ec0.is_set = false →
        ∃ r, receive sim bufs s0 flags ec0 = .ok r ∧
          (r.ec = no_buffer_space →
            flush sim (fs.length + 1) r.socket ec
              = some (total_size (leftover bufs fs),
                  { s0 with inbox := later, rcvmore := false }, ec)
            ∧ ∀ (bufs2 gs : List (List Byte)) (later2 : List frame) (flags2 : Nat),
                bufs2 ≠ [] → gs ≠ [] → later = multipart gs ++ later2 →
                misfit bufs2 gs = false →
                ∃ r2, receive sim bufs2 { s0 with inbox := later, rcvmore := false } flags2 ec
                    = .ok r2 ∧
                  r2.ec = ec ∧ r2.res = total_size gs ∧ r2.buffers = filled bufs2 gs ∧
                  r2.socket.inbox = later2)) := by
  refine ⟨?_, ?_⟩
  · have h := flush_loop_sim remaining fuel empty_message 0 s ec later hin hmore hec hfuel
    simpa [flush] using h
  · intro bufs fs s0 flags ec0 hb hf hin0 hec0
    cases bufs with
    | nil => exact absurd rfl hb
    | cons b rest =>
      cases fs with
      | nil => exact absurd rfl hf
      | cons f fs =>
        obtain ⟨r, hr, _, hsock, _⟩ :=
          receive_loop_sim rest b [] empty_message 0 flags s0 ec0 f fs later hin0 hec0
        refine ⟨r, hr, ?_⟩
        intro _
        refine ⟨?_, ?_⟩
        · have hl := leftover_length_le (b :: rest) (f :: fs)
          have h := flush_loop_sim (leftover (b :: rest) (f :: fs)) ((f :: fs).length + 1)
            empty_message 0 r.socket ec later (by rw [hsock]) (by rw [hsock]) hec (by omega)
          rw [hsock] at h
          rw [hsock]
          simpa [flush] using h
        · intro bufs2 gs later2 flags2 hb2 hg hlater hfit2
          cases bufs2 with
          | nil => exact absurd rfl hb2
          | cons b2 rest2 =>
            cases gs with
            | nil => exact absurd rfl hg
            | cons g gs =>
              obtain ⟨r2, hr2, hrec2, hsock2, hres2⟩ :=
                receive_loop_sim rest2 b2 [] empty_message 0 flags2
                  { s0 with inbox := later, rcvmore := false } ec g gs later2 hlater hec
              obtain ⟨h1, h2⟩ := hres2 hfit2
              refine ⟨r2, hr2, ?_, ?_, ?_, ?_⟩
              · simp [hrec2, hfit2]
              · simpa using h1
              · simpa using h2
              · rw [hsock2, leftover_of_fit _ _ hfit2]
                simp [multipart]

/-- Witness of the amended C8: a receive of the message "A", "B", "C" into one buffer fails;
flush then discards "B" and "C", 2 bytes, and the next message "D" stays. -/
theorem flush_discards_rest_of_message_witness :
    ((⟨[], [⟨[66], true⟩, ⟨[67], false⟩, ⟨[68], false⟩], [], true, 0⟩ : sim_socket).inbox
        = multipart [[66], [67]] ++ [⟨[68], false⟩] ∧
      (⟨[], [⟨[66], true⟩, ⟨[67], false⟩, ⟨[68], false⟩], [], true, 0⟩ : sim_socket).rcvmore
        = !([[66], [67]] : List (List Byte)).isEmpty ∧
      error_code.clear.is_set = false ∧ ([[66], [67]] : List (List Byte)).length < 3) ∧
    receive sim [[0, 0]]
        ⟨[], [⟨[65], true⟩, ⟨[66], true⟩, ⟨[67], false⟩, ⟨[68], false⟩], [], false, 0⟩ 0
        error_code.clear
      = .ok ⟨1, [[65, 0]], ⟨[], [⟨[66], true⟩, ⟨[67], false⟩, ⟨[68], false⟩], [], true, 0⟩,
          no_buffer_space⟩ ∧
    flush sim 3 ⟨[], [⟨[66], true⟩, ⟨[67], false⟩, ⟨[68], false⟩], [], true, 0⟩ error_code.clear
      = some (2, ⟨[], [⟨[68], false⟩], [], false, 0⟩, error_code.clear) :=
  ⟨by decide, by decide,
    (flush_discards_rest_of_message
      ⟨[], [⟨[66], true⟩, ⟨[67], false⟩, ⟨[68], false⟩], [], true, 0⟩ [[66], [67]]
      [⟨[68], false⟩] 3 error_code.clear (by decide) (by decide) (by decide) (by decide)).1⟩

/-! ## Messages -/

open message

theorem overwrite_all (old b : List Byte) (h : old.length ≤ b.length) : overwrite old b = b := by
  simp [overwrite, List.drop_eq_nil_of_le h]

/-- C9: a message constructed by copying the bytes `b`, from a buffer or from a
string, has size `b.length`, data `b`, and `string()` gives `b` again; the
construction succeeds whenever the bytes fit the message itself or the memory left. -/
theorem message_of_bytes_reads_back (h : Heap) (b : List Byte)
    (hmem : b.length ≤ max_vsm_size ∨ sizeof_content_t + b.length ≤ h.avail) :
    ∃ m h1, message.from_buffer h b = .ok (m, h1) ∧ message.from_string h b = .ok (m, h1) ∧
      message.size h1 m = b.length ∧ message.data h1 m = b ∧ message.string h1 m = b := by
  by_cases hs : b.length ≤ max_vsm_size
  · refine ⟨⟨⟨.vsm b, 0⟩⟩, h, ?_, ?_, ?_, ?_, ?_⟩
    · simp [from_buffer, zmq_msg_init_size, hs, poke, overwrite_all]
    · simp [from_string, from_buffer, zmq_msg_init_size, hs, poke, overwrite_all]
    · simp [size, zmq_msg_size]
    · simp [data, zmq_msg_data]
    · simp [string, data, size, zmq_msg_data, zmq_msg_size]
  · have ha : sizeof_content_t + b.length ≤ h.avail := by
      rcases hmem with h1 | h1
      · exact absurd h1 hs
      · exact h1
    refine ⟨⟨⟨.lmsg h.contents.length, 0⟩⟩,
      { h with mem := (h.mem ++ [List.replicate b.length 0]).set h.mem.length b,
               contents := h.contents ++ [some ⟨h.mem.length, b.length, none, 0, 0⟩],
               avail := h.avail - (sizeof_content_t + b.length) }, ?_, ?_, ?_, ?_, ?_⟩
    · simp [from_buffer, zmq_msg_init_size, hs, ha, poke, Heap.content, Heap.block, overwrite_all,
        List.getD]
    · simp [from_string, from_buffer, zmq_msg_init_size, hs, ha, poke, Heap.content, Heap.block,
        overwrite_all, List.getD]
    · simp [size, zmq_msg_size, Heap.content, List.getD]
    · simp [data, zmq_msg_data, Heap.content, Heap.block, List.getD]
    · simp [string, data, size, zmq_msg_data, zmq_msg_size, Heap.content, Heap.block, List.getD]

/-- Witness of C9: 40 bytes copied into a heap with 1000 bytes left. -/
theorem message_of_bytes_reads_back_witness :
    (40 ≤ max_vsm_size ∨ sizeof_content_t + 40 ≤ 1000) ∧
    ∃ m h1, message.from_buffer ⟨[], [], 1000, []⟩ (List.replicate 40 7) = .ok (m, h1) ∧
      message.from_string ⟨[], [], 1000, []⟩ (List.replicate 40 7) = .ok (m, h1) ∧
      message.size h1 m = (List.replicate 40 (7 : Byte)).length ∧
      message.data h1 m = List.replicate 40 7 ∧ message.string h1 m = List.replicate 40 7 :=
  ⟨by decide, message_of_bytes_reads_back ⟨[], [], 1000, []⟩ (List.replicate 40 7) (by decide)⟩

theorem content_mk (m : List (List Byte)) (cs : List (Option content_t)) (a : Nat)
    (f : List (Nat × Nat × Nat)) (k : Nat) :
    Heap.content ⟨m, cs, a, f⟩ k = cs[k]?.getD none := by
  simp [Heap.content]

theorem block_mk (m : List (List Byte)) (cs : List (Option content_t)) (a : Nat)
    (f : List (Nat × Nat × Nat)) (p : Nat) :
    Heap.block ⟨m, cs, a, f⟩ p = m[p]?.getD [] := by
  simp [Heap.block]

theorem content_eq (h : Heap) (k : Nat) : h.content k = h.contents[k]?.getD none := by
  simp [Heap.content]

theorem block_eq (h : Heap) (p : Nat) : h.block p = h.mem[p]?.getD [] := by
  simp [Heap.block]

/-- A message made by the buffer constructor is valid in the heap it is made in. -/
theorem from_buffer_valid (h h1 : Heap) (b : List Byte) (m : message)
    (hok : message.from_buffer h b = .ok (m, h1)) : m.valid h1 = true := by
  by_cases hs : b.length ≤ max_vsm_size
  · simp [from_buffer, zmq_msg_init_size, hs, poke] at hok
    obtain ⟨rfl, rfl⟩ := hok
    simp [message.valid]
  · by_cases ha : sizeof_content_t + b.length ≤ h.avail
    · simp [from_buffer, zmq_msg_init_size, hs, ha, poke, content_mk, block_mk] at hok
      obtain ⟨rfl, rfl⟩ := hok
      simp [message.valid, content_mk, block_mk, flag_shared, overwrite_all]
    · simp [from_buffer, zmq_msg_init_size, hs, ha] at hok

/-- A write through the mutable view of a constant message leaves the block it
pointed to as it was: the write goes to the private copy. -/
theorem isolation_cmsg (h1 : Heap) (fl p n : Nat) (bytes : List Byte) (x2 : message) (h2 : Heap)
    (hI : p < h1.mem.length)
    (hw : write_buffer h1 ⟨⟨.cmsg p n, fl⟩⟩ bytes = .ok (x2, h2)) :
    h2.block p = h1.block p := by
  by_cases hn : n ≤ max_vsm_size
  · simp [write_buffer, buffer, is_shared, message.type, zmq_msg_t.type, message.flags, deep_copy,
      zmq_msg_move, zmq_msg_init, zmq_msg_close, size, zmq_msg_size, zmq_msg_init_size, hn, poke] at hw
    obtain ⟨_, rfl⟩ := hw
    rfl
  · by_cases ha : sizeof_content_t + n ≤ h1.avail
    · simp [write_buffer, buffer, is_shared, message.type, zmq_msg_t.type, message.flags, deep_copy,
        zmq_msg_move, zmq_msg_init, zmq_msg_close, size, zmq_msg_size, zmq_msg_init_size, hn, ha, poke,
        content_mk, block_mk] at hw
      obtain ⟨_, rfl⟩ := hw
      simp [block_eq, List.getElem?_append, hI]
    · simp [write_buffer, buffer, is_shared, message.type, zmq_msg_t.type, message.flags, deep_copy,
        zmq_msg_move, zmq_msg_init, zmq_msg_close, size, zmq_msg_size, zmq_msg_init_size, hn, ha] at hw

/-- A write through the mutable view of a large message in the state left by a
copy leaves what the `zmq_msg_t` read before the write. -/
theorem isolation_lmsg (h1 : Heap) (fl k : Nat) (bytes : List Byte) (x2 : message) (h2 : Heap)
    (hI : after_copy h1 ⟨.lmsg k, fl⟩)
    (hw : write_buffer h1 ⟨⟨.lmsg k, fl⟩⟩ bytes = .ok (x2, h2)) :
    zmq_msg_size h2 ⟨.lmsg k, fl⟩ = zmq_msg_size h1 ⟨.lmsg k, fl⟩ ∧
    zmq_msg_data h2 ⟨.lmsg k, fl⟩ = zmq_msg_data h1 ⟨.lmsg k, fl⟩ := by
  obtain ⟨hfl, hk, hc⟩ := hI
  have hfl2 : ¬ (fl &&& flag_shared = 0) := hfl
  simp only [write_buffer, buffer, is_shared, message.type, zmq_msg_t.type, message.flags, deep_copy,
      zmq_msg_move, zmq_msg_init, zmq_msg_close, size, zmq_msg_size] at hw
  simp only [zmq_msg_size, zmq_msg_data]
  cases hck : h1.content k with
  | none =>
    simp [hck, hfl2, zmq_msg_init_size, max_vsm_size, poke] at hw
    obtain ⟨_, rfl⟩ := hw
    simp [hck]
  | some c =>
    obtain ⟨hr2, hr3, hd⟩ := hc c hck
    have hn0 : ¬ ((c.refcnt + 4294967295) % 4294967296 = 0) := by omega
    have hck2 : h1.contents[k]?.getD none = some c := by rw [← content_eq]; exact hck
    have hck3 : h1.contents[k] = some c := by simpa [hk] using hck2
    simp only [hck] at hw
    by_cases hn : c.size ≤ max_vsm_size
    · simp [hfl2, zmq_msg_init_size, hn, poke, hck, hn0] at hw
      obtain ⟨_, rfl⟩ := hw
      simp [content_mk, block_mk, hk, block_eq]
    · by_cases ha : sizeof_content_t + c.size ≤ h1.avail
      · have hne : ¬ (k = h1.contents.length) := by omega
        have hk1 : k < h1.contents.length + 1 := by omega
        have hne3 : ¬ (c.data = h1.mem.length) := by omega
        simp [hfl2, zmq_msg_init_size, hn, ha, poke, content_mk, block_mk, List.getElem?_append, hk,
          hck2, hck3, hn0, List.getElem?_set, hne] at hw
        obtain ⟨_, rfl⟩ := hw
        simp [content_mk, block_mk, hk, hk1, block_eq, List.getElem?_append, hd, hne3, List.getElem?_set, hck3,
          List.getElem_append]
      · simp [hfl2, zmq_msg_init_size, hn, ha] at hw


/-- A write through the mutable view of a message in the state left by a copy
does not change what the other holder of the same `zmq_msg_t` reads. -/
theorem isolation_step (h1 : Heap) (x : zmq_msg_t) (bytes : List Byte) (x2 : message) (h2 : Heap)
    (hI : after_copy h1 x) (hw : write_buffer h1 ⟨x⟩ bytes = .ok (x2, h2)) :
    zmq_msg_size h2 x = zmq_msg_size h1 x ∧ zmq_msg_data h2 x = zmq_msg_data h1 x := by
  rcases x with ⟨body, fl⟩
  cases body with
  | closed => simp [after_copy] at hI
  | vsm d => simp [zmq_msg_size, zmq_msg_data]
  | cmsg p n =>
    have hb := isolation_cmsg h1 fl p n bytes x2 h2 hI hw
    simp [zmq_msg_size, zmq_msg_data, hb]
  | lmsg k => exact isolation_lmsg h1 fl k bytes x2 h2 hI hw

/-- What `zmq_msg_close` does to the heap: blocks stay, and a content record that is
still there kept its block and size, with the count as before or one less. -/
theorem zmq_msg_close_effect (h h0 : Heap) (dst d1 : zmq_msg_t)
    (hc : zmq_msg_close h dst = .ok (d1, h0)) :
    h0.mem = h.mem ∧ h0.contents.length = h.contents.length ∧
    ∀ k c0, h0.content k = some c0 → ∃ c, h.content k = some c ∧ c0.data = c.data ∧ c0.size = c.size ∧
      (c0.refcnt = c.refcnt ∨ (c0.refcnt ≠ 0 ∧ c0.refcnt = (c.refcnt + 4294967295) % 4294967296)) := by
  rcases dst with ⟨body, fl⟩
  cases body with
  | closed => simp [zmq_msg_close] at hc
  | vsm d =>
    simp [zmq_msg_close] at hc
    obtain ⟨_, rfl⟩ := hc
    exact ⟨rfl, rfl, fun k c0 h => ⟨c0, h, rfl, rfl, Or.inl rfl⟩⟩
  | cmsg p n =>
    simp [zmq_msg_close] at hc
    obtain ⟨_, rfl⟩ := hc
    exact ⟨rfl, rfl, fun k c0 h => ⟨c0, h, rfl, rfl, Or.inl rfl⟩⟩
  | lmsg j =>
    simp only [zmq_msg_close] at hc
    cases hcj : h.content j with
    | none =>
      simp [hcj] at hc
      obtain ⟨_, rfl⟩ := hc
      exact ⟨rfl, rfl, fun k c0 h => ⟨c0, h, rfl, rfl, Or.inl rfl⟩⟩
    | some cj =>
      simp only [hcj] at hc
      split at hc
      · simp at hc
        obtain ⟨_, rfl⟩ := hc
        refine ⟨rfl, by simp [Heap.free_content], ?_⟩
        intro k c0 hk0
        by_cases hkj : j = k
        · subst hkj
          simp [Heap.free_content, content_mk, List.getElem?_set] at hk0
          split at hk0 <;> simp at hk0
        · simp [Heap.free_content, content_mk, List.getElem?_set, hkj] at hk0
          exact ⟨c0, by simpa [content_eq] using hk0, rfl, rfl, Or.inl rfl⟩
      · rename_i hfree
        simp at hc
        obtain ⟨_, rfl⟩ := hc
        refine ⟨rfl, by simp, ?_⟩
        intro k c0 hk0
        by_cases hkj : j = k
        · subst hkj
          simp [content_mk, List.getElem?_set] at hk0
          split at hk0
          · simp at hk0
            subst hk0
            simp at hfree
            exact ⟨cj, hcj, rfl, rfl, Or.inr ⟨hfree.2, rfl⟩⟩
          · simp at hk0
        · simp [content_mk, List.getElem?_set, hkj] at hk0
          exact ⟨c0, by simpa [content_eq] using hk0, rfl, rfl, Or.inl rfl⟩


/-- After `zmq_msg_copy` the destination and the source hold the same `zmq_msg_t`,
in the state `after_copy`. -/
theorem zmq_msg_copy_after (h h1 : Heap) (dst src d s1 : zmq_msg_t)
    (hv : message.valid h ⟨src⟩ = true)
    (hc : zmq_msg_copy h dst src = .ok (d, s1, h1)) :
    d = s1 ∧ after_copy h1 s1 := by
  rcases src with ⟨body, fl⟩
  cases body with
  | closed => simp [zmq_msg_copy] at hc
  | vsm b =>
    simp only [zmq_msg_copy] at hc
    cases hcl : zmq_msg_close h dst with
    | error e => simp [hcl] at hc
    | ok r =>
      simp [hcl] at hc
      obtain ⟨rfl, rfl, _⟩ := hc
      exact ⟨rfl, trivial⟩
  | cmsg p n =>
    simp only [zmq_msg_copy] at hc
    cases hcl : zmq_msg_close h dst with
    | error e => simp [hcl] at hc
    | ok r =>
      obtain ⟨d1, h0⟩ := r
      simp [hcl] at hc
      obtain ⟨rfl, rfl, rfl⟩ := hc
      refine ⟨rfl, ?_⟩
      have hm := (zmq_msg_close_effect h h0 dst d1 hcl).1
      simp [message.valid] at hv
      simp [after_copy, hm, hv.1]
  | lmsg k =>
    simp only [zmq_msg_copy] at hc
    cases hcl : zmq_msg_close h dst with
    | error e => simp [hcl] at hc
    | ok r =>
      obtain ⟨d1, h0⟩ := r
      obtain ⟨hm, hlen, heff⟩ := zmq_msg_close_effect h h0 dst d1 hcl
      simp only [hcl] at hc
      have hsh : (fl ||| flag_shared) &&& flag_shared ≠ 0 := by
        have : (fl ||| flag_shared) &&& flag_shared = flag_shared := by
          apply Nat.eq_of_testBit_eq
          intro i
          simp only [Nat.testBit_and, Nat.testBit_or]
          cases fl.testBit i <;> cases flag_shared.testBit i <;> rfl
        rw [this]; decide
      simp only [message.valid] at hv
      cases hck : h.content k with
      | none => simp [hck] at hv
      | some c =>
        simp [hck] at hv
        obtain ⟨⟨⟨hd, hsz⟩, hrc⟩, hmax⟩ := hv
        have hk : k < h.contents.length := by
          by_contra hge
          have : h.content k = none := by
            simp [content_eq, List.getElem?_eq_none (Nat.le_of_not_lt hge)]
          simp [this] at hck
        cases hck0 : h0.content k with
        | none =>
          simp [hck0] at hc
          obtain ⟨rfl, rfl, rfl⟩ := hc
          refine ⟨rfl, hsh, by omega, ?_⟩
          intro c' hc'
          simp [hck0] at hc'
        | some c0 =>
          obtain ⟨c', hc'1, hda, hsi, hrf⟩ := heff k c0 hck0
          rw [hck] at hc'1
          cases hc'1
          simp [hck0] at hc
          obtain ⟨rfl, rfl, rfl⟩ := hc
          refine ⟨rfl, hsh, by simp; omega, ?_⟩
          intro c2 hc2
          simp [content_mk, List.getElem?_set, hlen, hk] at hc2
          subst hc2
          simp only
          by_cases hs : fl &&& flag_shared = 0
          · simp only [hs]
            exact ⟨by simp, by simp, by rw [hm]; omega⟩
          · have h1r : 1 ≤ c.refcnt := by
              rcases hrc with h' | h'
              · exact absurd h' hs
              · exact h'
            simp only [hs]
            refine ⟨?_, ?_, by rw [hm]; omega⟩
            · simp; omega
            · simp; omega


/-- The copy made by the copy constructor has the size and bytes of its source. -/
theorem copy_construct_same (h h1 : Heap) (m c m1 : message)
    (hv : m.valid h = true) (hc : copy_construct h m = .ok (c, m1, h1)) :
    size h1 c = size h m ∧ data h1 c = data h m := by
  rcases m with ⟨⟨body, fl⟩⟩
  cases body with
  | closed => simp [message.valid] at hv
  | vsm b =>
    simp [copy_construct, zmq_msg_copy, zmq_msg_close, zmq_msg_init] at hc
    obtain ⟨rfl, rfl, rfl⟩ := hc
    simp [size, data, zmq_msg_size, zmq_msg_data]
  | cmsg p n =>
    simp [copy_construct, zmq_msg_copy, zmq_msg_close, zmq_msg_init] at hc
    obtain ⟨rfl, rfl, rfl⟩ := hc
    simp [size, data, zmq_msg_size, zmq_msg_data]
  | lmsg k =>
    simp only [message.valid] at hv
    cases hck : h.content k with
    | none => simp [hck] at hv
    | some c0 =>
      have hk : k < h.contents.length := by
        by_contra hge
        have : h.content k = none := by
          simp [content_eq, List.getElem?_eq_none (Nat.le_of_not_lt hge)]
        simp [this] at hck
      simp [copy_construct, zmq_msg_copy, zmq_msg_close, zmq_msg_init, hck] at hc
      obtain ⟨rfl, rfl, rfl⟩ := hc
      simp [size, data, zmq_msg_size, zmq_msg_data, hck, content_mk, block_mk, block_eq, hk]

/-- C10: after a copy construction or a copy assignment from a valid message `m`,
a write of any bytes through the mutable view `buffer()` of either message
leaves `size()` and `data()` of the other one as they were. -/
theorem copy_on_write_isolation (h : Heap) (m dst : message) (bytes : List Byte)
    (hv : m.valid h = true) :
    (∀ c m1 h1, copy_construct h m = .ok (c, m1, h1) →
      size h1 c = size h m ∧ data h1 c = data h m ∧
      (∀ c2 h2, write_buffer h1 c bytes = .ok (c2, h2) →
        size h2 m1 = size h1 m1 ∧ data h2 m1 = data h1 m1) ∧
      (∀ m2 h2, write_buffer h1 m1 bytes = .ok (m2, h2) →
        size h2 c = size h1 c ∧ data h2 c = data h1 c)) ∧
    (∀ c m1 h1, copy_assign h dst m = .ok (c, m1, h1) →
      (∀ c2 h2, write_buffer h1 c bytes = .ok (c2, h2) →
        size h2 m1 = size h1 m1 ∧ data h2 m1 = data h1 m1) ∧
      (∀ m2 h2, write_buffer h1 m1 bytes = .ok (m2, h2) →
        size h2 c = size h1 c ∧ data h2 c = data h1 c)) := by
  constructor
  · intro c m1 h1 hc
    have hsame := copy_construct_same h h1 m c m1 hv hc
    simp only [copy_construct] at hc
    cases hz : zmq_msg_copy h zmq_msg_init m.msg_ with
    | error e => simp [hz] at hc
    | ok r =>
      obtain ⟨d, s1, h1'⟩ := r
      simp [hz] at hc
      obtain ⟨rfl, rfl, rfl⟩ := hc
      obtain ⟨hds, hI⟩ := zmq_msg_copy_after h h1' zmq_msg_init m.msg_ d s1 hv hz
      subst hds
      exact ⟨hsame.1, hsame.2, fun c2 h2 hw => isolation_step h1' d bytes c2 h2 hI hw,
        fun m2 h2 hw => isolation_step h1' d bytes m2 h2 hI hw⟩
  · intro c m1 h1 hc
    simp only [copy_assign] at hc
    cases hz : zmq_msg_copy h dst.msg_ m.msg_ with
    | error e => simp [hz] at hc
    | ok r =>
      obtain ⟨d, s1, h1'⟩ := r
      simp [hz] at hc
      obtain ⟨rfl, rfl, rfl⟩ := hc
      obtain ⟨hds, hI⟩ := zmq_msg_copy_after h h1' dst.msg_ m.msg_ d s1 hv hz
      subst hds
      exact ⟨fun c2 h2 hw => isolation_step h1' d bytes c2 h2 hI hw,
        fun m2 h2 hw => isolation_step h1' d bytes m2 h2 hI hw⟩

/-- Witness of C10: the copy of a 40 byte message is written through its mutable
view; the writer reads the new bytes, the original reads the old ones. -/
theorem copy_on_write_isolation_witness :
    demo_message.valid demo_heap = true ∧
    ∃ c m1 h1 c2 h2, copy_construct demo_heap demo_message = .ok (c, m1, h1) ∧
      write_buffer h1 c [9, 9, 9] = .ok (c2, h2) ∧
      (data h2 c2).take 3 = [9, 9, 9] ∧
      size h2 m1 = size h1 m1 ∧ data h2 m1 = data h1 m1 :=
  ⟨by decide, _, _, _, _, _, rfl, rfl, by decide,
    ((copy_on_write_isolation demo_heap demo_message message.default [9, 9, 9] (by decide)).1
      _ _ _ rfl).2.2.1 _ _ rfl⟩

/-- C13: move construction and move assignment give the destination the size,
bytes and more flag of the source, and leave the source as a freshly
default-created message: initialised, of size zero, with more false. -/
theorem move_transfers_and_resets (h : Heap) (src dst : message) :
    (size h (move_construct src).1 = size h src ∧
      data h (move_construct src).1 = data h src ∧
      (move_construct src).1.more = src.more ∧
      (move_construct src).2 = message.default ∧
      (move_construct src).2.valid h = true ∧
      size h (move_construct src).2 = 0 ∧
      (move_construct src).2.more = false) ∧
    (size h (move_assign dst src).1 = size h src ∧
      data h (move_assign dst src).1 = data h src ∧
      (move_assign dst src).1.more = src.more ∧
      (move_assign dst src).2 = message.default ∧
      (move_assign dst src).2.valid h = true ∧
      size h (move_assign dst src).2 = 0 ∧
      (move_assign dst src).2.more = false) := by
  have hm : message.more ⟨zmq_msg_init⟩ = false := by decide
  exact ⟨⟨rfl, rfl, rfl, rfl, rfl, rfl, hm⟩, ⟨rfl, rfl, rfl, rfl, rfl, rfl, hm⟩⟩

theorem data_length_of_valid (h : Heap) (m : message) (hv : m.valid h = true) :
    (data h m).length = size h m := by
  obtain ⟨⟨body, fl⟩⟩ := m
  cases body with
  | closed => simp [message.valid] at hv
  | vsm b => simp [size, data, zmq_msg_size, zmq_msg_data]
  | cmsg p n =>
    simp [message.valid] at hv
    simp [size, data, zmq_msg_size, zmq_msg_data, hv.2]
  | lmsg k =>
    simp only [message.valid] at hv
    cases hck : h.content k with
    | none => simp [hck] at hv
    | some c =>
      simp [hck] at hv
      simp [size, data, zmq_msg_size, zmq_msg_data, hck, hv.1.1.2]

theorem memcmp_eq_zero : ∀ (n : Nat) (p q : List Byte), p.length = n → q.length = n →
    (memcmp p q n = 0 ↔ p = q) := by
  intro n
  induction n with
  | zero =>
    intro p q hp hq
    simp [List.length_eq_zero] at hp hq
    subst hp; subst hq; simp [memcmp]
  | succ n ih =>
    intro p q hp hq
    cases p with
    | nil => simp at hp
    | cons a p =>
      cases q with
      | nil => simp at hq
      | cons b q =>
        simp at hp hq
        by_cases hab : a = b
        · subst hab
          simp [memcmp, ih p q hp hq]
        · simp [memcmp, hab]
          split <;> simp

/-- C12: for valid messages, `a == b` holds exactly when the sizes are equal and
the bytes are equal, whatever the flags of the two messages are; `a != b`
is the negation; equality is reflexive and symmetric. -/
theorem equality_is_byte_equality (h : Heap) (a b : message)
    (ha : a.valid h = true) (hb : b.valid h = true) :
    (operator_eq h a b = true ↔ size h a = size h b ∧ data h a = data h b) ∧
    (∀ fa fb : Nat, operator_eq h ⟨⟨a.msg_.body, fa⟩⟩ ⟨⟨b.msg_.body, fb⟩⟩ = operator_eq h a b) ∧
    operator_ne h a b = !operator_eq h a b ∧
    operator_eq h a a = true ∧
    operator_eq h a b = operator_eq h b a := by
  have la := data_length_of_valid h a ha
  have lb := data_length_of_valid h b hb
  have key : ∀ x y : message, (data h x).length = size h x → (data h y).length = size h y →
      (operator_eq h x y = true ↔ size h x = size h y ∧ data h x = data h y) := by
    intro x y lx ly
    by_cases hs : size h x = size h y
    · have := memcmp_eq_zero (size h x) (data h x) (data h y) lx (by rw [ly, hs])
      simp only [operator_eq, operator_ne, hs]
      simp only [← hs]
      simp [this]
      constructor
      · intro hm; exact this.mp hm.symm
      · intro hd; exact (this.mpr hd).symm
    · simp [operator_eq, operator_ne, hs]
  refine ⟨key a b la lb, fun fa fb => rfl, by simp [operator_eq], ?_, ?_⟩
  · exact (key a a la la).mpr ⟨rfl, rfl⟩
  · rw [Bool.eq_iff_iff, key a b la lb, key b a lb la]
    constructor <;> rintro ⟨h1, h2⟩ <;> exact ⟨h1.symm, h2.symm⟩

/-- Witness of C12. -/
theorem equality_is_byte_equality_witness :
    demo_message.valid demo_heap = true ∧ message.default.valid demo_heap = true ∧
    operator_eq demo_heap demo_message message.default = false ∧
    operator_eq demo_heap demo_message ⟨⟨.lmsg 0, 129⟩⟩ = true ∧
    operator_eq demo_heap demo_message demo_message = true :=
  ⟨by decide, by decide, by decide, by decide,
    (equality_is_byte_equality demo_heap demo_message message.default (by decide) (by decide)).2.2.2.1⟩

theorem overwrite_replicate (n : Nat) (bytes : List Byte) (hl : bytes.length = n) :
    overwrite (List.replicate n 0) bytes = bytes := by
  simp [overwrite, hl]

theorem overwrite_take (n : Nat) (l : List Byte) (hl : n ≤ l.length) :
    overwrite (List.replicate n 0) (List.take n (List.take n l)) = List.take n l := by
  simp [overwrite, hl]

/-- C11: for every valid message, when memory for a copy is there, the mutable
view `buffer()` returns with `is_shared()` false and with `size()` and
`data()` as before; a message that was not shared is left as it was, and so is
the heap. -/
theorem mutable_view_unshares (h : Heap) (m : message) (hv : m.valid h = true)
    (hmem : m.is_shared = false ∨ size h m ≤ max_vsm_size ∨
      sizeof_content_t + size h m ≤ h.avail) :
    ∃ m1 h1, buffer h m = .ok (m1, h1) ∧ m1.is_shared = false ∧
      size h1 m1 = size h m ∧ data h1 m1 = data h m ∧
      (m.is_shared = false → m1 = m ∧ h1 = h) := by
  by_cases hs : m.is_shared = false
  · exact ⟨m, h, by simp [buffer, hs], hs, rfl, rfl, fun _ => ⟨rfl, rfl⟩⟩
  · have hs1 : m.is_shared = true := by simpa using hs
    have hlen := data_length_of_valid h m hv
    have hmem2 : size h m ≤ max_vsm_size ∨ sizeof_content_t + size h m ≤ h.avail := by
      rcases hmem with h0 | h0
      · exact absurd h0 hs
      · exact h0
    obtain ⟨⟨body, fl⟩⟩ := m
    cases body with
    | closed => simp [message.valid] at hv
    | vsm b =>
      simp only [size, zmq_msg_size] at hmem2 hlen
      simp only [buffer, hs1, if_true, deep_copy, zmq_msg_move, zmq_msg_close, zmq_msg_init,
        size, zmq_msg_size, zmq_msg_init_size]
      by_cases hb : b.length ≤ max_vsm_size
      · simp only [hb, if_true, poke, zmq_msg_data, zmq_msg_close]
        refine ⟨_, _, rfl, ?_⟩
        simp [overwrite_replicate, is_shared, flags,
          message.type, zmq_msg_t.type, type_vsm, type_cmsg, data, size, zmq_msg_size,
          zmq_msg_data, flag_shared]
      · have ha : sizeof_content_t + b.length ≤ h.avail := by
          rcases hmem2 with h0 | h0
          · exact absurd h0 hb
          · exact h0
        simp only [hb, ha, if_true, if_false, poke, zmq_msg_data, zmq_msg_close, content_mk]
        simp only [List.getElem?_append, lt_irrefl, if_false, Nat.sub_self,
          List.getElem?_cons_zero, Option.getD_some, content_mk]
        refine ⟨_, _, rfl, ?_⟩
        simp [overwrite_replicate, is_shared, flags,
          message.type, zmq_msg_t.type, type_lmsg, type_cmsg, data, size, zmq_msg_size,
          zmq_msg_data, flag_shared, content_mk, block_mk, content_eq, block_eq]
    | cmsg p n =>
      simp only [size, zmq_msg_size] at hmem2 hlen
      simp only [data, zmq_msg_data] at hlen
      simp only [message.valid, Bool.and_eq_true, decide_eq_true_eq] at hv
      simp only [buffer, hs1, if_true, deep_copy, zmq_msg_move, zmq_msg_close, zmq_msg_init,
        size, zmq_msg_size, zmq_msg_init_size]
      by_cases hb : n ≤ max_vsm_size
      · simp only [hb, if_true, poke, zmq_msg_data, zmq_msg_close]
        refine ⟨_, _, rfl, ?_⟩
        simp [overwrite_replicate, is_shared, flags, hlen,
          message.type, zmq_msg_t.type, type_vsm, type_cmsg, data, size, zmq_msg_size,
          zmq_msg_data, flag_shared, hv.2]
      · have ha : sizeof_content_t + n ≤ h.avail := by
          rcases hmem2 with h0 | h0
          · exact absurd h0 hb
          · exact h0
        simp only [hb, ha, if_true, if_false, poke, zmq_msg_data, zmq_msg_close, content_mk]
        simp only [List.getElem?_append, lt_irrefl, if_false, Nat.sub_self,
          List.getElem?_cons_zero, Option.getD_some, content_mk]
        refine ⟨_, _, rfl, ?_⟩
        simp [overwrite_replicate, is_shared, flags, hlen, hv.1, hv.2,
          message.type, zmq_msg_t.type, type_lmsg, type_cmsg, data, size, zmq_msg_size,
          zmq_msg_data, flag_shared, content_mk, block_mk, content_eq, block_eq,
          List.getElem?_append]
        rw [overwrite_take n _ (by simpa [block_eq, hv.1] using hv.2)]
        simp
    | lmsg k =>
      simp only [message.valid] at hv
      cases hck : h.content k with
      | none => simp [hck] at hv
      | some c =>
        have hk : k < h.contents.length := by
          by_contra hge
          have : h.content k = none := by
            simp [content_eq, List.getElem?_eq_none (Nat.le_of_not_lt hge)]
          simp [this] at hck
        have hck2 : h.contents[k]?.getD none = some c := by rw [← content_eq]; exact hck
        have hck3 : h.contents[k] = some c := by simpa [hk] using hck2
        simp only [hck, Bool.and_eq_true, decide_eq_true_eq] at hv
        obtain ⟨⟨⟨hd, hsz⟩, _⟩, _⟩ := hv
        have hfl : fl &&& flag_shared ≠ 0 := by
          simpa [is_shared, flags, message.type, zmq_msg_t.type, type_lmsg, type_cmsg] using hs1
        simp only [size, zmq_msg_size, hck] at hmem2
        simp only [buffer, hs1, if_true, deep_copy, zmq_msg_move, zmq_msg_close, zmq_msg_init,
          size, zmq_msg_size, zmq_msg_init_size, hck]
        by_cases hb : c.size ≤ max_vsm_size
        · simp only [hb, if_true, poke, zmq_msg_data, zmq_msg_close, hck]
          by_cases hn : (c.refcnt + 4294967295) % 4294967296 = 0
          · simp only [hn, hfl, beq_self_eq_true, Bool.or_true, if_true]
            refine ⟨_, _, rfl, ?_⟩
            simp [is_shared, flags, message.type, zmq_msg_t.type, type_vsm, type_cmsg, data, size,
              zmq_msg_size, zmq_msg_data, flag_shared, hck]
            rw [overwrite_take c.size _ hsz]
            simp [hsz]
          · simp only [hn, hfl, decide_False, Bool.false_or, beq_iff_eq, if_false]
            refine ⟨_, _, rfl, ?_⟩
            simp [is_shared, flags, message.type, zmq_msg_t.type, type_vsm, type_cmsg, data, size,
              zmq_msg_size, zmq_msg_data, flag_shared, hck]
            rw [overwrite_take c.size _ hsz]
            simp [hsz]
        · have ha : sizeof_content_t + c.size ≤ h.avail := by
            rcases hmem2 with h0 | h0
            · exact absurd h0 hb
            · exact h0
          have hne : k ≠ h.contents.length := Nat.ne_of_lt hk
          have hblk : h.mem[c.data]?.getD [] = h.block c.data := (block_eq h c.data).symm
          simp only [hb, ha, if_true, if_false, poke, zmq_msg_data, zmq_msg_close, content_mk,
            block_mk]
          simp only [List.getElem?_append, lt_irrefl, if_false, Nat.sub_self, hk, hd, if_true,
            List.getElem?_cons_zero, Option.getD_some, content_mk, hck2, hblk]
          by_cases hn : (c.refcnt + 4294967295) % 4294967296 = 0
          · simp only [hn, hfl, beq_self_eq_true, Bool.or_true, if_true]
            refine ⟨_, _, rfl, ?_⟩
            simp [is_shared, flags, message.type, zmq_msg_t.type, type_lmsg, type_cmsg, data, size,
              zmq_msg_size, zmq_msg_data, flag_shared, hck, Heap.free_content, content_mk,
              block_mk, List.getElem?_append, List.getElem?_set, hne]
            rw [overwrite_take c.size _ hsz]
            simp [hsz]
          · simp only [hn, hfl, decide_False, Bool.false_or, beq_iff_eq, if_false]
            refine ⟨_, _, rfl, ?_⟩
            simp [is_shared, flags, message.type, zmq_msg_t.type, type_lmsg, type_cmsg, data, size,
              zmq_msg_size, zmq_msg_data, flag_shared, hck, content_mk,
              block_mk, List.getElem?_append, List.getElem?_set, hne]
            rw [overwrite_take c.size _ hsz]
            simp [hsz]

/-- Witness of C11: the mutable view of a shared 40 byte message. -/
theorem mutable_view_unshares_witness :
    shared_message.valid shared_heap = true ∧ shared_message.is_shared = true ∧
    ∃ m1 h1, buffer shared_heap shared_message = .ok (m1, h1) ∧ m1.is_shared = false ∧
      size h1 m1 = size shared_heap shared_message ∧
      data h1 m1 = data shared_heap shared_message ∧
      (shared_message.is_shared = false → m1 = shared_message ∧ h1 = shared_heap) :=
  ⟨by decide, by decide,
    mutable_view_unshares shared_heap shared_message (by decide) (Or.inr (Or.inr (by decide)))⟩

theorem move_chain_eq (n : Nat) : ∀ m : message,
    move_chain n m = (m, List.replicate n message.default) := by
  induction n with
  | zero => intro m; rfl
  | succ n ih =>
    intro m
    simp only [move_chain, move_construct, ih, List.replicate_succ]
    rfl

theorem destroy_all_default (n : Nat) (h : Heap) :
    destroy_all h (List.replicate n message.default) = h := by
  induction n with
  | zero => rfl
  | succ n ih =>
    simp only [List.replicate_succ, destroy_all, List.foldl_cons]
    have : message.close h message.default = h := by
      simp [message.close, message.default, zmq_msg_close, zmq_msg_init]
    rw [this]
    exact ih

/-- C14: when there is memory for the `content_t`, the no-copy constructor with a
deleter succeeds without a call of the deleter; after any chain of move
constructions, the destructors of the moved-from messages call nothing, and
the destructor of the message that holds the buffer calls the deleter once,
with the pointer of the buffer, in whichever order the destructors run. -/
theorem nocopy_deleter_runs_once (h : Heap) (data size deleter n : Nat)
    (hmem : sizeof_content_t ≤ h.avail) :
    ∃ m h1, nocopy h data size deleter = .ok (m, h1) ∧
      h1.ffn_calls = h.ffn_calls ∧
      (destroy_all h1 (move_chain n m).2).ffn_calls = h1.ffn_calls ∧
      (close (destroy_all h1 (move_chain n m).2) (move_chain n m).1).ffn_calls
        = h.ffn_calls ++ [(call_deleter, data, deleter)] ∧
      (destroy_all (close h1 (move_chain n m).1) (move_chain n m).2).ffn_calls
        = h.ffn_calls ++ [(call_deleter, data, deleter)] ∧
      deleter_invocations (close (destroy_all h1 (move_chain n m).2) (move_chain n m).1) deleter
        = deleter_invocations h deleter ++ [data] := by
  simp only [nocopy, zmq_msg_init_data, hmem, if_true]
  refine ⟨_, _, rfl, rfl, ?_⟩
  simp only [move_chain_eq, destroy_all_default]
  have hc : (close (⟨h.mem,
      h.contents ++ [some ⟨data, size, some call_deleter, deleter, 0⟩],
      h.avail - sizeof_content_t, h.ffn_calls⟩ : Heap)
      ⟨⟨.lmsg h.contents.length, 0⟩⟩).ffn_calls
        = h.ffn_calls ++ [(call_deleter, data, deleter)] := by
    simp [message.close, zmq_msg_close, content_mk, Heap.free_content]
  refine ⟨trivial, hc, hc, ?_⟩
  simp [deleter_invocations, hc, List.filter_append]

/-- Witness of C14: a chain of three move constructions. -/
theorem nocopy_deleter_runs_once_witness :
    sizeof_content_t ≤ empty_heap.avail ∧
    ∃ m h1, nocopy empty_heap 7 16 5 = .ok (m, h1) ∧
      h1.ffn_calls = empty_heap.ffn_calls ∧
      (destroy_all h1 (move_chain 3 m).2).ffn_calls = h1.ffn_calls ∧
      (close (destroy_all h1 (move_chain 3 m).2) (move_chain 3 m).1).ffn_calls
        = empty_heap.ffn_calls ++ [(call_deleter, 7, 5)] ∧
      (destroy_all (close h1 (move_chain 3 m).1) (move_chain 3 m).2).ffn_calls
        = empty_heap.ffn_calls ++ [(call_deleter, 7, 5)] ∧
      deleter_invocations (close (destroy_all h1 (move_chain 3 m).2) (move_chain 3 m).1) 5
        = deleter_invocations empty_heap 5 ++ [7] :=
  ⟨by decide, nocopy_deleter_runs_once empty_heap 7 16 5 3 (by decide)⟩

/-- C15 (defect of the code): a message made by the no-copy constructor over the buffer `buf`
with the deleter `deleter` is the destination of a move assignment from a
default-created message; after the destructors of both messages have run, the
deleter has never been called and the `content_t` of the destination is still
allocated. -/
theorem move_assign_never_releases_destination (buf len deleter : Nat) :
    ∃ d h1, nocopy empty_heap buf len deleter = .ok (d, h1) ∧
      size h1 d = len ∧
      (destroy_all h1 [(move_assign d message.default).1,
          (move_assign d message.default).2]).ffn_calls = [] ∧
      deleter_invocations (destroy_all h1 [(move_assign d message.default).1,
          (move_assign d message.default).2]) deleter = [] ∧
      (destroy_all h1 [(move_assign d message.default).1,
          (move_assign d message.default).2]).content 0
        = some ⟨buf, len, some call_deleter, deleter, 0⟩ :=
  ⟨⟨⟨.lmsg 0, 0⟩⟩, ⟨[], [some ⟨buf, len, some call_deleter, deleter, 0⟩], 960, []⟩,
    rfl, rfl, rfl, rfl, rfl⟩

/-! ## The branches of bind -/

/-- An address that matches the dynamic port expression does not match the fixed
port expression: after the last colon it has `*` or `!`, not a digit. -/
theorem simple_tcp_of_dynamic (ep : String) (m : dynamic_match) (hm : dynamic_tcp ep = some m) :
    simple_tcp ep = none := by
  simp only [dynamic_tcp] at hm
  simp only [simple_tcp]
  cases hsp : split_last_colon ep.toList with
  | none => rfl
  | some ps =>
    obtain ⟨pre, suf⟩ := ps
    simp only [hsp] at hm
    cases suf with
    | nil => simp at hm
    | cons op r =>
      simp only at hm
      by_cases hop : (op == '*' || op == '!') = true
      · have hnd : is_digit op = false := by
          simp only [Bool.or_eq_true, beq_iff_eq] at hop
          rcases hop with h | h <;> subst h <;> decide
        simp [hnd]
      · simp [hop] at hm

/-- C17 as the code has it: when an explicit bound of a dynamic port address is
above 65535, bind throws before any transport call, nothing is returned, and
the socket is as it was.  The bounds are examined in order, `first`, then
`last`, and the first one above 65535 decides the exception:
`std::out_of_range`, from `std::stoi`, when it does not fit an `int`, and
`std::bad_cast` when it does. -/
theorem bind_throws_on_wide_bound {σ : Type} (T : Transport σ) (gen : Nat) (s : σ) (ep : String)
    (ec : error_code) (m : dynamic_match) (hm : dynamic_tcp ep = some m)
    (hbig : (m.first_str ≠ [] ∧ UINT16_MAX < digits_value m.first_str) ∨
      (m.last_str ≠ [] ∧ UINT16_MAX < digits_value m.last_str)) :
    ∃ e, bind T gen s ep ec = .error (e, s) ∧ (e = .bad_cast ∨ e = .out_of_range) ∧
      (digits_value m.first_str ≤ INT_MAX → digits_value m.last_str ≤ INT_MAX →
        e = .bad_cast) ∧
      (m.first_str ≠ [] → UINT16_MAX < digits_value m.first_str →
        (e = .out_of_range ↔ INT_MAX < digits_value m.first_str)) ∧
      (m.first_str = [] ∨ digits_value m.first_str ≤ UINT16_MAX →
        (e = .out_of_range ↔ INT_MAX < digits_value m.last_str)) := by
  have hs := simple_tcp_of_dynamic ep m hm
  have hU : UINT16_MAX = 65535 := rfl
  have hI : INT_MAX = 2147483647 := rfl
  have hne : exception.bad_cast ≠ exception.out_of_range := by decide
  simp only [socket_ops.bind, hs, hm]
  by_cases hf : m.first_str = []
  · have hl : m.last_str ≠ [] ∧ UINT16_MAX < digits_value m.last_str := by
      rcases hbig with h | h
      · exact absurd hf h.1
      · exact h
    by_cases hli : digits_value m.last_str ≤ INT_MAX
    · refine ⟨.bad_cast, ?_, Or.inl rfl, fun _ _ => rfl, fun h => absurd hf h,
        fun _ => ⟨fun h => absurd h hne, fun h => by omega⟩⟩
      simp [hf, hl.1, hl.2, stoi, not_lt.mpr hli]
    · refine ⟨.out_of_range, ?_, Or.inr rfl, fun _ h => absurd h hli, fun h => absurd hf h,
        fun _ => ⟨fun _ => by omega, fun _ => rfl⟩⟩
      simp [hf, hl.1, stoi, not_le.mp hli]
  · by_cases hfi : digits_value m.first_str ≤ INT_MAX
    · by_cases hfb : UINT16_MAX < digits_value m.first_str
      · refine ⟨.bad_cast, ?_, Or.inl rfl, fun _ _ => rfl,
          fun _ _ => ⟨fun h => absurd h hne, fun h => by omega⟩, fun h => ?_⟩
        · simp [hf, hfb, stoi, not_lt.mpr hfi]
        · rcases h with h | h
          · exact absurd h hf
          · omega
      · have hl : m.last_str ≠ [] ∧ UINT16_MAX < digits_value m.last_str := by
          rcases hbig with h | h
          · exact absurd h.2 hfb
          · exact h
        by_cases hli : digits_value m.last_str ≤ INT_MAX
        · refine ⟨.bad_cast, ?_, Or.inl rfl, fun _ _ => rfl, fun _ h => absurd h hfb,
            fun _ => ⟨fun h => absurd h hne, fun h => by omega⟩⟩
          simp [hf, hfb, hl.1, hl.2, stoi, not_lt.mpr hfi, not_lt.mpr hli]
        · refine ⟨.out_of_range, ?_, Or.inr rfl, fun _ h => absurd h hli,
            fun _ h => absurd h hfb, fun _ => ⟨fun _ => by omega, fun _ => rfl⟩⟩
          simp [hf, hfb, hl.1, stoi, not_lt.mpr hfi, not_le.mp hli]
    · refine ⟨.out_of_range, ?_, Or.inr rfl, fun h _ => absurd h hfi,
        fun _ _ => ⟨fun _ => by omega, fun _ => rfl⟩, fun h => ?_⟩
      · simp [hf, stoi, not_le.mp hfi]
      · rcases h with h | h
        · exact absurd h hf
        · omega

/-- Witness of the amended C17: the first bound 70000 decides, although the last
bound does not fit an `int`. -/
theorem bind_throws_on_wide_bound_witness :
    dynamic_tcp "tcp://127.0.0.1:*[70000-99999999999]"
      = some ⟨"tcp://127.0.0.1", '*', "70000".toList, "99999999999".toList⟩ ∧
    bind sim 0 ⟨[], [], [], false, 0⟩ "tcp://127.0.0.1:*[70000-99999999999]" error_code.clear
      = .error (.bad_cast, ⟨[], [], [], false, 0⟩) ∧
    bind sim 0 ⟨[], [], [], false, 0⟩ "tcp://127.0.0.1:*[99999999999-70000]" error_code.clear
      = .error (.out_of_range, ⟨[], [], [], false, 0⟩) ∧
    ∃ e, bind sim 0 ⟨[], [], [], false, 0⟩ "tcp://127.0.0.1:*[70000-99999999999]"
          error_code.clear
        = .error (e, ⟨[], [], [], false, 0⟩) ∧ (e = .bad_cast ∨ e = .out_of_range) ∧
      (digits_value "70000".toList ≤ INT_MAX → digits_value "99999999999".toList ≤ INT_MAX →
        e = .bad_cast) ∧
      ("70000".toList ≠ [] → UINT16_MAX < digits_value "70000".toList →
        (e = .out_of_range ↔ INT_MAX < digits_value "70000".toList)) ∧
      ("70000".toList = [] ∨ digits_value "70000".toList ≤ UINT16_MAX →
        (e = .out_of_range ↔ INT_MAX < digits_value "99999999999".toList)) :=
  ⟨by decide, by decide, by decide,
    bind_throws_on_wide_bound sim 0 ⟨[], [], [], false, 0⟩
      "tcp://127.0.0.1:*[70000-99999999999]" error_code.clear
      ⟨"tcp://127.0.0.1", '*', "70000".toList, "99999999999".toList⟩ (by decide)
      (Or.inl ⟨by decide, by decide⟩)⟩

/-- C17 as stated fails: on `tcp://127.0.0.1:*[70000-70001]` bind returns no error
code at all, it throws `std::bad_cast`; with a bound that does not fit an `int`
it throws `std::out_of_range`. -/
theorem bind_wide_bound_is_not_an_error_code :
    bind (recording sim) 0 (⟨[], [], [], false, 0⟩, []) "tcp://127.0.0.1:*[70000-70001]"
        error_code.clear = .error (.bad_cast, (⟨[], [], [], false, 0⟩, [])) ∧
    (∀ r, bind (recording sim) 0 (⟨[], [], [], false, 0⟩, []) "tcp://127.0.0.1:*[70000-70001]"
        error_code.clear ≠ .ok r) ∧
    bind (recording sim) 0 (⟨[], [], [], false, 0⟩, []) "tcp://127.0.0.1:*[1-99999999999]"
        error_code.clear = .error (.out_of_range, (⟨[], [], [], false, 0⟩, [])) := by
  have h1 : bind (recording sim) 0 (⟨[], [], [], false, 0⟩, []) "tcp://127.0.0.1:*[70000-70001]"
        error_code.clear = .error (.bad_cast, (⟨[], [], [], false, 0⟩, [])) := by decide
  refine ⟨h1, ?_, by decide⟩
  intro r hr
  rw [h1] at hr
  cases hr

/-- Group 1 of a match of the fixed port expression is not empty. -/
theorem simple_tcp_digits (ep : String) (d : List Char) (h : simple_tcp ep = some d) :
    d.isEmpty = false := by
  simp only [simple_tcp] at h
  cases hsp : split_last_colon ep.toList with
  | none => rw [hsp] at h; exact absurd h (by simp)
  | some ps =>
    obtain ⟨pre, suf⟩ := ps
    simp only [hsp] at h
    by_cases hc : ("tcp://".toList.isPrefixOf pre && (pre.drop 6).all is_dot && !suf.isEmpty
        && suf.all is_digit) = true
    · rw [if_pos hc] at h
      simp only [Option.some.injEq] at h
      subst h
      simp only [Bool.and_eq_true, Bool.not_eq_true'] at hc
      exact hc.1.2
    · rw [if_neg hc] at h
      exact absurd h (by simp)

/-- C18: on an address that does not match the dynamic port expression, with the
error code not set on entry and a `zmq_bind` that returns 0 or, with `errno` set,
a negative value, bind makes the one call `zmq_bind (ep)` and nothing else;
it returns with the address as given and with the error code set exactly when
the call failed (untouched on success); or, when the call succeeded on a fixed
port address whose digits do not fit an `int`, `std::stoi` throws
`std::out_of_range` after that one call, before anything is assigned. -/
theorem bind_fixed_address_one_call {σ : Type} (T : Transport σ) (gen : Nat) (s : σ)
    (log : List call) (ep : String) (ec : error_code)
    (hd : dynamic_tcp ep = none)
    (hrc : (T.zmq_bind s ep).1 = 0 ∨ (T.zmq_bind s ep).1 < 0)
    (herr : (T.zmq_bind s ep).1 < 0 → T.zmq_errno (T.zmq_bind s ep).2 ≠ 0)
    (hec : ec.is_set = false) :
    (∃ ec1, bind (recording T) gen (s, log) ep ec
        = .ok (ec1, ep, ((T.zmq_bind s ep).2, log ++ [.bind ep])) ∧
      (ec1.is_set = true ↔ (T.zmq_bind s ep).1 < 0) ∧
      ((T.zmq_bind s ep).1 = 0 → ec1 = ec) ∧
      ((T.zmq_bind s ep).1 < 0 → ec1 = make_error_code (T.zmq_errno (T.zmq_bind s ep).2))) ∨
    ((T.zmq_bind s ep).1 = 0 ∧ (∃ d, simple_tcp ep = some d ∧ INT_MAX < digits_value d) ∧
      bind (recording T) gen (s, log) ep ec
        = .error (.out_of_range, ((T.zmq_bind s ep).2, log ++ [.bind ep]))) := by
  have hset : ∀ e : Int, e ≠ 0 → (make_error_code e).is_set = true := by
    intro e he
    simp [make_error_code, error_code.is_set, he]
  have fail : (T.zmq_bind s ep).1 < 0 →
      ((make_error_code (T.zmq_errno (T.zmq_bind s ep).2)).is_set = true ↔ (T.zmq_bind s ep).1 < 0) ∧
      ((T.zmq_bind s ep).1 = 0 →
        make_error_code (T.zmq_errno (T.zmq_bind s ep).2) = ec) ∧
      ((T.zmq_bind s ep).1 < 0 → make_error_code (T.zmq_errno (T.zmq_bind s ep).2)
        = make_error_code (T.zmq_errno (T.zmq_bind s ep).2)) := by
    intro hneg
    exact ⟨⟨fun _ => hneg, fun _ => hset _ (herr hneg)⟩, fun h0 => by omega, fun _ => rfl⟩
  have succ : (T.zmq_bind s ep).1 = 0 →
      (ec.is_set = true ↔ (T.zmq_bind s ep).1 < 0) ∧
      ((T.zmq_bind s ep).1 = 0 → ec = ec) ∧
      ((T.zmq_bind s ep).1 < 0 → ec = make_error_code (T.zmq_errno (T.zmq_bind s ep).2)) := by
    intro h0
    refine ⟨⟨fun h => ?_, fun h => by omega⟩, fun _ => rfl, fun h => by omega⟩
    rw [hec] at h
    cases h
  cases hsimple : simple_tcp ep with
  | none =>
    simp only [socket_ops.bind, hsimple, hd, recording]
    rcases hrc with h0 | hneg
    · left
      refine ⟨ec, ?_, succ h0⟩
      simp [h0]
    · left
      refine ⟨_, ?_, fail hneg⟩
      simp [hneg]
  | some d =>
    have hne := simple_tcp_digits ep d hsimple
    simp only [socket_ops.bind, hsimple, recording]
    rcases hrc with h0 | hneg
    · by_cases hbig : INT_MAX < digits_value d
      · right
        refine ⟨h0, ⟨d, rfl, hbig⟩, ?_⟩
        simp [h0, stoi, hne, hbig]
      · left
        refine ⟨ec, ?_, succ h0⟩
        have hnn : ¬ ((digits_value d : Int) < 0) := by omega
        simp [h0, stoi, hne, hbig, hnn]
    · left
      refine ⟨_, ?_, fail hneg⟩
      have hnz : (T.zmq_bind s ep).1 ≠ 0 := by omega
      simp [hnz]

/-- Witness of C18: a fixed port address that is free, on the simulated transport. -/
theorem bind_fixed_address_one_call_witness :
    dynamic_tcp "tcp://127.0.0.1:5555" = none ∧
    bind (recording sim) 0 (⟨[], [], [], false, 0⟩, []) "tcp://127.0.0.1:5555" error_code.clear
      = .ok (error_code.clear, "tcp://127.0.0.1:5555",
          (⟨["tcp://127.0.0.1:5555"], [], [], false, 0⟩, [.bind "tcp://127.0.0.1:5555"])) ∧
    bind (recording sim) 0 (⟨["ipc:///tmp/a"], [], [], false, 0⟩, []) "ipc:///tmp/a"
        error_code.clear
      = .ok (make_error_code EADDRINUSE, "ipc:///tmp/a",
          (⟨["ipc:///tmp/a"], [], [], false, EADDRINUSE⟩, [.bind "ipc:///tmp/a"])) ∧
    ((∃ ec1, bind (recording sim) 0 (⟨[], [], [], false, 0⟩, []) "tcp://127.0.0.1:5555"
          error_code.clear
        = .ok (ec1, "tcp://127.0.0.1:5555",
            ((sim.zmq_bind ⟨[], [], [], false, 0⟩ "tcp://127.0.0.1:5555").2,
              [] ++ [.bind "tcp://127.0.0.1:5555"])) ∧
      (ec1.is_set = true ↔ (sim.zmq_bind ⟨[], [], [], false, 0⟩ "tcp://127.0.0.1:5555").1 < 0) ∧
      ((sim.zmq_bind ⟨[], [], [], false, 0⟩ "tcp://127.0.0.1:5555").1 = 0 →
        ec1 = error_code.clear) ∧
      ((sim.zmq_bind ⟨[], [], [], false, 0⟩ "tcp://127.0.0.1:5555").1 < 0 →
        ec1 = make_error_code (sim.zmq_errno
          (sim.zmq_bind ⟨[], [], [], false, 0⟩ "tcp://127.0.0.1:5555").2))) ∨
    ((sim.zmq_bind ⟨[], [], [], false, 0⟩ "tcp://127.0.0.1:5555").1 = 0 ∧
      (∃ d, simple_tcp "tcp://127.0.0.1:5555" = some d ∧ INT_MAX < digits_value d) ∧
      bind (recording sim) 0 (⟨[], [], [], false, 0⟩, []) "tcp://127.0.0.1:5555" error_code.clear
        = .error (.out_of_range,
            ((sim.zmq_bind ⟨[], [], [], false, 0⟩ "tcp://127.0.0.1:5555").2,
              [] ++ [.bind "tcp://127.0.0.1:5555"])))) :=
  ⟨by decide, by decide, by decide,
    bind_fixed_address_one_call sim 0 ⟨[], [], [], false, 0⟩ [] "tcp://127.0.0.1:5555"
      error_code.clear (by decide) (Or.inl (by decide)) (by decide) (by decide)⟩

/-- A string that ends in a colon and characters without a colon splits there. -/
theorem split_last_colon_append (pre d : List Char) (hd : ∀ c ∈ d, c ≠ ':') :
    split_last_colon (pre ++ ':' :: d) = some (pre, d) := by
  have hrev : (pre ++ ':' :: d).reverse = d.reverse ++ ':' :: pre.reverse := by simp
  have hall : ∀ a ∈ d.reverse, (fun c => c != ':') a = true := by
    intro a ha
    simpa using hd a (List.mem_reverse.mp ha)
  simp only [split_last_colon, hrev, List.dropWhile_append_of_pos hall,
    List.takeWhile_append_of_pos hall]
  simp

/-- What a split at the last colon says about the string. -/
theorem split_last_colon_spec (s pre suf : List Char) (h : split_last_colon s = some (pre, suf)) :
    s = pre ++ ':' :: suf := by
  simp only [split_last_colon] at h
  have hsplit := List.takeWhile_append_dropWhile (fun c => c != ':') s.reverse
  cases hdw : s.reverse.dropWhile (fun c => c != ':') with
  | nil => simp [hdw] at h
  | cons x rest =>
    simp only [hdw, Option.some.injEq, Prod.mk.injEq] at h
    obtain ⟨hpre, hsuf⟩ := h
    have hx : x = ':' := by
      have := List.head_dropWhile_not (fun c => c != ':') s.reverse (by simp [hdw])
      simpa [hdw] using this
    rw [hdw] at hsplit
    have : s = (s.reverse.takeWhile (fun c => c != ':') ++ x :: rest).reverse := by
      rw [hsplit]; simp
    rw [this, ← hpre, ← hsuf, hx]
    simp

/-- The decimal digit characters are digits of the regular expressions. -/
theorem is_digit_digitChar (k : Nat) (hk : k < 10) : is_digit (Nat.digitChar k) = true := by
  interval_cases k <;> decide

theorem toDigitsCore_digits : ∀ (fuel n : Nat) (ds : List Char),
    (∀ c ∈ ds, is_digit c = true) → ∀ c ∈ Nat.toDigitsCore 10 fuel n ds, is_digit c = true := by
  intro fuel
  induction fuel with
  | zero => intro n ds hds; simpa [Nat.toDigitsCore] using hds
  | succ f ih =>
    intro n ds hds
    have hcons : ∀ c ∈ Nat.digitChar (n % 10) :: ds, is_digit c = true := by
      intro c hc
      rcases List.mem_cons.mp hc with h | h
      · rw [h]; exact is_digit_digitChar _ (Nat.mod_lt _ (by decide))
      · exact hds c h
    simp only [Nat.toDigitsCore]
    split
    · exact hcons
    · exact ih _ _ hcons

theorem toDigitsCore_ne_nil : ∀ (fuel n : Nat) (ds : List Char),
    ds ≠ [] ∨ 0 < fuel → Nat.toDigitsCore 10 fuel n ds ≠ [] := by
  intro fuel
  induction fuel with
  | zero =>
    intro n ds h
    rcases h with h | h
    · simpa [Nat.toDigitsCore] using h
    · omega
  | succ f ih =>
    intro n ds _
    simp only [Nat.toDigitsCore]
    split
    · simp
    · exact ih _ _ (Or.inl (by simp))

/-- The decimal notation of a number, `std::to_string`, is one or more digits. -/
theorem toString_digits (n : Nat) :
    (toString n).toList ≠ [] ∧ ∀ c ∈ (toString n).toList, is_digit c = true := by
  have h : (toString n).toList = Nat.toDigitsCore 10 (n + 1) n [] := rfl
  rw [h]
  exact ⟨toDigitsCore_ne_nil _ _ _ (Or.inr (Nat.succ_pos n)),
    toDigitsCore_digits _ _ _ (by simp)⟩

/-- The address `P:digits` written by the dynamic bind matches the fixed port
expression, with the digits as group 1. -/
theorem simple_tcp_rewritten (pre : List Char) (p : Nat)
    (hpre : "tcp://".toList.isPrefixOf pre = true) (hdot : (pre.drop 6).all is_dot = true) :
    simple_tcp (String.mk pre ++ ":" ++ toString p) = some (toString p).toList := by
  obtain ⟨hne, hdig⟩ := toString_digits p
  have hl : (String.mk pre ++ ":" ++ toString p).toList = pre ++ ':' :: (toString p).toList := by
    simp [String.toList]
  have hcolon : ∀ c ∈ (toString p).toList, c ≠ ':' := by
    intro c hc hcc
    have := hdig c hc
    rw [hcc] at this
    exact absurd this (by decide)
  have hall : (toString p).toList.all is_digit = true := by
    simpa [List.all_eq_true] using hdig
  have hemp : (toString p).toList.isEmpty = false := by
    cases h : (toString p).toList with
    | nil => exact absurd h hne
    | cons a l => rfl
  simp only [simple_tcp, hl, split_last_colon_append pre _ hcolon, hpre, hdot, hall, hemp]
  rfl

/-- The shape of an address that matches the dynamic port expression: the host
part `P`, which starts with `tcp://`, a colon, the opcode `*` or `!`, and the
rest. -/
theorem dynamic_tcp_form (ep : String) (m : dynamic_match) (hm : dynamic_tcp ep = some m) :
    "tcp://".toList.isPrefixOf m.hostname.toList = true ∧
    (m.hostname.toList.drop 6).all is_dot = true ∧
    (m.opcode = '*' ∨ m.opcode = '!') ∧
    ∃ range : List Char, ep = m.hostname ++ ":" ++ String.mk (m.opcode :: range) := by
  simp only [dynamic_tcp] at hm
  cases hsp : split_last_colon ep.toList with
  | none => rw [hsp] at hm; exact absurd hm (by simp)
  | some ps =>
    obtain ⟨pre, suf⟩ := ps
    simp only [hsp] at hm
    cases suf with
    | nil => simp at hm
    | cons op r =>
      simp only at hm
      by_cases hc : ("tcp://".toList.isPrefixOf pre && (pre.drop 6).all is_dot
          && (op == '*' || op == '!')) = true
      · rw [if_pos hc] at hm
        cases hr : match_range r with
        | none => simp [hr] at hm
        | some dd =>
          obtain ⟨d1, d2⟩ := dd
          simp only [hr, Option.some.injEq] at hm
          subst hm
          simp only [Bool.and_eq_true, Bool.or_eq_true, beq_iff_eq] at hc
          refine ⟨hc.1.1, hc.1.2, hc.2, r, ?_⟩
          have := split_last_colon_spec _ _ _ hsp
          apply String.ext
          simp [String.toList] at this ⊢
          exact this
      · rw [if_neg hc] at hm
        simp at hm

/-- A dynamic bind loop that ends with `rc` not negative ends right after a
`zmq_bind` that returned 0, on the address `hostname:port` with `port` the
value of `rc`; that address is the one left in `ep`. -/
theorem bind_loop_success {σ : Type} (T : Transport σ) (hostname : String) (first last : Nat)
    (hfirst : first < 65536) :
    ∀ (attempts : Nat) (rc : Int) (port : Nat) (ep : String) (s : σ),
      port < 65536 →
      (rc < 0 ∨ ∃ (p : Nat) (s0 : σ), p < 65536 ∧ rc = (p : Int) ∧ ep = hostname ++ ":" ++ toString p ∧
        (T.zmq_bind s0 ep).1 = 0 ∧ s = (T.zmq_bind s0 ep).2) →
      0 ≤ (bind_loop T hostname first last attempts rc port ep s).1 →
      ∃ (p : Nat) (s0 : σ), p < 65536 ∧ (bind_loop T hostname first last attempts rc port ep s).1 = (p : Int) ∧
        (bind_loop T hostname first last attempts rc port ep s).2.1
          = hostname ++ ":" ++ toString p ∧
        (T.zmq_bind s0 (bind_loop T hostname first last attempts rc port ep s).2.1).1 = 0 ∧
        (bind_loop T hostname first last attempts rc port ep s).2.2
          = (T.zmq_bind s0 (bind_loop T hostname first last attempts rc port ep s).2.1).2 := by
  intro attempts
  induction attempts with
  | zero =>
    intro rc port ep s _ hrc h0
    simp only [bind_loop] at h0 ⊢
    rcases hrc with h | h
    · omega
    · exact h
  | succ n ih =>
    intro rc port ep s hport hrc h0
    rw [bind_loop] at h0 ⊢
    by_cases hneg : rc < 0
    · simp only [hneg, if_true] at h0 ⊢
      apply ih
      · split
        · exact hfirst
        · exact Nat.mod_lt _ (by decide)
      · by_cases hb : (T.zmq_bind s (hostname ++ ":" ++ toString port)).1 = 0
        · right
          simp only [hb, if_true]
          exact ⟨port, s, hport, rfl, rfl, hb, rfl⟩
        · left
          simp only [hb, if_false]
          exact hneg
      · exact h0
    · simp only [hneg, if_false] at h0 ⊢
      rcases hrc with h | h
      · exact absurd h hneg
      · exact h

theorem ite_pair {α β : Type} (c : Prop) [Decidable c] (a b : α) (x : β) :
    (if c then (a, x) else (b, x)) = ((if c then a else b), x) := by
  split <;> rfl

/-- The bound check of the dynamic bind passes on a bound that is absent or at
most 65535, and then the result of bind is that of the loop. -/
theorem bind_dynamic_eq {σ : Type} (T : Transport σ) (gen : Nat) (s : σ) (ep : String)
    (m : dynamic_match) (hm : dynamic_tcp ep = some m)
    (hf : m.first_str = [] ∨ digits_value m.first_str ≤ UINT16_MAX)
    (hl : m.last_str = [] ∨ digits_value m.last_str ≤ UINT16_MAX)
    (hub : m.opcode = '!' → range_first m ≤ range_last m) :
    ∃ first last port attempts : Nat, first < 65536 ∧ port < 65536 ∧
      ∀ ec : error_code, bind T gen s ep ec = .ok
        (if (bind_loop T m.hostname first last attempts (-1) port ep s).1 < 0
          then make_error_code
            (T.zmq_errno (bind_loop T m.hostname first last attempts (-1) port ep s).2.2)
          else ec,
         (bind_loop T m.hostname first last attempts (-1) port ep s).2.1,
         (bind_loop T m.hostname first last attempts (-1) port ep s).2.2) := by
  have hs := simple_tcp_of_dynamic ep m hm
  have tb : ∀ d : List Char, (d = [] ∨ digits_value d ≤ UINT16_MAX) →
      (if d.isEmpty then (Except.ok false : Except exception Bool)
        else match stoi d with
          | .ok v => Except.ok (decide (v > UINT16_MAX))
          | .error e => Except.error e) = Except.ok false := by
    intro d hd
    by_cases he : d = []
    · simp [he]
    · have hle : digits_value d ≤ UINT16_MAX := by
        rcases hd with h | h
        · exact absurd h he
        · exact h
      have hi : ¬ digits_value d > INT_MAX := by
        have : UINT16_MAX ≤ INT_MAX := by decide
        omega
      simp [he, stoi, hi, not_lt.mpr hle]
  refine ⟨if m.first_str.isEmpty then dynamic_port.first else digits_value m.first_str % 65536,
    if m.last_str.isEmpty then dynamic_port.last else digits_value m.last_str % 65536,
    if m.opcode == '!' then uniform_int_distribution
        (if m.first_str.isEmpty then dynamic_port.first else digits_value m.first_str % 65536)
        (if m.last_str.isEmpty then dynamic_port.last else digits_value m.last_str % 65536)
        gen % 65536
      else (if m.first_str.isEmpty then dynamic_port.first else digits_value m.first_str % 65536),
    attempts_count
      (if m.first_str.isEmpty then dynamic_port.first else digits_value m.first_str % 65536)
      (if m.last_str.isEmpty then dynamic_port.last else digits_value m.last_str % 65536),
    ?_, ?_, ?_⟩
  · split
    · decide
    · exact Nat.mod_lt _ (by decide)
  · split
    · exact Nat.mod_lt _ (by decide)
    · split
      · decide
      · exact Nat.mod_lt _ (by decide)
  · intro ec
    have hg : (m.opcode == '!' && decide
        ((if m.first_str.isEmpty then dynamic_port.first else digits_value m.first_str % 65536)
          > (if m.last_str.isEmpty then dynamic_port.last
              else digits_value m.last_str % 65536))) = false := by
      by_cases hop : m.opcode = '!'
      · have hle := hub hop
        simp only [range_first, range_last] at hle
        rw [decide_eq_false (not_lt.mpr hle), Bool.and_false]
      · have hno : (m.opcode == '!') = false := by simpa using hop
        rw [hno, Bool.false_and]
    simp only [socket_ops.bind, hs, hm, tb m.first_str hf, tb m.last_str hl, ite_pair, hg,
      Bool.false_eq_true, if_false]

/-- When a `zmq_bind` of the dynamic bind succeeds.  On an address `P:*` or `P:!`,
with or without a range, whose explicit bounds are at most 65535 and, for `!`,
not reversed, bind returns; when its `rc` is not negative, that is when a
`zmq_bind` of the loop returned 0, the address has been rewritten to exactly
`P:port`, `port` in decimal digits, which is the address of that successful
`zmq_bind`; the new address matches the fixed port expression and no longer the
dynamic one, and the error code is the one passed in. -/
theorem bind_rewrites_after_zmq_bind {σ : Type} (T : Transport σ) (gen : Nat) (s : σ)
    (ep : String) (m : dynamic_match) (hm : dynamic_tcp ep = some m)
    (hf : m.first_str = [] ∨ digits_value m.first_str ≤ UINT16_MAX)
    (hl : m.last_str = [] ∨ digits_value m.last_str ≤ UINT16_MAX)
    (hub : m.opcode = '!' → range_first m ≤ range_last m) :
    ("tcp://".toList.isPrefixOf m.hostname.toList = true ∧
      (m.opcode = '*' ∨ m.opcode = '!') ∧
      ∃ range : List Char, ep = m.hostname ++ ":" ++ String.mk (m.opcode :: range)) ∧
    ∃ (rc : Int) (ep1 : String) (s1 : σ),
      (∀ ec : error_code, bind T gen s ep ec
        = .ok (if rc < 0 then make_error_code (T.zmq_errno s1) else ec, ep1, s1)) ∧
      (0 ≤ rc → ∃ (port : Nat) (s0 : σ), port ≤ 65535 ∧ rc = (port : Int) ∧
        ep1 = m.hostname ++ ":" ++ toString port ∧
        (T.zmq_bind s0 ep1).1 = 0 ∧ s1 = (T.zmq_bind s0 ep1).2 ∧
        simple_tcp ep1 = some (toString port).toList ∧
        (∀ c ∈ (toString port).toList, is_digit c = true) ∧
        dynamic_tcp ep1 = none) := by
  obtain ⟨hpre, hdot, hop, hform⟩ := dynamic_tcp_form ep m hm
  refine ⟨⟨hpre, hop, hform⟩, ?_⟩
  obtain ⟨first, last, port, attempts, hfirst, hport, hb⟩ :=
    bind_dynamic_eq T gen s ep m hm hf hl hub
  refine ⟨_, _, _, hb, ?_⟩
  intro h0
  obtain ⟨p, s0, hp, hrc, hep, hz, hs1⟩ :=
    bind_loop_success T m.hostname first last hfirst attempts (-1) port ep s hport
      (Or.inl (by decide)) h0
  have hsimple : simple_tcp (m.hostname ++ ":" ++ toString p) = some (toString p).toList :=
    simple_tcp_rewritten m.hostname.toList p hpre hdot
  refine ⟨p, s0, by omega, hrc, hep, hz, hs1, ?_, (toString_digits p).2, ?_⟩
  · rw [hep]; exact hsimple
  · rw [hep]
    cases hd : dynamic_tcp (m.hostname ++ ":" ++ toString p) with
    | none => rfl
    | some m2 =>
      have := simple_tcp_of_dynamic _ m2 hd
      rw [hsimple] at this
      cases this

/-- C19 (defect of the code): on a range of one port the dynamic bind makes no
`zmq_bind` at all, and with `errno` at zero it returns an error code that tests
false: the caller sees a bind that succeeded.  The address is left as it was
given, with its `*` or `!` and its range; it matches the dynamic expression and
not the fixed port one, although the port of the range is free. -/
theorem bind_one_port_range_succeeds_unrewritten :
    bind (recording sim) 0 (⟨[], [], [], false, 0⟩, []) "tcp://127.0.0.1:*[7000-7000]"
        error_code.clear
      = .ok (make_error_code 0, "tcp://127.0.0.1:*[7000-7000]", (⟨[], [], [], false, 0⟩, []))
    ∧ bind (recording sim) 0 (⟨[], [], [], false, 0⟩, []) "tcp://127.0.0.1:![7000-7000]"
        error_code.clear
      = .ok (make_error_code 0, "tcp://127.0.0.1:![7000-7000]", (⟨[], [], [], false, 0⟩, []))
    ∧ (make_error_code 0).is_set = false
    ∧ simple_tcp "tcp://127.0.0.1:*[7000-7000]" = none
    ∧ dynamic_tcp "tcp://127.0.0.1:*[7000-7000]"
        = some ⟨"tcp://127.0.0.1", '*', "7000".toList, "7000".toList⟩
    ∧ (sim.zmq_bind ⟨[], [], [], false, 0⟩ "tcp://127.0.0.1:7000").1 = 0 := by
  refine ⟨?_, ?_, ?_, ?_, ?_, ?_⟩ <;> decide

/-! ## The error codes the operations leave -/

theorem zeromq_or_kept_refl (ec : error_code) : zeromq_or_kept ec ec := Or.inl rfl

theorem zeromq_or_kept_make (ec : error_code) (ev : Int) :
    zeromq_or_kept ec (make_error_code ev) := Or.inr rfl

theorem zeromq_or_kept_trans (a b c : error_code) (h1 : zeromq_or_kept a b)
    (h2 : zeromq_or_kept b c) : zeromq_or_kept a c := by
  rcases h2 with h | h
  · rw [h]; exact h1
  · exact Or.inr h

theorem send_message_category {σ : Type} (T : Transport σ) (msg : frame) (s : σ) (flags : Nat)
    (ec : error_code) : zeromq_or_kept ec (send_message T msg s flags ec).2.2 := by
  simp only [send_message]
  split
  · exact zeromq_or_kept_make _ _
  · exact zeromq_or_kept_refl _

theorem receive_message_category {σ : Type} (T : Transport σ) (msg : frame) (s : σ) (flags : Nat)
    (ec : error_code) : zeromq_or_kept ec (receive_message T msg s flags ec).ec := by
  simp only [receive_message]
  split
  · exact zeromq_or_kept_make _ _
  · exact zeromq_or_kept_refl _

theorem send_loop_category {σ : Type} (T : Transport σ) (last : Int) (flags : Nat) :
    ∀ (bufs : List (List Byte)) (index res : Nat) (s : σ) (ec : error_code),
      zeromq_or_kept ec (send_loop T last flags bufs index res s ec).2.2 := by
  intro bufs
  induction bufs with
  | nil => intro index res s ec; exact zeromq_or_kept_refl _
  | cons b rest ih =>
    intro index res s ec
    rw [send_loop]
    generalize (if (index : Int) = last then flags else flags ||| ZMQ_SNDMORE) = f0
    by_cases hset : (send_message T ⟨b, false⟩ s f0 ec).2.2.is_set = true
    · rw [if_pos hset]
      exact send_message_category T _ s _ ec
    · rw [if_neg hset]
      exact zeromq_or_kept_trans _ _ _ (send_message_category T _ s _ ec) (ih _ _ _ _)

theorem receive_loop_category {σ : Type} (T : Transport σ) :
    ∀ (it done : List (List Byte)) (msg : frame) (res flags : Nat) (s : σ) (ec : error_code)
      (r : receive_result σ), receive_loop T it done msg res flags s ec = .ok r →
      zeromq_or_kept ec r.ec ∨ r.ec = no_buffer_space := by
  intro it
  induction it with
  | nil =>
    intro done msg res flags s ec r h
    rw [receive_loop] at h
    try simp only at h
    split at h
    · cases h
      exact Or.inl (receive_message_category T msg s flags ec)
    · cases h
  | cons b rest ih =>
    intro done msg res flags s ec r h
    rw [receive_loop] at h
    try simp only at h
    have hm := receive_message_category T msg s flags ec
    split at h
    · cases h
      exact Or.inl hm
    · split at h
      · cases h
        exact Or.inr rfl
      · split at h
        · rcases ih _ _ _ _ _ _ _ h with h2 | h2
          · exact Or.inl (zeromq_or_kept_trans _ _ _ hm h2)
          · exact Or.inr h2
        · cases h
          simp only
          split
          · exact Or.inr rfl
          · exact Or.inl hm

theorem receive_more_loop_category {σ : Type} (T : Transport σ) :
    ∀ (fuel : Nat) (vec : List frame) (msg : frame) (res flags : Nat) (s : σ) (ec : error_code)
      (r : receive_more_result σ), receive_more_loop T fuel vec msg res flags s ec = some r →
      zeromq_or_kept ec r.ec := by
  intro fuel
  induction fuel with
  | zero => intro vec msg res flags s ec r h; simp [receive_more_loop] at h
  | succ n ih =>
    intro vec msg res flags s ec r h
    rw [receive_more_loop] at h
    try simp only at h
    have hm := receive_message_category T msg s flags ec
    split at h
    · cases h
      exact hm
    · split at h
      · exact zeromq_or_kept_trans _ _ _ hm (ih _ _ _ _ _ _ _ h)
      · cases h
        exact hm

theorem flush_loop_category {σ : Type} (T : Transport σ) :
    ∀ (fuel : Nat) (msg : frame) (res : Nat) (s : σ) (ec : error_code)
      (r : Nat × σ × error_code), flush_loop T fuel msg res s ec = some r →
      zeromq_or_kept ec r.2.2 := by
  intro fuel
  induction fuel with
  | zero => intro msg res s ec r h; simp [flush_loop] at h
  | succ n ih =>
    intro msg res s ec r h
    rw [flush_loop] at h
    try simp only at h
    split at h
    · have hm := receive_message_category T msg (get_socket_rcvmore T s).2 ZMQ_RCVMORE ec
      split at h
      · cases h
        exact hm
      · exact zeromq_or_kept_trans _ _ _ hm (ih _ _ _ _ _ h)
    · cases h
      exact zeromq_or_kept_refl _

theorem bind_category {σ : Type} (T : Transport σ) (gen : Nat) (s : σ) (ep : String)
    (ec : error_code) (r : error_code × String × σ) (h : bind T gen s ep ec = .ok r) :
    zeromq_or_kept ec r.1 := by
  simp only [socket_ops.bind] at h
  repeat' split at h
  all_goals
    cases h <;> first
      | exact zeromq_or_kept_make _ _
      | exact zeromq_or_kept_refl _


/-- C16 as the code has it: every error code an operation stores is of the
category named "ZeroMQ", made by `make_error_code` from `errno`, except the
`no_buffer_space` of the buffer sequence receive, which is of the generic
category. -/
theorem stored_errors_zeromq_or_generic_no_buffer_space {σ : Type} (A : Api σ) :
    (∀ gen s ep ec r, bind A.toTransport gen s ep ec = .ok r → zeromq_or_kept ec r.1) ∧
    (∀ s ep ec, zeromq_or_kept ec (unbind A s ep ec).1) ∧
    (∀ s ep ec, zeromq_or_kept ec (connect A s ep ec).1) ∧
    (∀ s ep ec, zeromq_or_kept ec (disconnect A s ep ec).1) ∧
    (∀ s opt ec, zeromq_or_kept ec (set_opt A s opt ec).1) ∧
    (∀ s opt ec, zeromq_or_kept ec (get_option A s opt ec).1) ∧
    (∀ s ec, zeromq_or_kept ec (get_events A s ec).2.2) ∧
    (∀ s ec, zeromq_or_kept ec (get_socket_kind A s ec).2.2) ∧
    (∀ msg s flags ec, zeromq_or_kept ec (send_message A.toTransport msg s flags ec).2.2) ∧
    (∀ bufs s flags ec, zeromq_or_kept ec (send A.toTransport bufs s flags ec).2.2) ∧
    (∀ msg s flags ec, zeromq_or_kept ec (receive_message A.toTransport msg s flags ec).ec) ∧
    (∀ bufs s flags ec r, receive A.toTransport bufs s flags ec = .ok r →
      zeromq_or_kept ec r.ec ∨ r.ec = no_buffer_space) ∧
    (∀ fuel vec s flags ec r, receive_more A.toTransport fuel vec s flags ec = some r →
      zeromq_or_kept ec r.ec) ∧
    (∀ fuel s ec r, flush A.toTransport fuel s ec = some r → zeromq_or_kept ec r.2.2) ∧
    (∀ ptr s events ec, zeromq_or_kept ec (monitor A ptr s events ec).2.2) ∧
    (∀ ev, (make_error_code ev).category.name = "ZeroMQ") ∧
    no_buffer_space.category.name = "generic" ∧
    no_buffer_space.category ≠ (make_error_code ENOBUFS).category := by
  refine ⟨fun gen s ep ec r h => bind_category _ gen s ep ec r h, ?_, ?_, ?_, ?_, ?_, ?_, ?_,
    fun msg s flags ec => send_message_category _ msg s flags ec,
    fun bufs s flags ec => send_loop_category _ _ _ _ _ _ _ _,
    fun msg s flags ec => receive_message_category _ msg s flags ec,
    fun bufs s flags ec r h => receive_loop_category _ _ _ _ _ _ _ _ r h,
    fun fuel vec s flags ec r h => receive_more_loop_category _ _ _ _ _ _ _ _ r h,
    fun fuel s ec r h => flush_loop_category _ _ _ _ _ _ r h, ?_,
    fun _ => rfl, rfl, by decide⟩
  · intro s ep ec
    simp only [unbind]
    split
    · exact zeromq_or_kept_make _ _
    · exact zeromq_or_kept_refl _
  · intro s ep ec
    simp only [connect]
    split
    · exact zeromq_or_kept_make _ _
    · exact zeromq_or_kept_refl _
  · intro s ep ec
    simp only [disconnect]
    split
    · exact zeromq_or_kept_make _ _
    · exact zeromq_or_kept_refl _
  · intro s opt ec
    simp only [set_opt]
    split
    · exact zeromq_or_kept_make _ _
    · exact zeromq_or_kept_refl _
  · intro s opt ec
    simp only [get_option]
    split
    · exact zeromq_or_kept_make _ _
    · exact zeromq_or_kept_refl _
  · intro s ec
    simp only [get_events]
    split
    · exact zeromq_or_kept_make _ _
    · exact zeromq_or_kept_refl _
  · intro s ec
    simp only [get_socket_kind]
    split
    · exact zeromq_or_kept_make _ _
    · exact zeromq_or_kept_refl _
  · intro ptr s events ec
    simp only [monitor]
    split
    · exact zeromq_or_kept_make _ _
    · exact zeromq_or_kept_refl _

/-- C16 as stated fails: a receive into one buffer of one byte of a frame of two
bytes stores an error code whose category is named "generic", not "ZeroMQ"; it
is not the code `make_error_code` gives for `ENOBUFS`. -/
theorem no_buffer_space_is_not_zeromq :
    ∃ r, receive sim [[0]] ⟨[], [⟨[1, 2], false⟩], [], false, 0⟩ 0 error_code.clear = .ok r ∧
      r.ec = no_buffer_space ∧ r.ec.is_set = true ∧
      r.ec.category.name = "generic" ∧ r.ec.category.name ≠ "ZeroMQ" ∧
      r.ec ≠ make_error_code ENOBUFS :=
  ⟨_, rfl, by decide, by decide, by decide, by decide, by decide⟩

/-! ## Failures of the transport and the error code -/

theorem make_error_code_is_set (e : Int) (he : e ≠ 0) : (make_error_code e).is_set = true := by
  simp [make_error_code, error_code.is_set, he]

/-- A single message send under watch: the failure is reported, and an error code
that is not set afterwards means the call went through. -/
theorem send_message_watching {σ : Type} (A : Api σ) (hA : errno_on_failure A) (msg : frame)
    (st : σ × Option zmq_fn) (flags : Nat) (ec : error_code) :
    reported A (send_message (watching A).toTransport msg st flags ec).2.1
      (send_message (watching A).toTransport msg st flags ec).2.2 ∧
    ((send_message (watching A).toTransport msg st flags ec).2.2.is_set = false →
      (send_message (watching A).toTransport msg st flags ec).2.1.2 = none) := by
  have hc := hA.2.1 st.1 msg flags
  by_cases hneg : (A.zmq_msg_send st.1 msg flags).1 < 0
  · have hs := make_error_code_is_set _ (hc hneg)
    simp [send_message, watching, hneg, reported, hs]
  · simp [send_message, watching, hneg, reported, failed_call]

/-- A single message receive under watch, as for send; the mark names no other
call than `zmq_msg_recv`. -/
theorem receive_message_watching {σ : Type} (A : Api σ) (hA : errno_on_failure A) (msg : frame)
    (st : σ × Option zmq_fn) (flags : Nat) (ec : error_code) :
    reported A (receive_message (watching A).toTransport msg st flags ec).socket
      (receive_message (watching A).toTransport msg st flags ec).ec ∧
    ((receive_message (watching A).toTransport msg st flags ec).ec.is_set = false →
      (receive_message (watching A).toTransport msg st flags ec).socket.2 = none ∧
      (receive_message (watching A).toTransport msg st flags ec).ec = ec) ∧
    (((receive_message (watching A).toTransport msg st flags ec).socket.2 = none ∧
        (receive_message (watching A).toTransport msg st flags ec).ec = ec) ∨
      (receive_message (watching A).toTransport msg st flags ec).socket.2 = some .msg_recv) := by
  have hc := hA.2.2.1 st.1 msg flags
  by_cases hneg : (A.zmq_msg_recv st.1 msg flags).1 < 0
  · have hs := make_error_code_is_set _ (hc hneg)
    simp [receive_message, watching, hneg, reported, hs, failed_call]
  · simp [receive_message, watching, hneg, reported, failed_call]

theorem send_loop_watching {σ : Type} (A : Api σ) (hA : errno_on_failure A) (last : Int)
    (flags : Nat) :
    ∀ (bufs : List (List Byte)) (index res : Nat) (st : σ × Option zmq_fn) (ec : error_code),
      st.2 = none →
      reported A (send_loop (watching A).toTransport last flags bufs index res st ec).2.1
        (send_loop (watching A).toTransport last flags bufs index res st ec).2.2 := by
  intro bufs
  induction bufs with
  | nil =>
    intro index res st ec hst
    simp only [send_loop, reported]
    exact fun h => absurd hst h
  | cons b rest ih =>
    intro index res st ec hst
    rw [send_loop]
    generalize (if (index : Int) = last then flags else flags ||| ZMQ_SNDMORE) = f0
    obtain ⟨hrep, hnone⟩ := send_message_watching A hA ⟨b, false⟩ st f0 ec
    by_cases hset : (send_message (watching A).toTransport ⟨b, false⟩ st f0 ec).2.2.is_set = true
    · rw [if_pos hset]
      exact hrep
    · rw [if_neg hset]
      exact ih _ _ _ _ (hnone (by simpa using hset))

theorem receive_loop_watching {σ : Type} (A : Api σ) (hA : errno_on_failure A) :
    ∀ (it done : List (List Byte)) (msg : frame) (res flags : Nat) (st : σ × Option zmq_fn)
      (ec : error_code) (r : receive_result (σ × Option zmq_fn)),
      receive_loop (watching A).toTransport it done msg res flags st ec = .ok r →
      reported A r.socket r.ec := by
  intro it
  induction it with
  | nil =>
    intro done msg res flags st ec r h
    rw [receive_loop] at h
    obtain ⟨hrep, _, _⟩ := receive_message_watching A hA msg st flags ec
    generalize receive_message (watching A).toTransport msg st flags ec = rm at *
    by_cases hset : rm.ec.is_set = true
    · rw [if_pos hset] at h
      cases h
      exact hrep
    · rw [if_neg hset] at h
      cases h
  | cons b rest ih =>
    intro done msg res flags st ec r h
    rw [receive_loop] at h
    obtain ⟨hrep, hnone, _⟩ := receive_message_watching A hA msg st flags ec
    generalize receive_message (watching A).toTransport msg st flags ec = rm at *
    by_cases hset : rm.ec.is_set = true
    · rw [if_pos hset] at h
      cases h
      exact hrep
    · rw [if_neg hset] at h
      have hn := (hnone (by simpa using hset)).1
      by_cases hlt : (buffer_copy b rm.msg.data).1 < rm.sz
      · rw [if_pos hlt] at h
        cases h
        exact fun hh => absurd hn hh
      · rw [if_neg hlt] at h
        by_cases hmore : (!rest.isEmpty && rm.msg.more) = true
        · rw [if_pos hmore] at h
          exact ih _ _ _ _ _ _ _ h
        · rw [if_neg hmore] at h
          cases h
          exact fun hh => absurd hn hh

theorem receive_more_loop_watching {σ : Type} (A : Api σ) (hA : errno_on_failure A) :
    ∀ (fuel : Nat) (vec : List frame) (msg : frame) (res flags : Nat) (st : σ × Option zmq_fn)
      (ec : error_code) (r : receive_more_result (σ × Option zmq_fn)),
      receive_more_loop (watching A).toTransport fuel vec msg res flags st ec = some r →
      reported A r.socket r.ec := by
  intro fuel
  induction fuel with
  | zero => intro vec msg res flags st ec r h; simp [receive_more_loop] at h
  | succ n ih =>
    intro vec msg res flags st ec r h
    rw [receive_more_loop] at h
    obtain ⟨hrep, hnone, _⟩ := receive_message_watching A hA msg st flags ec
    generalize receive_message (watching A).toTransport msg st flags ec = rm at *
    by_cases hset : rm.ec.is_set = true
    · rw [if_pos hset] at h
      cases h
      exact hrep
    · rw [if_neg hset] at h
      have hn := (hnone (by simpa using hset)).1
      by_cases hmore : rm.msg.more = true
      · rw [if_pos hmore] at h
        exact ih _ _ _ _ _ _ _ h
      · rw [if_neg hmore] at h
        cases h
        exact fun hh => absurd hn hh

/-- The flush loop under watch: a failed `zmq_msg_recv` is reported; in every
other case, a failed `zmq_getsockopt` among them, the error code is the one
passed in. -/
theorem flush_loop_watching {σ : Type} (A : Api σ) (hA : errno_on_failure A) :
    ∀ (fuel : Nat) (msg : frame) (res : Nat) (st : σ × Option zmq_fn) (ec : error_code)
      (r : Nat × (σ × Option zmq_fn) × error_code),
      flush_loop (watching A).toTransport fuel msg res st ec = some r →
      (r.2.1.2 = some .msg_recv → r.2.2 = make_error_code (A.zmq_errno r.2.1.1) ∧
        r.2.2.is_set = true) ∧
      (r.2.1.2 ≠ some .msg_recv → r.2.2 = ec) := by
  intro fuel
  induction fuel with
  | zero => intro msg res st ec r h; simp [flush_loop] at h
  | succ n ih =>
    intro msg res st ec r h
    rw [flush_loop] at h
    have hg : (get_socket_rcvmore (watching A).toTransport st).2.2 ≠ some .msg_recv := by
      simp only [get_socket_rcvmore, watching, failed_call]
      split <;> split <;> simp
    obtain ⟨hrep, hnone, hmark⟩ := receive_message_watching A hA msg
      (get_socket_rcvmore (watching A).toTransport st).2 ZMQ_RCVMORE ec
    generalize get_socket_rcvmore (watching A).toTransport st = g at *
    generalize receive_message (watching A).toTransport msg g.2 ZMQ_RCVMORE ec = rm at *
    by_cases hg1 : g.1 = true
    · rw [if_pos hg1] at h
      by_cases hset : rm.ec.is_set = true
      · rw [if_pos hset] at h
        cases h
        refine ⟨fun hh => hrep (by rw [hh]; simp), fun hh => ?_⟩
        rcases hmark with hm | hm
        · exact hm.2
        · exact absurd hm hh
      · rw [if_neg hset] at h
        have hk := (hnone (by simpa using hset)).2
        have := ih _ _ _ _ _ h
        rw [hk] at this
        exact this
    · rw [if_neg hg1] at h
      cases h
      exact ⟨fun hh => absurd hh hg, fun _ => rfl⟩

theorem bind_loop_watching {σ : Type} (A : Api σ) (hA : errno_on_failure A) (hostname : String)
    (first last : Nat) :
    ∀ (attempts : Nat) (rc : Int) (port : Nat) (ep : String) (st : σ × Option zmq_fn),
      (st.2 ≠ none → rc < 0 ∧ A.zmq_errno st.1 ≠ 0) →
      ((bind_loop (watching A).toTransport hostname first last attempts rc port ep st).2.2.2 ≠ none →
        (bind_loop (watching A).toTransport hostname first last attempts rc port ep st).1 < 0 ∧
        A.zmq_errno
          (bind_loop (watching A).toTransport hostname first last attempts rc port ep st).2.2.1
            ≠ 0) := by
  intro attempts
  induction attempts with
  | zero => intro rc port ep st hst; simpa [bind_loop] using hst
  | succ n ih =>
    intro rc port ep st hst
    rw [bind_loop]
    by_cases hneg : rc < 0
    · rw [if_pos hneg]
      apply ih
      intro hmark
      have hc := hA.1 st.1 (hostname ++ ":" ++ toString port)
      have hlt : (A.zmq_bind st.1 (hostname ++ ":" ++ toString port)).1 < 0 := by
        simp only [watching, failed_call] at hmark
        by_contra hge
        simp [hge] at hmark
      have hnz : (A.zmq_bind st.1 (hostname ++ ":" ++ toString port)).1 ≠ 0 := by omega
      simp only [watching]
      rw [if_neg hnz]
      exact ⟨hneg, hc hlt⟩
    · rw [if_neg hneg]
      exact hst

/-- Function `bind` under watch: when the last `zmq_bind` it made failed, the error
code is the ZeroMQ error of `errno`. -/
theorem bind_watching {σ : Type} (A : Api σ) (hA : errno_on_failure A) (gen : Nat) (s : σ)
    (ep : String) (ec : error_code) (r : error_code × String × (σ × Option zmq_fn))
    (h : bind (watching A).toTransport gen (s, none) ep ec = .ok r) :
    reported A r.2.2 r.1 := by
  have hc := hA.1 s ep
  have single : ∀ rc : Int, (rc < 0 ↔ (A.zmq_bind s ep).1 < 0) ∨
        ((A.zmq_bind s ep).1 ≠ 0 ∧ rc < 0) ∨ ((A.zmq_bind s ep).1 = 0) →
      reported A ((A.zmq_bind s ep).2, failed_call .bind (A.zmq_bind s ep).1)
        (if rc < 0 then make_error_code (A.zmq_errno (A.zmq_bind s ep).2) else ec) := by
    intro rc hrc hmark
    have hlt : (A.zmq_bind s ep).1 < 0 := by
      simp only [failed_call] at hmark
      by_contra hge
      simp [hge] at hmark
    have hrc2 : rc < 0 := by
      rcases hrc with h1 | h1 | h1
      · exact h1.mpr hlt
      · exact h1.2
      · omega
    rw [if_pos hrc2]
    exact ⟨rfl, make_error_code_is_set _ (hc hlt)⟩
  cases hsimple : simple_tcp ep with
  | some d =>
    simp only [socket_ops.bind, hsimple, watching] at h
    by_cases h0 : (A.zmq_bind s ep).1 = 0
    · rw [if_pos h0] at h
      cases hst : stoi d with
      | error e => simp [hst] at h
      | ok v =>
        simp only [hst, ite_pair, Except.ok.injEq] at h
        rw [← h]
        exact single v (Or.inr (Or.inr h0))
    · rw [if_neg h0] at h
      simp only [ite_pair, Except.ok.injEq] at h
      rw [← h]
      exact single (-1) (Or.inr (Or.inl ⟨h0, by decide⟩))
  | none =>
    cases hdyn : dynamic_tcp ep with
    | none =>
      simp only [socket_ops.bind, hsimple, hdyn, watching, ite_pair, Except.ok.injEq] at h
      rw [← h]
      exact single _ (Or.inl Iff.rfl)
    | some m =>
      simp only [socket_ops.bind, hsimple, hdyn] at h
      split at h
      · cases h
      · cases h
      · split at h
        · cases h
        · cases h
        · by_cases hg : (m.opcode == '!' && decide
              ((if m.first_str.isEmpty then dynamic_port.first
                  else digits_value m.first_str % 65536)
                > (if m.last_str.isEmpty then dynamic_port.last
                    else digits_value m.last_str % 65536))) = true
          · rw [if_pos hg] at h
            cases h
          · rw [if_neg hg] at h
            simp only [ite_pair, Except.ok.injEq] at h
            rw [← h]
            intro hmark
            obtain ⟨hlt, hne⟩ := bind_loop_watching A hA _ _ _ _ (-1) _ ep (s, none)
              (fun hh => absurd rfl hh) hmark
            simp only [hlt, if_true]
            exact ⟨rfl, make_error_code_is_set _ hne⟩

/-- Every call of a socket whose context has been terminated leaves `errno` at `ETERM`. -/
theorem terminated_errno_on_failure : errno_on_failure terminated := by
  refine ⟨?_, ?_, ?_, ?_, ?_, ?_, ?_, ?_, ?_, ?_⟩ <;> intros <;> simp [terminated, ETERM]

/-- C20 as the code has it, for a library that leaves `errno` non-zero when a call
fails, each operation run with its last call marked.  When the last transport
call made by bind, unbind, connect, disconnect, set_option, get_option,
get_events, get_socket_kind, send, receive, receive_more or monitor failed, the
error result is the ZeroMQ error of `errno`, and it is set; a refused candidate
of the dynamic bind that is followed by another attempt is not reported.  Of
flush it is the failure of a `zmq_msg_recv` that is reported; nothing is said
here of the option fetch of get_socket_rcvmore. -/
theorem last_failure_is_reported {σ : Type} (A : Api σ)
    (hA : errno_on_failure A) :
    (∀ gen s ep ec r, bind (watching A).toTransport gen (s, none) ep ec = .ok r →
      reported A r.2.2 r.1) ∧
    (∀ s ep ec, reported A (unbind (watching A) (s, none) ep ec).2
      (unbind (watching A) (s, none) ep ec).1) ∧
    (∀ s ep ec, reported A (connect (watching A) (s, none) ep ec).2
      (connect (watching A) (s, none) ep ec).1) ∧
    (∀ s ep ec, reported A (disconnect (watching A) (s, none) ep ec).2
      (disconnect (watching A) (s, none) ep ec).1) ∧
    (∀ s opt ec, reported A (set_opt (watching A) (s, none) opt ec).2
      (set_opt (watching A) (s, none) opt ec).1) ∧
    (∀ s opt ec, reported A (get_option (watching A) (s, none) opt ec).2.2
      (get_option (watching A) (s, none) opt ec).1) ∧
    (∀ s ec, reported A (get_events (watching A) (s, none) ec).2.1
      (get_events (watching A) (s, none) ec).2.2) ∧
    (∀ s ec, reported A (get_socket_kind (watching A) (s, none) ec).2.1
      (get_socket_kind (watching A) (s, none) ec).2.2) ∧
    (∀ ptr s events ec, reported A (monitor (watching A) ptr (s, none) events ec).2.1
      (monitor (watching A) ptr (s, none) events ec).2.2) ∧
    (∀ msg s flags ec,
      reported A (send_message (watching A).toTransport msg (s, none) flags ec).2.1
        (send_message (watching A).toTransport msg (s, none) flags ec).2.2) ∧
    (∀ bufs s flags ec, reported A (send (watching A).toTransport bufs (s, none) flags ec).2.1
      (send (watching A).toTransport bufs (s, none) flags ec).2.2) ∧
    (∀ msg s flags ec,
      reported A (receive_message (watching A).toTransport msg (s, none) flags ec).socket
        (receive_message (watching A).toTransport msg (s, none) flags ec).ec) ∧
    (∀ bufs s flags ec r, receive (watching A).toTransport bufs (s, none) flags ec = .ok r →
      reported A r.socket r.ec) ∧
    (∀ fuel vec s flags ec r,
      receive_more (watching A).toTransport fuel vec (s, none) flags ec = some r →
      reported A r.socket r.ec) ∧
    (∀ fuel s ec r, flush (watching A).toTransport fuel (s, none) ec = some r →
      r.2.1.2 = some .msg_recv →
        r.2.2 = make_error_code (A.zmq_errno r.2.1.1) ∧ r.2.2.is_set = true) := by
  obtain ⟨_, _, _, hunbind, hconnect, hdisconnect, hset, hget, hint, hmon⟩ := id hA
  refine ⟨fun gen s ep ec r h => bind_watching A hA gen s ep ec r h, ?_, ?_, ?_, ?_, ?_, ?_, ?_,
    ?_, fun msg s flags ec => (send_message_watching A hA msg _ flags ec).1,
    fun bufs s flags ec => send_loop_watching A hA _ _ _ _ _ _ _ rfl,
    fun msg s flags ec => (receive_message_watching A hA msg _ flags ec).1,
    fun bufs s flags ec r h => receive_loop_watching A hA _ _ _ _ _ _ _ r h,
    fun fuel vec s flags ec r h => receive_more_loop_watching A hA _ _ _ _ _ _ _ r h,
    fun fuel s ec r h => (flush_loop_watching A hA _ _ _ _ _ r h).1⟩
  · intro s ep ec
    by_cases hneg : (A.zmq_unbind s ep).1 < 0
    · simp [unbind, watching, reported, hneg, make_error_code_is_set _ (hunbind s ep hneg)]
    · simp [unbind, watching, reported, hneg, failed_call]
  · intro s ep ec
    by_cases hneg : (A.zmq_connect s ep).1 < 0
    · simp [connect, watching, reported, hneg, make_error_code_is_set _ (hconnect s ep hneg)]
    · simp [connect, watching, reported, hneg, failed_call]
  · intro s ep ec
    by_cases hneg : (A.zmq_disconnect s ep).1 < 0
    · simp [disconnect, watching, reported, hneg,
        make_error_code_is_set _ (hdisconnect s ep hneg)]
    · simp [disconnect, watching, reported, hneg, failed_call]
  · intro s opt ec
    by_cases hneg : (A.zmq_setsockopt s opt.name opt.data).1 < 0
    · simp [set_opt, watching, reported, hneg, make_error_code_is_set _ (hset s _ _ hneg)]
    · simp [set_opt, watching, reported, hneg, failed_call]
  · intro s opt ec
    by_cases hneg : (A.zmq_getsockopt s opt.name opt.data).1 < 0
    · simp [get_option, watching, reported, hneg, make_error_code_is_set _ (hget s _ _ hneg)]
    · simp [get_option, watching, reported, hneg, failed_call]
  · intro s ec
    by_cases hneg : (A.zmq_getsockopt_int s ZMQ_EVENTS).1 < 0
    · simp [get_events, watching, reported, hneg, make_error_code_is_set _ (hint s _ hneg)]
    · simp [get_events, watching, reported, hneg, failed_call]
  · intro s ec
    by_cases hneg : (A.zmq_getsockopt_int s ZMQ_TYPE).1 < 0
    · simp [get_socket_kind, watching, reported, hneg, make_error_code_is_set _ (hint s _ hneg)]
    · simp [get_socket_kind, watching, reported, hneg, failed_call]
  · intro ptr s events ec
    by_cases hneg : (A.zmq_socket_monitor s ("inproc://monitor-" ++ ptr) events).1 < 0
    · simp [monitor, watching, reported, hneg, make_error_code_is_set _ (hmon s _ _ hneg)]
    · simp [monitor, watching, reported, hneg, failed_call]

/-- Witness of the amended C20: a connect on a socket whose context has been
terminated reports `ETERM`. -/
theorem last_failure_is_reported_witness :
    errno_on_failure terminated ∧
    connect (watching terminated) (⟨[], [], [], false, 0⟩, none) "tcp://127.0.0.1:5555"
        error_code.clear
      = (make_error_code ETERM, (⟨[], [], [], false, ETERM⟩, some .connect)) ∧
    reported terminated
      (connect (watching terminated) (⟨[], [], [], false, 0⟩, none) "tcp://127.0.0.1:5555"
        error_code.clear).2
      (connect (watching terminated) (⟨[], [], [], false, 0⟩, none) "tcp://127.0.0.1:5555"
        error_code.clear).1 :=
  ⟨terminated_errno_on_failure, by decide,
    (last_failure_is_reported terminated terminated_errno_on_failure).2.2.1
      ⟨[], [], [], false, 0⟩ "tcp://127.0.0.1:5555" error_code.clear⟩

/-- C20 as stated fails.  On a socket whose context has been terminated, with the
rest of a message waiting, the option fetch of get_socket_rcvmore fails and the
function answers false, as it does on a sound socket with nothing waiting;
flush then returns 0 with the error code not set, as on a sound socket.  And
a dynamic bind whose first candidate is refused and whose second is accepted
returns with the error code not set. -/
theorem rcvmore_failure_is_silent :
    (terminated.zmq_getsockopt_rcvmore ⟨[], [⟨[1], false⟩], [], true, 0⟩).1 < 0 ∧
    get_socket_rcvmore terminated.toTransport ⟨[], [⟨[1], false⟩], [], true, 0⟩
      = (false, ⟨[], [⟨[1], false⟩], [], true, ETERM⟩) ∧
    get_socket_rcvmore sim ⟨[], [], [], false, 0⟩ = (false, ⟨[], [], [], false, 0⟩) ∧
    flush terminated.toTransport 1 ⟨[], [⟨[1], false⟩], [], true, 0⟩ error_code.clear
      = some (0, ⟨[], [⟨[1], false⟩], [], true, ETERM⟩, error_code.clear) ∧
    flush sim 1 ⟨[], [], [], false, 0⟩ error_code.clear
      = some (0, ⟨[], [], [], false, 0⟩, error_code.clear) ∧
    error_code.clear.is_set = false ∧
    (sim.zmq_bind ⟨["tcp://127.0.0.1:6000"], [], [], false, 0⟩ "tcp://127.0.0.1:6000").1 < 0 ∧
    bind (recording sim) 0 (⟨["tcp://127.0.0.1:6000"], [], [], false, 0⟩, [])
        "tcp://127.0.0.1:*[6000-6002]" error_code.clear
      = .ok (error_code.clear, "tcp://127.0.0.1:6001",
          (⟨["tcp://127.0.0.1:6001", "tcp://127.0.0.1:6000"], [], [], false, EADDRINUSE⟩,
            [.bind "tcp://127.0.0.1:6000", .bind "tcp://127.0.0.1:6001"])) := by
  refine ⟨?_, ?_, ?_, ?_, ?_, ?_, ?_, ?_⟩ <;> decide

/-! ## The candidates of the dynamic bind -/

/-- The step from a candidate to the next one, for a range that ends below 65535:
the claimed order. -/
theorem claimed_candidate_step (first last port k : Nat) (hfp : first ≤ port) (hpl : port ≤ last)
    (hlast : last < 65535) :
    claimed_candidate first last port 0 = port ∧
    claimed_candidate first last port (k + 1)
      = claimed_candidate first last
          (if (port + 1) % 65536 > last then first else (port + 1) % 65536) k := by
  have hp1 : (port + 1) % 65536 = port + 1 := by omega
  constructor
  · simp only [claimed_candidate, Nat.add_zero]
    rw [Nat.mod_eq_of_lt (by omega)]
    omega
  · rw [hp1]
    by_cases hlt : port + 1 > last
    · rw [if_pos hlt]
      have hpe : port = last := by omega
      subst hpe
      simp only [claimed_candidate, Nat.sub_self, Nat.zero_add]
      have : port - first + (k + 1) = (port - first + 1) + k := by omega
      rw [this, Nat.add_mod_left]
    · rw [if_neg hlt]
      simp only [claimed_candidate]
      have : port + 1 - first + k = port - first + (k + 1) := by omega
      rw [this]

/-- For a range that ends below 65535 the dynamic bind loop asks the transport for
the ports in the claimed order: the record grows by the calls for the
candidates `0, ..., m - 1`, for some `m` up to the number of attempts. -/
theorem bind_loop_candidates {σ : Type} (T : Transport σ) (hostname : String) (first last : Nat)
    (hlast : last < 65535) :
    ∀ (attempts : Nat) (rc : Int) (port : Nat) (ep : String) (s : σ) (log : List call),
      first ≤ port → port ≤ last →
      ∃ m, m ≤ attempts ∧
        (bind_loop (recording T) hostname first last attempts rc port ep (s, log)).2.2.2
          = log ++ (List.range m).map (fun k =>
              call.bind (hostname ++ ":" ++ toString (claimed_candidate first last port k))) := by
  intro attempts
  induction attempts with
  | zero => intro rc port ep s log _ _; exact ⟨0, le_refl _, by simp [bind_loop]⟩
  | succ n ih =>
    intro rc port ep s log hfp hpl
    rw [bind_loop]
    by_cases hneg : rc < 0
    · rw [if_pos hneg]
      have hp1 : (port + 1) % 65536 = port + 1 := by omega
      have hnext : first ≤ (if (port + 1) % 65536 > last then first else (port + 1) % 65536) ∧
          (if (port + 1) % 65536 > last then first else (port + 1) % 65536) ≤ last := by
        rw [hp1]; split <;> omega
      have e : ((recording T).zmq_bind (s, log) (hostname ++ ":" ++ toString port)).2
          = ((T.zmq_bind s (hostname ++ ":" ++ toString port)).2,
              log ++ [.bind (hostname ++ ":" ++ toString port)]) := rfl
      simp only [e]
      obtain ⟨m, hm, hlog⟩ := ih
        (if ((recording T).zmq_bind (s, log) (hostname ++ ":" ++ toString port)).1 = 0
          then (port : Int) else rc)
        (if (port + 1) % 65536 > last then first else (port + 1) % 65536)
        (hostname ++ ":" ++ toString port) (T.zmq_bind s (hostname ++ ":" ++ toString port)).2
        (log ++ [.bind (hostname ++ ":" ++ toString port)]) hnext.1 hnext.2
      refine ⟨m + 1, by omega, ?_⟩
      rw [hlog, List.range_succ_eq_map]
      simp only [List.map_cons, List.map_map, List.append_assoc, List.singleton_append]
      rw [(claimed_candidate_step first last port 0 hfp hpl hlast).1]
      congr 2
      apply List.map_congr_left
      intro k _
      simp only [Function.comp]
      rw [(claimed_candidate_step first last port k hfp hpl hlast).2]
    · rw [if_neg hneg]
      exact ⟨0, Nat.zero_le _, by simp⟩

/-- C21 (defect of the code): with `last = 65535` the candidate after 65535 is port
0, not `first`.  On `tcp://127.0.0.1:![65530-65535]` with the draw 65535 and the
ports 65535 and 0 in use, the transport is asked for 65535, 0 and 1, and bind
returns port 1, outside the range, although port 65530, the next candidate of
the claimed order, is free. -/
theorem bind_candidate_after_65535_is_zero :
    uniform_int_distribution 65530 65535 5 = 65535
    ∧ bind (recording sim) 5
        (⟨["tcp://127.0.0.1:65535", "tcp://127.0.0.1:0"], [], [], false, 0⟩, [])
        "tcp://127.0.0.1:![65530-65535]" error_code.clear
      = .ok (error_code.clear, "tcp://127.0.0.1:1",
          (⟨["tcp://127.0.0.1:1", "tcp://127.0.0.1:65535", "tcp://127.0.0.1:0"], [], [], false,
              EADDRINUSE⟩,
            [.bind "tcp://127.0.0.1:65535", .bind "tcp://127.0.0.1:0", .bind "tcp://127.0.0.1:1"]))
    ∧ claimed_candidate 65530 65535 65535 1 = 65530
    ∧ claimed_candidate 65530 65535 65535 2 = 65531
    ∧ (sim.zmq_bind ⟨["tcp://127.0.0.1:65535", "tcp://127.0.0.1:0"], [], [], false, 0⟩
        "tcp://127.0.0.1:65530").1 = 0 := by
  refine ⟨?_, ?_, ?_, ?_, ?_⟩ <;> decide

/-! ## The number of attempts of the dynamic bind -/

/-- When the transport refuses every bind, the loop uses up all its attempts. -/
theorem bind_loop_refused_calls {σ : Type} (T : Transport σ) (hostname : String)
    (first last : Nat) (href : ∀ s ep, (T.zmq_bind s ep).1 ≠ 0) :
    ∀ (attempts : Nat) (rc : Int) (port : Nat) (ep : String) (s : σ) (log : List call),
      rc < 0 →
      (bind_loop (recording T) hostname first last attempts rc port ep (s, log)).2.2.2.length
        = log.length + attempts := by
  intro attempts
  induction attempts with
  | zero => intro rc port ep s log _; simp [bind_loop]
  | succ n ih =>
    intro rc port ep s log hneg
    rw [bind_loop, if_pos hneg]
    have e : ((recording T).zmq_bind (s, log) (hostname ++ ":" ++ toString port))
        = ((T.zmq_bind s (hostname ++ ":" ++ toString port)).1,
            ((T.zmq_bind s (hostname ++ ":" ++ toString port)).2,
              log ++ [.bind (hostname ++ ":" ++ toString port)])) := rfl
    simp only [e, if_neg (href s (hostname ++ ":" ++ toString port))]
    rw [ih _ _ _ _ _ hneg]
    simp only [List.length_append, List.length_singleton]
    omega

/-- The dynamic bind with bounds that pass the check, written with the variables
`first`, `last` and `port` of the code. -/
theorem bind_dynamic_unfold {σ : Type} (T : Transport σ) (gen : Nat) (s : σ) (ep : String)
    (m : dynamic_match) (hm : dynamic_tcp ep = some m)
    (hf : m.first_str = [] ∨ digits_value m.first_str ≤ UINT16_MAX)
    (hl : m.last_str = [] ∨ digits_value m.last_str ≤ UINT16_MAX)
    (hub : m.opcode = '!' → range_first m ≤ range_last m) (ec : error_code) :
    bind T gen s ep ec = .ok
      (if (bind_loop T m.hostname (range_first m) (range_last m)
            (attempts_count (range_first m) (range_last m)) (-1) (range_start m gen) ep s).1 < 0
        then make_error_code (T.zmq_errno
          (bind_loop T m.hostname (range_first m) (range_last m)
            (attempts_count (range_first m) (range_last m)) (-1) (range_start m gen) ep s).2.2)
        else ec,
       (bind_loop T m.hostname (range_first m) (range_last m)
          (attempts_count (range_first m) (range_last m)) (-1) (range_start m gen) ep s).2.1,
       (bind_loop T m.hostname (range_first m) (range_last m)
          (attempts_count (range_first m) (range_last m)) (-1) (range_start m gen) ep s).2.2) := by
  have hs := simple_tcp_of_dynamic ep m hm
  have tb : ∀ d : List Char, (d = [] ∨ digits_value d ≤ UINT16_MAX) →
      (if d.isEmpty then (Except.ok false : Except exception Bool)
        else match stoi d with
          | .ok v => Except.ok (decide (v > UINT16_MAX))
          | .error e => Except.error e) = Except.ok false := by
    intro d hd
    by_cases he : d = []
    · simp [he]
    · have hle : digits_value d ≤ UINT16_MAX := by
        rcases hd with h | h
        · exact absurd h he
        · exact h
      have hi : ¬ digits_value d > INT_MAX := by
        have : UINT16_MAX ≤ INT_MAX := by decide
        omega
      simp [he, stoi, hi, not_lt.mpr hle]
  have hg : (m.opcode == '!' && decide
      ((if m.first_str.isEmpty then dynamic_port.first else digits_value m.first_str % 65536)
        > (if m.last_str.isEmpty then dynamic_port.last
            else digits_value m.last_str % 65536))) = false := by
    by_cases hop : m.opcode = '!'
    · have hle := hub hop
      simp only [range_first, range_last] at hle
      rw [decide_eq_false (not_lt.mpr hle), Bool.and_false]
    · have hno : (m.opcode == '!') = false := by simpa using hop
      rw [hno, Bool.false_and]
  simp only [socket_ops.bind, hs, hm, tb m.first_str hf, tb m.last_str hl, ite_pair,
    range_first, range_last, range_start, hg, Bool.false_eq_true, if_false]

/-- When the transport refuses every bind, a dynamic bind whose bounds pass the
check returns after `attempts` calls of `zmq_bind`. -/
theorem bind_refused_calls {σ : Type} (T : Transport σ) (href : ∀ s ep, (T.zmq_bind s ep).1 ≠ 0)
    (gen : Nat) (s : σ) (log : List call) (ep : String) (m : dynamic_match)
    (hm : dynamic_tcp ep = some m)
    (hf : m.first_str = [] ∨ digits_value m.first_str ≤ UINT16_MAX)
    (hl : m.last_str = [] ∨ digits_value m.last_str ≤ UINT16_MAX)
    (hub : m.opcode = '!' → range_first m ≤ range_last m) (ec : error_code) :
    ∃ r, bind (recording T) gen (s, log) ep ec = .ok r ∧
      r.2.2.2.length = log.length + attempts_count (range_first m) (range_last m) :=
  ⟨_, bind_dynamic_unfold (recording T) gen (s, log) ep m hm hf hl hub ec,
    bind_loop_refused_calls T m.hostname (range_first m) (range_last m) href
      (attempts_count (range_first m) (range_last m)) (-1) (range_start m gen) ep s log
      (by decide)⟩

/-- C22 (defect of the code): a range written with `first > last` is not refused and
the number of attempts is not zero.  On `tcp://127.0.0.1:*[6001-6000]`, a range
without a port, bind asks the transport for port 6001 and, when it is free,
binds it; when the transport refuses every port, bind comes back only after
4294967295 bind calls, the count `last - first = -1` running down through the
negative numbers. -/
theorem bind_reversed_range_is_tried :
    ports_in_range 6001 6000 = 0
    ∧ bind (recording sim) 0 (⟨[], [], [], false, 0⟩, []) "tcp://127.0.0.1:*[6001-6000]"
        error_code.clear
      = .ok (error_code.clear, "tcp://127.0.0.1:6001",
          (⟨["tcp://127.0.0.1:6001"], [], [], false, 0⟩, [.bind "tcp://127.0.0.1:6001"]))
    ∧ ∃ r, bind (recording terminated.toTransport) 0 (⟨[], [], [], false, 0⟩, [])
          "tcp://127.0.0.1:*[6001-6000]" error_code.clear = .ok r
        ∧ r.2.2.2.length = 4294967295 := by
  refine ⟨by decide, by decide, ?_⟩
  have hm : dynamic_tcp "tcp://127.0.0.1:*[6001-6000]"
      = some ⟨"tcp://127.0.0.1", '*', "6001".toList, "6000".toList⟩ := by decide
  have href : ∀ (s : sim_socket) (ep : String), (terminated.zmq_bind s ep).1 ≠ 0 := by
    intro s ep
    simp [terminated]
  have hatt : attempts_count (range_first ⟨"tcp://127.0.0.1", '*', "6001".toList, "6000".toList⟩)
      (range_last ⟨"tcp://127.0.0.1", '*', "6001".toList, "6000".toList⟩) = 4294967295 := by
    decide
  obtain ⟨r, hr, hlen⟩ := bind_refused_calls terminated.toTransport href 0
    ⟨[], [], [], false, 0⟩ [] "tcp://127.0.0.1:*[6001-6000]" _ hm
    (Or.inr (by decide)) (Or.inr (by decide)) (fun h => absurd h (by decide)) error_code.clear
  refine ⟨r, hr, ?_⟩
  rw [hlen]
  exact (Nat.zero_add _).trans hatt

/-! ## What a failed buffer sequence receive returns -/

/-- The count and error code of the buffer sequence receive on a transport that
delivers the frames of the message: zero with `no_buffer_space` when a frame
is larger than its buffer; else the sizes of the frames that met a buffer, with
`no_buffer_space` when frames are left. -/
theorem receive_loop_count {σ : Type} (T : Transport σ) (rest : List (List Byte)) :
    ∀ (b : List Byte) (done : List (List Byte)) (msg : frame) (res flags : Nat) (s : σ)
      (ec : error_code) (f : List Byte) (fs : List (List Byte)) (later : List frame),
      delivers T s (multipart (f :: fs) ++ later) → ec.is_set = false →
      ∃ r, receive_loop T (b :: rest) done msg res flags s ec = .ok r ∧
        (oversize (b :: rest) (f :: fs) = true → r.res = 0 ∧ r.ec = no_buffer_space) ∧
        (oversize (b :: rest) (f :: fs) = false →
          r.res = res + total_size ((f :: fs).take (b :: rest).length) ∧
          r.ec = if (b :: rest).length < (f :: fs).length then no_buffer_space else ec) := by
  induction rest with
  | nil =>
    intro b done msg res flags s ec f fs later hd hec
    have hd2 : delivers T s (⟨f, !fs.isEmpty⟩ :: (multipart fs ++ later)) := by
      simpa [multipart] using hd
    obtain ⟨hrm, _⟩ := receive_message_delivers T msg _ _ s flags ec hd2
    rw [receive_loop]
    simp only [hrm, hec]
    by_cases hlt : b.length < f.length
    · have hmin : min b.length f.length < f.length := by omega
      simp [socket_ops.buffer_copy, hlt, hmin, oversize]
    · have hmin : ¬ (min b.length f.length < f.length) := by omega
      cases fs with
      | nil => simp [socket_ops.buffer_copy, hmin, hlt, oversize, total_size]
      | cons g gs => simp [socket_ops.buffer_copy, hmin, hlt, oversize, total_size]
  | cons b2 rest ih =>
    intro b done msg res flags s ec f fs later hd hec
    have hd2 : delivers T s (⟨f, !fs.isEmpty⟩ :: (multipart fs ++ later)) := by
      simpa [multipart] using hd
    obtain ⟨hrm, hnext⟩ := receive_message_delivers T msg _ _ s flags ec hd2
    rw [receive_loop]
    simp only [hrm, hec]
    by_cases hlt : b.length < f.length
    · have hmin : min b.length f.length < f.length := by omega
      simp [socket_ops.buffer_copy, hlt, hmin, oversize]
    · have hmin : ¬ (min b.length f.length < f.length) := by omega
      cases fs with
      | nil => simp [socket_ops.buffer_copy, hmin, hlt, oversize, total_size]
      | cons g gs =>
        obtain ⟨r, hr, hover, hfit⟩ := ih b2 (done ++ [(socket_ops.buffer_copy b f).2]) ⟨f, true⟩
          (res + f.length) (flags ||| ZMQ_RCVMORE) _ ec g gs later hnext hec
        refine ⟨r, ?_, ?_, ?_⟩
        · simp only [Bool.false_eq_true, if_false]
          rw [if_neg (by simpa [socket_ops.buffer_copy] using hmin)]
          simpa using hr
        · intro ho
          exact hover (by simpa [oversize, hlt] using ho)
        · intro ho
          obtain ⟨h1, h2⟩ := hfit (by simpa [oversize, hlt] using ho)
          refine ⟨?_, ?_⟩
          · rw [h1]
            simp [total_size]
            omega
          · rw [h2]
            simp

/-- A buffer sequence receive that ends with an error code other than
`no_buffer_space` returns zero. -/
theorem receive_loop_zero_on_error {σ : Type} (T : Transport σ) :
    ∀ (it done : List (List Byte)) (msg : frame) (res flags : Nat) (s : σ) (ec : error_code)
      (r : receive_result σ), receive_loop T it done msg res flags s ec = .ok r →
      r.ec.is_set = true → r.ec ≠ no_buffer_space → r.res = 0 := by
  intro it
  induction it with
  | nil =>
    intro done msg res flags s ec r h
    rw [receive_loop] at h
    generalize receive_message T msg s flags ec = rm at *
    by_cases hset : rm.ec.is_set = true
    · rw [if_pos hset] at h
      cases h
      exact fun _ _ => rfl
    · rw [if_neg hset] at h
      cases h
  | cons b rest ih =>
    intro done msg res flags s ec r h
    rw [receive_loop] at h
    generalize receive_message T msg s flags ec = rm at *
    by_cases hset : rm.ec.is_set = true
    · rw [if_pos hset] at h
      cases h
      exact fun _ _ => rfl
    · rw [if_neg hset] at h
      by_cases hlt : (socket_ops.buffer_copy b rm.msg.data).1 < rm.sz
      · rw [if_pos hlt] at h
        cases h
        exact fun _ _ => rfl
      · rw [if_neg hlt] at h
        by_cases hmore : (!rest.isEmpty && rm.msg.more) = true
        · rw [if_pos hmore] at h
          exact ih _ _ _ _ _ _ _ h
        · rw [if_neg hmore] at h
          cases h
          intro h1 h2
          exfalso
          by_cases hm : rm.msg.more = true
          · simp [hm] at h2
          · simp only [hm] at h1
            exact hset (by simpa using h1)

/-- C23 as the code has it.  On a transport that delivers the frames of the
message, entered with the error code not set: when one of the frames that
meet a buffer is larger than it, receive returns 0 with `no_buffer_space`;
when none is and frames remain after the last of the `n` buffers, it returns
the sum of the sizes of the `n` frames it consumed, with `no_buffer_space`.
On any transport, a receive that ends with another error code that is set
returns 0. -/
theorem receive_failure_count {σ : Type} (T : Transport σ) (bs fs : List (List Byte))
    (later : List frame) (s : σ) (flags : Nat) (ec : error_code)
    (hb : bs ≠ []) (hf : fs ≠ []) (hd : delivers T s (multipart fs ++ later))
    (hec : ec.is_set = false) :
    (∃ r, receive T bs s flags ec = .ok r ∧
      (oversize bs fs = true → r.res = 0 ∧ r.ec = no_buffer_space) ∧
      (oversize bs fs = false → bs.length < fs.length →
        r.res = total_size (fs.take bs.length) ∧ r.ec = no_buffer_space)) ∧
    (∀ (bs2 : List (List Byte)) (s2 : σ) (flags2 : Nat) (ec2 : error_code)
      (r : receive_result σ), receive T bs2 s2 flags2 ec2 = .ok r →
      r.ec.is_set = true → r.ec ≠ no_buffer_space → r.res = 0) := by
  constructor
  · cases bs with
    | nil => exact absurd rfl hb
    | cons b rest =>
      cases fs with
      | nil => exact absurd rfl hf
      | cons f fs =>
        obtain ⟨r, hr, hover, hfit⟩ :=
          receive_loop_count T rest b [] empty_message 0 flags s ec f fs later hd hec
        refine ⟨r, hr, hover, ?_⟩
        intro ho hlen
        obtain ⟨h1, h2⟩ := hfit ho
        rw [if_pos hlen] at h2
        exact ⟨by simpa using h1, h2⟩
  · intro bs2 s2 flags2 ec2 r h
    exact receive_loop_zero_on_error T _ _ _ _ _ _ _ r h

/-- Witness of the amended C23: one buffer of two bytes, frames of two and of one byte. -/
theorem receive_failure_count_witness :
    ∃ r, receive sim [[0, 0]] ⟨[], [⟨[1, 2], true⟩, ⟨[3], false⟩], [], false, 0⟩ 0
        error_code.clear = .ok r ∧
      (oversize [[0, 0]] [[1, 2], [3]] = true → r.res = 0 ∧ r.ec = no_buffer_space) ∧
      (oversize [[0, 0]] [[1, 2], [3]] = false →
        [[(0 : Byte), 0]].length < [[(1 : Byte), 2], [3]].length →
        r.res = total_size ([[(1 : Byte), 2], [3]].take [[(0 : Byte), 0]].length) ∧
        r.ec = no_buffer_space) :=
  (receive_failure_count sim [[0, 0]] [[1, 2], [3]] []
    ⟨[], [⟨[1, 2], true⟩, ⟨[3], false⟩], [], false, 0⟩ 0 error_code.clear
    (by decide) (by decide)
    (sim_delivers _ _ [] (by decide)) (by decide)).1

/-- C23 as stated fails: with one buffer and a message whose first frame is empty
and whose second is not, no frame is larger than its buffer, a frame remains
after the last buffer, and receive returns `no_buffer_space` with the count 0,
the sum of the sizes of the one frame it consumed. -/
theorem receive_remaining_frames_count_can_be_zero :
    oversize [[0]] [[], [1]] = false ∧
    receive sim [[0]] ⟨[], [⟨[], true⟩, ⟨[1], false⟩], [], false, 0⟩ 0 error_code.clear
      = .ok ⟨0, [[0]], ⟨[], [⟨[1], false⟩], [], true, 0⟩, no_buffer_space⟩ ∧
    total_size ([[], [1]].take 1) = 0 := by
  refine ⟨?_, ?_, ?_⟩ <;> decide

/-! ## The more flag and the mutable view -/

/-- A message made by `zmq_msg_init_size` has no flag set. -/
theorem zmq_msg_init_size_flags (h h1 : Heap) (n : Nat) (x : zmq_msg_t)
    (hx : zmq_msg_init_size h n = .ok (x, h1)) : x.flags = 0 := by
  simp only [zmq_msg_init_size] at hx
  split at hx
  · cases hx; rfl
  · split at hx
    · cases hx; rfl
    · cases hx

/-- A write through `zmq_msg_data` leaves the flags of the message alone. -/
theorem poke_flags (h : Heap) (x : zmq_msg_t) (bytes : List Byte) :
    (poke h x bytes).1.flags = x.flags := by
  simp only [poke]
  split
  · rfl
  · split <;> rfl
  · rfl
  · rfl

/-- The message `deep_copy` leaves has no flag set. -/
theorem deep_copy_flags (h h1 : Heap) (m m1 : message) (hd : deep_copy h m = .ok (m1, h1)) :
    m1.msg_.flags = 0 := by
  simp only [deep_copy] at hd
  cases hmv : zmq_msg_move h zmq_msg_init m.msg_ with
  | error e => simp [hmv] at hd
  | ok r =>
    obtain ⟨tmp, src, h2⟩ := r
    simp only [hmv] at hd
    cases hin : zmq_msg_init_size h2 (size h m) with
    | error e => simp [hin] at hd
    | ok r2 =>
      obtain ⟨x, h3⟩ := r2
      have hx := zmq_msg_init_size_flags _ _ _ _ hin
      simp only [hin] at hd
      split at hd
      · cases hd
        simp [poke_flags, hx]
      · cases hd
        simp [poke_flags, hx]

/-- The mutable view of a valid message returns when there is memory for the copy. -/
theorem buffer_returns (h : Heap) (m : message) (hv : m.valid h = true)
    (hmem : m.is_shared = false ∨ size h m ≤ max_vsm_size ∨
      sizeof_content_t + size h m ≤ h.avail) :
    ∃ m1 h1, buffer h m = .ok (m1, h1) := by
  by_cases hs : m.is_shared = false
  · exact ⟨m, h, by simp [buffer, hs]⟩
  · have hs1 : m.is_shared = true := by simpa using hs
    have hmem2 : size h m ≤ max_vsm_size ∨ sizeof_content_t + size h m ≤ h.avail := by
      rcases hmem with h0 | h0
      · exact absurd h0 hs
      · exact h0
    have hmove : ∃ h2, zmq_msg_move h zmq_msg_init m.msg_ = .ok (m.msg_, zmq_msg_init, h2)
        ∧ h2.avail = h.avail := by
      obtain ⟨⟨body, fl⟩⟩ := m
      cases body with
      | closed => simp [message.valid] at hv
      | vsm b => exact ⟨h, by simp [zmq_msg_move, zmq_msg_close, zmq_msg_init], rfl⟩
      | cmsg p n => exact ⟨h, by simp [zmq_msg_move, zmq_msg_close, zmq_msg_init], rfl⟩
      | lmsg k => exact ⟨h, by simp [zmq_msg_move, zmq_msg_close, zmq_msg_init], rfl⟩
    obtain ⟨h2, hmv, hav⟩ := hmove
    have hinit : ∃ x h3, zmq_msg_init_size h2 (size h m) = .ok (x, h3) := by
      simp only [zmq_msg_init_size]
      rcases hmem2 with h0 | h0
      · exact ⟨_, _, by rw [if_pos h0]⟩
      · by_cases hsmall : size h m ≤ max_vsm_size
        · exact ⟨_, _, by rw [if_pos hsmall]⟩
        · exact ⟨_, _, by rw [if_neg hsmall, if_pos (by rw [hav]; exact h0)]⟩
    obtain ⟨x, h3, hin⟩ := hinit
    simp only [buffer, hs1, if_true, deep_copy, hmv, hin]
    split
    · exact ⟨_, _, rfl⟩
    · exact ⟨_, _, rfl⟩

/-- C24: the mutable view `buffer()` of a valid message returns when there is
memory for the copy; for a shared message the message it leaves has `more()`
false, whatever it was before, and for a message that is not shared `more()`
is as before. -/
theorem mutable_view_drops_more (h : Heap) (m : message) (hv : m.valid h = true)
    (hmem : m.is_shared = false ∨ size h m ≤ max_vsm_size ∨
      sizeof_content_t + size h m ≤ h.avail) :
    ∃ m1 h1, buffer h m = .ok (m1, h1) ∧
      (m.is_shared = true → m1.more = false) ∧
      (m.is_shared = false → m1.more = m.more) := by
  obtain ⟨m1, h1, hb⟩ := buffer_returns h m hv hmem
  refine ⟨m1, h1, hb, ?_, ?_⟩
  · intro hs
    simp only [buffer, hs, if_true] at hb
    have := deep_copy_flags h h1 m m1 hb
    simp [more, zmq_msg_more, this]
  · intro hs
    simp only [buffer, hs] at hb
    simp at hb
    rw [← hb.1]

/-- Witness of C24: a shared message of 40 bytes with the more flag set. -/
theorem mutable_view_drops_more_witness :
    shared_more_message.valid shared_heap = true ∧ shared_more_message.is_shared = true ∧
    shared_more_message.more = true ∧
    ∃ m1 h1, buffer shared_heap shared_more_message = .ok (m1, h1) ∧
      (shared_more_message.is_shared = true → m1.more = false) ∧
      (shared_more_message.is_shared = false → m1.more = shared_more_message.more) :=
  ⟨by decide, by decide, by decide,
    mutable_view_drops_more shared_heap shared_more_message (by decide)
      (Or.inr (Or.inr (by decide)))⟩

/-! ## Positions of the buffer sequence reached by receive -/

/-- A single message receive on a recorded transport adds one `zmq_msg_recv` to the record. -/
theorem receive_message_recording {σ : Type} (T : Transport σ) (msg : frame)
    (st : σ × List call) (flags : Nat) (ec : error_code) :
    (receive_message (recording T) msg st flags ec).socket.2 = st.2 ++ [.msg_recv flags] ∧
    (receive_message (recording T) msg st flags ec).ec
      = (receive_message T msg st.1 flags ec).ec ∧
    (receive_message (recording T) msg st flags ec).socket.1
      = (T.zmq_msg_recv st.1 msg flags).2.2 := by
  simp only [receive_message, recording]
  split <;> exact ⟨rfl, rfl, rfl⟩

/-- On a sequence that is not empty the receive loop ends without stepping past
the end: it makes at least one and at most as many `zmq_msg_recv` calls as there
are buffers from the iterator on, and the sequence keeps its length. -/
theorem receive_loop_in_range {σ : Type} (T : Transport σ) (rest : List (List Byte)) :
    ∀ (b : List Byte) (done : List (List Byte)) (msg : frame) (res flags : Nat)
      (st : σ × List call) (ec : error_code),
      ∃ r, receive_loop (recording T) (b :: rest) done msg res flags st ec = .ok r ∧
        r.buffers.length = done.length + (b :: rest).length ∧
        ∃ fl : List Nat, r.socket.2 = st.2 ++ fl.map call.msg_recv ∧
          1 ≤ fl.length ∧ fl.length ≤ (b :: rest).length := by
  induction rest with
  | nil =>
    intro b done msg res flags st ec
    rw [receive_loop]
    obtain ⟨hlog, _⟩ := receive_message_recording T msg st flags ec
    generalize receive_message (recording T) msg st flags ec = rm at *
    have hfl : ∃ fl : List Nat, rm.socket.2 = st.2 ++ fl.map call.msg_recv ∧
        1 ≤ fl.length ∧ fl.length ≤ [b].length := ⟨[flags], by simpa using hlog, by simp, by simp⟩
    by_cases hset : rm.ec.is_set = true
    · rw [if_pos hset]
      exact ⟨_, rfl, by simp, hfl⟩
    · rw [if_neg hset]
      by_cases hlt : (socket_ops.buffer_copy b rm.msg.data).1 < rm.sz
      · rw [if_pos hlt]
        exact ⟨_, rfl, by simp, hfl⟩
      · rw [if_neg hlt]
        simp only [List.isEmpty_nil, Bool.not_true, Bool.false_and, Bool.false_eq_true, if_false]
        exact ⟨_, rfl, by simp, hfl⟩
  | cons b2 rest ih =>
    intro b done msg res flags st ec
    rw [receive_loop]
    obtain ⟨hlog, _⟩ := receive_message_recording T msg st flags ec
    generalize receive_message (recording T) msg st flags ec = rm at *
    have hfl : ∃ fl : List Nat, rm.socket.2 = st.2 ++ fl.map call.msg_recv ∧
        1 ≤ fl.length ∧ fl.length ≤ (b :: b2 :: rest).length :=
      ⟨[flags], by simpa using hlog, by simp, by simp⟩
    by_cases hset : rm.ec.is_set = true
    · rw [if_pos hset]
      exact ⟨_, rfl, by simp, hfl⟩
    · rw [if_neg hset]
      by_cases hlt : (socket_ops.buffer_copy b rm.msg.data).1 < rm.sz
      · rw [if_pos hlt]
        exact ⟨_, rfl, by simp, hfl⟩
      · rw [if_neg hlt]
        by_cases hmore : (!(b2 :: rest).isEmpty && rm.msg.more) = true
        · rw [if_pos hmore]
          obtain ⟨r, hr, hlen, fl, hcalls, h1, h2⟩ :=
            ih b2 (done ++ [(socket_ops.buffer_copy b rm.msg.data).2]) rm.msg (res + rm.sz)
              (flags ||| ZMQ_RCVMORE) rm.socket rm.ec
          refine ⟨r, hr, ?_, flags :: fl, ?_, by simp, ?_⟩
          · simp only [List.length_append, List.length_cons, List.length_nil] at hlen ⊢
            omega
          · rw [hcalls, hlog]
            simp
          · simp only [List.length_cons] at h2 ⊢
            omega
        · rw [if_neg hmore]
          exact ⟨_, rfl, by simp, hfl⟩

/-- C25: on a buffer sequence of `n ≥ 1` buffers, whatever the transport does, the
buffer sequence receive ends without a step past the end of the sequence: it
returns, the sequence has its `n` buffers, and between one and `n` frames were
asked of the transport, by `zmq_msg_recv` calls only.  On the empty sequence
one `zmq_msg_recv` is made and, unless the error code is set after it, `*it`
is evaluated at the end of the sequence. -/
theorem receive_stays_in_range {σ : Type} (T : Transport σ) :
    (∀ (buffers : List (List Byte)) (s : σ) (log : List call) (flags : Nat) (ec : error_code),
      buffers ≠ [] →
      ∃ r, receive (recording T) buffers (s, log) flags ec = .ok r ∧
        r.buffers.length = buffers.length ∧
        ∃ fl : List Nat, r.socket.2 = log ++ fl.map call.msg_recv ∧
          1 ≤ fl.length ∧ fl.length ≤ buffers.length) ∧
    (∀ (s : σ) (log : List call) (flags : Nat) (ec : error_code),
      (receive_message T empty_message s flags ec).ec.is_set = false →
      receive (recording T) [] (s, log) flags ec
        = .error (.dereference_end,
            ((T.zmq_msg_recv s empty_message flags).2.2, log ++ [.msg_recv flags]))) := by
  constructor
  · intro buffers s log flags ec hne
    cases buffers with
    | nil => exact absurd rfl hne
    | cons b rest =>
      obtain ⟨r, hr, hlen, hfl⟩ :=
        receive_loop_in_range T rest b [] empty_message 0 flags (s, log) ec
      exact ⟨r, hr, by simpa using hlen, hfl⟩
  · intro s log flags ec hns
    obtain ⟨hlog, hec, hsock⟩ := receive_message_recording T empty_message (s, log) flags ec
    have hns2 : ¬ (receive_message (recording T) empty_message (s, log) flags ec).ec.is_set
        = true := by rw [hec, hns]; simp
    simp only [receive, receive_loop]
    rw [if_neg hns2]
    congr 2
    exact Prod.ext hsock hlog

/-- Witness of C25: two buffers and a message of three frames; and the empty
sequence with one frame waiting. -/
theorem receive_stays_in_range_witness :
    (∃ r, receive (recording sim) [[0], [0]]
        (⟨[], [⟨[1], true⟩, ⟨[2], true⟩, ⟨[3], false⟩], [], false, 0⟩, []) 0 error_code.clear
          = .ok r ∧
        r.buffers.length = [[(0 : Byte)], [0]].length ∧
        ∃ fl : List Nat, r.socket.2 = [] ++ fl.map call.msg_recv ∧
          1 ≤ fl.length ∧ fl.length ≤ [[(0 : Byte)], [0]].length) ∧
    receive (recording sim) [] (⟨[], [⟨[1], false⟩], [], false, 0⟩, []) 0 error_code.clear
      = .error (.dereference_end, (⟨[], [], [], false, 0⟩, [.msg_recv 0])) :=
  ⟨(receive_stays_in_range sim).1 [[0], [0]]
      ⟨[], [⟨[1], true⟩, ⟨[2], true⟩, ⟨[3], false⟩], [], false, 0⟩ [] 0 error_code.clear
      (by decide),
    by decide⟩

/-! ## An error code that is set on entry -/

/-- C4 as stated fails.  Entered with an error code that is already set, the
multipart send of two buffers makes the `zmq_msg_send` call of the first
buffer only and returns 0: the one frame on the wire has `more()` true.  And
on a transport that refuses the second frame the frame read last has `more()`
true as well. -/
theorem send_entered_with_error_stops_after_first_frame :
    (make_error_code EAGAIN).is_set = true ∧ 0 &&& ZMQ_SNDMORE = 0 ∧
    send (recording sim) [[65], [66]] (⟨[], [], [], false, 0⟩, []) 0 (make_error_code EAGAIN)
      = (0, (⟨[], [], [⟨[65], true⟩], false, 0⟩, [.msg_send ⟨[65], false⟩ 2]),
          make_error_code EAGAIN) ∧
    send (recording (sim_hwm 1)) [[65], [66]] (⟨[], [], [], false, 0⟩, []) 0 error_code.clear
      = (0, (⟨[], [], [⟨[65], true⟩], false, EAGAIN⟩,
            [.msg_send ⟨[65], false⟩ 2, .msg_send ⟨[66], false⟩ 0]),
          make_error_code EAGAIN) := by
  refine ⟨?_, ?_, ?_, ?_⟩ <;> decide

/-- C7 as stated fails.  With the frames "A" (more) and "B" waiting and no error
from the transport, a `receive_more` entered with an error code already set
takes the frame "A", appends nothing to the collection and returns 0. -/
theorem receive_more_entered_with_error_appends_nothing :
    (make_error_code EAGAIN).is_set = true ∧
    0 ≤ (sim.zmq_msg_recv ⟨[], [⟨[65], true⟩, ⟨[66], false⟩], [], false, 0⟩ empty_message 0).1 ∧
    receive_more sim 2 [] ⟨[], [⟨[65], true⟩, ⟨[66], false⟩], [], false, 0⟩ 0
        (make_error_code EAGAIN)
      = some ⟨0, [], ⟨[], [⟨[66], false⟩], [], true, 0⟩, make_error_code EAGAIN⟩ := by
  refine ⟨?_, ?_, ?_⟩ <;> decide

/-- C8 as stated fails.  A receive of the message "A", "B", "C" into one buffer
ends with `no_buffer_space`; flush, handed the error code that receive has just
set, takes the frame "B" only, returns 0 and leaves the receive-more indicator
true; the receive that follows, even with a clear error code, delivers "C", a
frame of the old message, and not the next message "D". -/
theorem flush_with_error_of_failed_receive_leaves_message :
    receive sim [[0, 0]]
        ⟨[], [⟨[65], true⟩, ⟨[66], true⟩, ⟨[67], false⟩, ⟨[68], false⟩], [], false, 0⟩ 0
        error_code.clear
      = .ok ⟨1, [[65, 0]], ⟨[], [⟨[66], true⟩, ⟨[67], false⟩, ⟨[68], false⟩], [], true, 0⟩,
          no_buffer_space⟩ ∧
    flush sim 4 ⟨[], [⟨[66], true⟩, ⟨[67], false⟩, ⟨[68], false⟩], [], true, 0⟩ no_buffer_space
      = some (0, ⟨[], [⟨[67], false⟩, ⟨[68], false⟩], [], true, 0⟩, no_buffer_space) ∧
    receive sim [[0, 0]] ⟨[], [⟨[67], false⟩, ⟨[68], false⟩], [], true, 0⟩ 0 error_code.clear
      = .ok ⟨1, [[67, 0]], ⟨[], [⟨[68], false⟩], [], false, 0⟩, error_code.clear⟩ := by
  refine ⟨?_, ?_, ?_⟩ <;> decide

end azmq
